import Mathlib

/-!
# methcounts: per-site methylation counting

A shallow embedding of `src/analysis/methcounts.cpp`: the contribution
accumulators (`add_contribution_cpg`, `add_contribution_c`, `add_contribution_g`,
three overload sets), the coordinate window (`precedes`, `succeeds`, `advance`,
`advance_chromosome`) and the scan drivers (`scan_chromosome_cpg`,
`scan_chromosome`); and of `src/common/Epiread.cpp`: the input and output
operators of `epiread` and `validate_epiread_file`. The properties proved about
them follow the definitions.

Conventions.
* `size_t` values are natural numbers; subtraction and addition on them are the
  wrapping operations `usub` and `uadd` (modulus `2 ^ 64`).
* `std::string` is `List Char`; `s[position]` is `s[position]?`, and a function
  that would read outside a string, or fail an `assert`, returns `none`.
* The evidence counters `meth` and `unmeth` are natural numbers (a counter would
  need `2 ^ 64` window pairs to wrap).
* The read stream behind a `FileIterator` is the list of all its records; the
  cursor positions `first` and `last` are indices into that list.
-/

namespace Methcounts

/-! ## Machine arithmetic -/

/-- Modulus of the 64-bit `size_t`. -/
def SIZE_MOD : Nat := 2 ^ 64

/-- Wrapping `size_t` subtraction `a - b`. -/
def usub (a b : Nat) : Nat := (a % SIZE_MOD + (SIZE_MOD - b % SIZE_MOD)) % SIZE_MOD

/-- Wrapping `size_t` addition `a + b`. -/
def uadd (a b : Nat) : Nat := (a + b) % SIZE_MOD

/-! ## Bases -/

/-- Modelled from the spec: `is_cytosine` of `bsutils.hpp`, which is not among the
sources; a called base is a cytosine when it is the letter C in either case. -/
def is_cytosine (c : Char) : Bool := c == 'c' || c == 'C'

/-- Modelled from the spec: `is_thymine` of `bsutils.hpp`, which is not among the
sources; a called base is a thymine when it is the letter T in either case. -/
def is_thymine (c : Char) : Bool := c == 't' || c == 'T'

/-- Modelled from the spec: `is_guanine` of `bsutils.hpp`, which is not among the
sources; a base is a guanine when it is the letter G in either case. -/
def is_guanine (c : Char) : Bool := c == 'g' || c == 'G'

/-- Modelled from the spec: `is_cpg` of `bsutils.hpp`, which is not among the
sources; positions `i`, `i + 1` of `s` form a CpG when `s[i]` is a cytosine and
`s[i + 1]` a guanine. The test reads both positions; `none` when one of them is
outside `s`. -/
def is_cpg (s : List Char) (i : Nat) : Option Bool :=
  match s[i]?, s[uadd i 1]? with
  | some c, some g => some (is_cytosine c && is_guanine g)
  | _, _ => none

/-! ## Data model -/

/-- Modelled from the spec: `GenomicRegion` of `GenomicRegion.hpp`, which is not
among the sources; a chromosome name, half-open start and end offsets, a strand
character and an alignment score (the mismatch count, possibly fractional, taken
as a rational number). -/
structure GenomicRegion where
  chrom : String
  start : Nat
  end_ : Nat
  strand : Char
  score : ℚ
  deriving DecidableEq

namespace GenomicRegion

/-- Accessor `get_chrom()`. -/
def get_chrom (r : GenomicRegion) : String := r.chrom

/-- Accessor `get_start()`. -/
def get_start (r : GenomicRegion) : Nat := r.start

/-- Accessor `get_end()`. -/
def get_end (r : GenomicRegion) : Nat := r.end_

/-- Accessor `get_score()`. -/
def get_score (r : GenomicRegion) : ℚ := r.score

/-- Strand test `pos_strand()`: the strand is `+`. -/
def pos_strand (r : GenomicRegion) : Bool := r.strand == '+'

/-- Strand test `neg_strand()`: the strand is `-`. -/
def neg_strand (r : GenomicRegion) : Bool := r.strand == '-'

/-- Chromosome test `same_chrom(other)`. -/
def same_chrom (r other : GenomicRegion) : Bool := r.chrom == other.chrom

end GenomicRegion

/-- The record type `FASTQRecord`, a pair of strings: `first` is the base-call
sequence and `second` the quality string. -/
structure FASTQRecord where
  first : List Char
  second : List Char
  deriving DecidableEq

/-- The two statements `if (is_cytosine(c)) ++meth; if (is_thymine(c)) ++unmeth;`
that every accumulator runs on the base `c` it has selected; `mu` is the pair
`(meth, unmeth)`. -/
def count_base (c : Char) (mu : Nat × Nat) : Nat × Nat :=
  let meth := if is_cytosine c then mu.1 + 1 else mu.1
  let unmeth := if is_thymine c then mu.2 + 1 else mu.2
  (meth, unmeth)

/-! ## Accumulators on plain sequences (`std::string`) -/

namespace PlainSeq

/-- The overload `add_contribution_cpg(offset, r, s, meth, unmeth)` for `string`
reads (lines 51-71). Both branches are guarded by `position < s.length()`. -/
def add_contribution_cpg (offset : Nat) (r : GenomicRegion) (s : List Char)
    (mu : Nat × Nat) : Option (Nat × Nat) :=
  if r.pos_strand && decide (r.get_start ≤ offset) then
    let position := usub offset r.get_start
    if position < s.length then
      (s[position]?).map (fun c => count_base c mu)
    else some mu
  else if uadd (usub offset r.get_start) 2 ≤ s.length then
    let position := usub (usub s.length 1) (usub (uadd offset 1) r.get_start)
    if position < s.length then
      (s[position]?).map (fun c => count_base c mu)
    else some mu
  else some mu

/-- The overload `add_contribution_c` for `string` reads (lines 74-83); `none` is
the failed `assert(position < s.length())`. -/
def add_contribution_c (offset : Nat) (r : GenomicRegion) (s : List Char)
    (mu : Nat × Nat) : Option (Nat × Nat) :=
  if r.pos_strand then
    let position := usub offset r.get_start
    (s[position]?).map (fun c => count_base c mu)
  else some mu

/-- The overload `add_contribution_g` for `string` reads (lines 86-95); `none` is
the failed `assert(position < s.length())`. -/
def add_contribution_g (offset : Nat) (r : GenomicRegion) (s : List Char)
    (mu : Nat × Nat) : Option (Nat × Nat) :=
  if r.neg_strand then
    let position := usub s.length (uadd (usub offset r.get_start) 1)
    (s[position]?).map (fun c => count_base c mu)
  else some mu

end PlainSeq

/-! ## Accumulators on `FASTQRecord`, quality ignored -/

namespace FastqSeq

/-- The overload `add_contribution_cpg` for `FASTQRecord` reads without quality
(lines 101-126): two consecutive `if` statements; `none` is a failed
`assert(position < s.first.length())`. -/
def add_contribution_cpg (offset : Nat) (r : GenomicRegion) (s : FASTQRecord)
    (mu : Nat × Nat) : Option (Nat × Nat) :=
  let after_pos : Option (Nat × Nat) :=
    if r.pos_strand && decide (r.get_start ≤ offset) then
      let position := usub offset r.get_start
      (s.first[position]?).map (fun c => count_base c mu)
    else some mu
  after_pos.bind fun mu1 =>
    if r.neg_strand && decide (uadd (usub offset r.get_start) 2 ≤ s.first.length) then
      let position := usub (usub s.first.length 1) (usub (uadd offset 1) r.get_start)
      (s.first[position]?).map (fun c => count_base c mu1)
    else some mu1

/-- The overload `add_contribution_c` for `FASTQRecord` reads without quality
(lines 128-137). -/
def add_contribution_c (offset : Nat) (r : GenomicRegion) (s : FASTQRecord)
    (mu : Nat × Nat) : Option (Nat × Nat) :=
  if r.pos_strand then
    let position := usub offset r.get_start
    (s.first[position]?).map (fun c => count_base c mu)
  else some mu

/-- The overload `add_contribution_g` for `FASTQRecord` reads without quality
(lines 139-148). -/
def add_contribution_g (offset : Nat) (r : GenomicRegion) (s : FASTQRecord)
    (mu : Nat × Nat) : Option (Nat × Nat) :=
  if r.neg_strand then
    let position := usub (usub s.first.length 1) (usub offset r.get_start)
    (s.first[position]?).map (fun c => count_base c mu)
  else some mu

end FastqSeq

/-! ## Accumulators on `FASTQRecord`, quality checked -/

/-- The functor `QualityChecker` (lines 156-166). Its constructor derives the
cutoff character from an error probability and the score encoding; only the
resulting character is kept here. -/
structure QualityChecker where
  cutoff : Char

/-- The call `qc(s, position)`, that is `s.second[position] >= cutoff`; `none`
when `position` is outside the quality string. Characters are compared by
their codes. -/
def QualityChecker.check (qc : QualityChecker) (s : FASTQRecord) (position : Nat) :
    Option Bool :=
  (s.second[position]?).map (fun q => decide (qc.cutoff ≤ q))

/-- The block `assert(position < s.first.length()); if (qc(s, position)) { count }`
shared by the quality-checked accumulators. -/
def count_checked (qc : QualityChecker) (s : FASTQRecord) (position : Nat)
    (mu : Nat × Nat) : Option (Nat × Nat) :=
  match s.first[position]? with
  | none => none
  | some c =>
    match qc.check s position with
    | none => none
    | some ok => some (if ok then count_base c mu else mu)

namespace FastqQual

/-- The overload `add_contribution_cpg(qc, offset, r, s, meth, unmeth)`
(lines 168-189). -/
def add_contribution_cpg (qc : QualityChecker) (offset : Nat) (r : GenomicRegion)
    (s : FASTQRecord) (mu : Nat × Nat) : Option (Nat × Nat) :=
  let after_pos : Option (Nat × Nat) :=
    if r.pos_strand && decide (r.get_start ≤ offset) then
      let position := usub offset r.get_start
      count_checked qc s position mu
    else some mu
  after_pos.bind fun mu1 =>
    if r.neg_strand && decide (uadd (usub offset r.get_start) 2 ≤ s.first.length) then
      let position := usub (usub s.first.length 1) (usub (uadd offset 1) r.get_start)
      count_checked qc s position mu1
    else some mu1

/-- The overload `add_contribution_c(qc, offset, r, s, meth, unmeth)`
(lines 191-203). -/
def add_contribution_c (qc : QualityChecker) (offset : Nat) (r : GenomicRegion)
    (s : FASTQRecord) (mu : Nat × Nat) : Option (Nat × Nat) :=
  if r.pos_strand then
    let position := usub offset r.get_start
    count_checked qc s position mu
  else some mu

/-- The overload `add_contribution_g(qc, offset, r, s, meth, unmeth)`
(lines 205-217). -/
def add_contribution_g (qc : QualityChecker) (offset : Nat) (r : GenomicRegion)
    (s : FASTQRecord) (mu : Nat × Nat) : Option (Nat × Nat) :=
  if r.neg_strand then
    let position := usub (usub s.first.length 1) (usub offset r.get_start)
    count_checked qc s position mu
  else some mu

end FastqQual

/-! ## The two input cursors -/

/-- Modelled from the spec: `FileIterator` of `FileIterator.hpp`, which is not
among the sources; a movable head (`first`) and tail (`last`) over one input
stream. The bounded buffer and its refills are abstracted: `data` is the whole
stream in file order, `first` and `last` are indices into it, and a cursor is
good exactly when it has not reached the end of the input. -/
structure FileIterator (α : Type) where
  data : List α
  first : Nat
  last : Nat

namespace FileIterator

variable {α : Type}

/-- The method `first_is_good()`: false only at the end of the input. -/
def first_is_good (it : FileIterator α) : Bool := decide (it.first < it.data.length)

/-- The method `last_is_good()`: false only at the end of the input. -/
def last_is_good (it : FileIterator α) : Bool := decide (it.last < it.data.length)

/-- The record `*get_first()` under the head, when there is one. -/
def get_first (it : FileIterator α) : Option α := it.data[it.first]?

/-- The record `*get_last()` under the tail, when there is one. -/
def get_last (it : FileIterator α) : Option α := it.data[it.last]?

/-- The method `increment_first()`. -/
def increment_first (it : FileIterator α) : FileIterator α :=
  { it with first := it.first + 1 }

/-- The method `increment_last()`. -/
def increment_last (it : FileIterator α) : FileIterator α :=
  { it with last := it.last + 1 }

end FileIterator

/-- The two cursors `regions` and `reads` that `advance` and the scan functions
receive by reference. -/
structure Cursors (T : Type) where
  regions : FileIterator GenomicRegion
  reads : FileIterator T

/-! ## The coordinate window -/

/-- The function `precedes(r, offset)` (lines 222-225). -/
def precedes (r : GenomicRegion) (offset : Nat) : Bool := decide (r.get_end ≤ offset)

/-- The function `succeeds(r, offset)` (lines 228-231). -/
def succeeds (r : GenomicRegion) (offset : Nat) : Bool := decide (r.get_start > offset)

/-- The first `while` loop of `advance` (lines 239-244): the tail takes in
regions of the chromosome that do not succeed `last`. Each iteration moves the
tail by one, so `data.length - last` iterations are the most that can run. -/
def advance_last_loop {T : Type} (last : Nat) (chrom_region : GenomicRegion) :
    Nat → Cursors T → Cursors T
  | 0, cs => cs
  | fuel + 1, cs =>
    if cs.regions.last_is_good &&
        (cs.regions.get_last).any
          (fun r => chrom_region.same_chrom r && !succeeds r last) then
      advance_last_loop last chrom_region fuel
        ⟨cs.regions.increment_last, cs.reads.increment_last⟩
    else cs

/-- The second `while` loop of `advance` (lines 247-252): the head drops
regions of the chromosome that precede `first`. -/
def advance_first_loop {T : Type} (first : Nat) (chrom_region : GenomicRegion) :
    Nat → Cursors T → Cursors T
  | 0, cs => cs
  | fuel + 1, cs =>
    if cs.regions.first_is_good &&
        (cs.regions.get_first).any
          (fun r => chrom_region.same_chrom r && precedes r first) then
      advance_first_loop first chrom_region fuel
        ⟨cs.regions.increment_first, cs.reads.increment_first⟩
    else cs

/-- The function `advance(first, last, chrom_region, regions, reads)`
(lines 234-255). -/
def advance {T : Type} (first last : Nat) (chrom_region : GenomicRegion)
    (cs : Cursors T) : Cursors T :=
  let cs1 := advance_last_loop last chrom_region
    (cs.regions.data.length - cs.regions.last) cs
  advance_first_loop first chrom_region
    (cs1.regions.data.length - cs1.regions.first) cs1

/-- The regions in the window `[first, last)` of a cursor, head first. -/
def window {α : Type} (it : FileIterator α) : List α :=
  (it.data.drop it.first).take (it.last - it.first)

/-! ## The scan drivers -/

/-- One line of the output table: chromosome, start, end, site label, total
evidence, methylation fraction and strand marker. The fraction, a `double`
quotient in the source, is kept as the exact rational quotient. -/
structure OutputRow where
  chrom : String
  start : Nat
  end_ : Nat
  label : String
  total : Nat
  fraction : ℚ
  strand : Char
  deriving DecidableEq

/-- The output statement of the scan functions (lines 340-342, 365-367,
376-378): `total = meth_count + unmeth_count`, then the row
`chrom_name, i, i + 1, label:total, meth_count/max(1.0, total), +`. -/
def write_row (chrom_name : String) (i : Nat) (label : String) (mu : Nat × Nat) :
    OutputRow :=
  let total : Nat := mu.1 + mu.2
  { chrom := chrom_name, start := i, end_ := uadd i 1, label := label,
    total := total, fraction := (mu.1 : ℚ) / max 1 (total : ℚ), strand := '+' }

/-- The inner loop `for (j = regions.get_first(), k = reads.get_first();
j != regions.get_last(); ++j, ++k) if (j->get_score() <= max_mismatches)
add_contribution(*j, *k, meth_count, unmeth_count)`, with `n` iterations left;
`f` is the accumulator that overload resolution selects. -/
def accumulate_loop {T : Type} (f : GenomicRegion → T → Nat × Nat → Option (Nat × Nat))
    (max_mismatches : ℚ) (regions : FileIterator GenomicRegion) (reads : FileIterator T) :
    Nat → Nat → Nat → Nat × Nat → Option (Nat × Nat)
  | 0, _, _, mu => some mu
  | n + 1, j, k, mu =>
    match regions.data[j]? with
    | none => none
    | some r =>
      if r.get_score ≤ max_mismatches then
        match reads.data[k]? with
        | none => none
        | some s =>
          (f r s mu).bind (accumulate_loop f max_mismatches regions reads n (j + 1) (k + 1))
      else accumulate_loop f max_mismatches regions reads n (j + 1) (k + 1) mu

/-- The counting block of a scan function: both counters start at `0` and the
inner loop runs over the window. A head beyond the tail, on which the test
`j != regions.get_last()` is never met inside the stream, gives `none`. -/
def accumulate {T : Type} (f : GenomicRegion → T → Nat × Nat → Option (Nat × Nat))
    (max_mismatches : ℚ) (cs : Cursors T) : Option (Nat × Nat) :=
  if cs.regions.last < cs.regions.first then none
  else accumulate_loop f max_mismatches cs.regions cs.reads
    (cs.regions.last - cs.regions.first) cs.regions.first cs.reads.first (0, 0)

/-- The state of a scan: the cursors, the rows written so far, and whether the
run was aborted (a failed assertion or a read outside a string). -/
structure ScanState (T : Type) where
  cursors : Cursors T
  out : List OutputRow
  aborted : Bool

/-- The loop of `scan_chromosome_cpg` (lines 267-281 and 330-344) from
position `i` on; `f` is `add_contribution_cpg` of the overload set in use, with
the quality checker already applied where there is one. The increment `++i`
cannot wrap, as `i` is below `chrom.length() - 1`. A scan that aborts keeps the
rows already written. -/
def scan_chromosome_cpg_loop {T : Type}
    (f : Nat → GenomicRegion → T → Nat × Nat → Option (Nat × Nat))
    (chrom : List Char) (chrom_region : GenomicRegion) (max_mismatches : ℚ) :
    Nat → Nat → ScanState T → ScanState T
  | 0, _, st => st
  | fuel + 1, i, st =>
    if decide (i < usub chrom.length 1) && st.cursors.regions.first_is_good then
      match is_cpg chrom i with
      | none => { st with aborted := true }
      | some false =>
        scan_chromosome_cpg_loop f chrom chrom_region max_mismatches fuel (i + 1) st
      | some true =>
        let cs := advance i (uadd i 1) chrom_region st.cursors
        match accumulate (f i) max_mismatches cs with
        | none => { cursors := cs, out := st.out, aborted := true }
        | some mu =>
          scan_chromosome_cpg_loop f chrom chrom_region max_mismatches fuel (i + 1)
            { cursors := cs,
              out := st.out ++ [write_row chrom_region.get_chrom i "CpG" mu],
              aborted := st.aborted }
    else st

/-- The function `scan_chromosome_cpg` (lines 258-282 and 322-345). The loop
variable runs from `0` while `i < chrom.length() - 1`, so `chrom.length() - 1`
iterations are the most that can run. -/
def scan_chromosome_cpg {T : Type}
    (f : Nat → GenomicRegion → T → Nat × Nat → Option (Nat × Nat))
    (chrom : List Char) (chrom_region : GenomicRegion) (max_mismatches : ℚ)
    (cs : Cursors T) : ScanState T :=
  scan_chromosome_cpg_loop f chrom chrom_region max_mismatches
    (usub chrom.length 1) 0 { cursors := cs, out := [], aborted := false }

/-- The loop of `scan_chromosome` (lines 294-318 and 356-380) from position
`i` on; `fc` and `fg` are `add_contribution_c` and `add_contribution_g` of the
overload set in use. -/
def scan_chromosome_loop {T : Type}
    (fc fg : Nat → GenomicRegion → T → Nat × Nat → Option (Nat × Nat))
    (chrom : List Char) (chrom_region : GenomicRegion) (max_mismatches : ℚ) :
    Nat → Nat → ScanState T → ScanState T
  | 0, _, st => st
  | fuel + 1, i, st =>
    if decide (i < usub chrom.length 1) && st.cursors.regions.first_is_good then
      let cs := advance i i chrom_region st.cursors
      match chrom[i]? with
      | none => { cursors := cs, out := st.out, aborted := true }
      | some b =>
        let after_c : Option (List OutputRow) :=
          if is_cytosine b then
            (accumulate (fc i) max_mismatches cs).map
              (fun mu => st.out ++ [write_row chrom_region.get_chrom i "C" mu])
          else some st.out
        match after_c with
        | none => { cursors := cs, out := st.out, aborted := true }
        | some out1 =>
          let after_g : Option (List OutputRow) :=
            if is_guanine b then
              (accumulate (fg i) max_mismatches cs).map
                (fun mu => out1 ++ [write_row chrom_region.get_chrom i "G" mu])
            else some out1
          match after_g with
          | none => { cursors := cs, out := out1, aborted := true }
          | some out2 =>
            scan_chromosome_loop fc fg chrom chrom_region max_mismatches fuel (i + 1)
              { cursors := cs, out := out2, aborted := st.aborted }
    else st

/-- The function `scan_chromosome` (lines 285-319 and 348-381). -/
def scan_chromosome {T : Type}
    (fc fg : Nat → GenomicRegion → T → Nat × Nat → Option (Nat × Nat))
    (chrom : List Char) (chrom_region : GenomicRegion) (max_mismatches : ℚ)
    (cs : Cursors T) : ScanState T :=
  scan_chromosome_loop fc fg chrom chrom_region max_mismatches
    (usub chrom.length 1) 0 { cursors := cs, out := [], aborted := false }

/-! ## Notions used to state the properties -/

/-- A run of calls `advance(first, last, chrom_region, regions, reads)`, one for
each pair `(first, last)` of `calls`, in order. -/
def advance_calls {T : Type} (chrom_region : GenomicRegion) (calls : List (Nat × Nat))
    (cs : Cursors T) : Cursors T :=
  calls.foldl (fun acc p => advance p.1 p.2 chrom_region acc) cs

/-- The input order of the interval stream: by chromosome name, then by start
offset. -/
def region_le (a b : GenomicRegion) : Prop :=
  (a.chrom = b.chrom ∧ a.start ≤ b.start) ∨ a.chrom < b.chrom

instance : DecidableRel region_le := fun a b => by
  unfold region_le; infer_instance

/-- The interval stream is sorted by chromosome and then start offset. -/
def SortedStream (data : List GenomicRegion) : Prop := data.Pairwise region_le

instance (data : List GenomicRegion) : Decidable (SortedStream data) := by
  unfold SortedStream; infer_instance

/-- Index `h0` is where the regions of the chromosome of `chrom_region` begin in
`data`: none of them lies before `h0`, and if there is one at all then the
region at `h0` is one. -/
def FirstOfChrom (chrom_region : GenomicRegion) (data : List GenomicRegion)
    (h0 : Nat) : Prop :=
  ∀ j r, data[j]? = some r → chrom_region.chrom = r.chrom →
    h0 ≤ j ∧ ∃ r0, data[h0]? = some r0 ∧ chrom_region.chrom = r0.chrom

/-- The interval ends of the regions of one chromosome do not decrease along the
stream (as when all reads have one length and the stream is sorted by start). -/
def EndsSorted (chrom_region : GenomicRegion) (data : List GenomicRegion) : Prop :=
  data.Pairwise (fun a b =>
    chrom_region.chrom = a.chrom → chrom_region.chrom = b.chrom → a.end_ ≤ b.end_)

instance (chrom_region : GenomicRegion) (data : List GenomicRegion) :
    Decidable (EndsSorted chrom_region data) := by
  unfold EndsSorted; infer_instance

/-- What a run of `advance` calls keeps true of the cursors, relative to the
index `h0` at which head and tail started: every region the tail has passed
belongs to the chromosome and starts at or before the bound `L`, every region
the head has passed belongs to the chromosome and ends at or before `F`. -/
structure RunInv {T : Type} (c : GenomicRegion) (data : List GenomicRegion) (h0 L F : Nat)
    (cs : Cursors T) : Prop where
  data_eq : cs.regions.data = data
  first_ge : h0 ≤ cs.regions.first
  last_ge : h0 ≤ cs.regions.last
  taken : ∀ j, h0 ≤ j → j < cs.regions.last →
    ∃ r, data[j]? = some r ∧ c.chrom = r.chrom ∧ r.start ≤ L
  dropped : ∀ j, h0 ≤ j → j < cs.regions.first →
    ∃ r, data[j]? = some r ∧ c.chrom = r.chrom ∧ r.end_ ≤ F

/-- An accumulator adds at most one unit of evidence: when it returns, the
counters are unchanged, or exactly one of them has grown by one. -/
def AtMostOne {T : Type} (f : GenomicRegion → T → Nat × Nat → Option (Nat × Nat)) : Prop :=
  ∀ r s mu mu', f r s mu = some mu' →
    mu' = mu ∨ mu' = (mu.1 + 1, mu.2) ∨ mu' = (mu.1, mu.2 + 1)

/-- The number of pairs in the window whose alignment score is at most the
mismatch threshold. -/
def eligible_count {T : Type} (max_mismatches : ℚ) (cs : Cursors T) : Nat :=
  ((window cs.regions).filter (fun r => decide (r.get_score ≤ max_mismatches))).length

/-- What a row reports about the counts `meth` and `unmeth` behind it: the total
is their sum and the fraction is `meth / max(1, total)`, so `meth / total` for a
positive total, `0` for total `0`, and a value in `[0, 1]`. -/
def RowReports (row : OutputRow) (meth unmeth : Nat) : Prop :=
  row.total = meth + unmeth ∧
  row.fraction = (meth : ℚ) / max 1 (row.total : ℚ) ∧
  (0 < row.total → row.fraction = (meth : ℚ) / (row.total : ℚ)) ∧
  (row.total = 0 → row.fraction = 0) ∧
  0 ≤ row.fraction ∧ row.fraction ≤ 1

/-! ## Example inputs -/

/-- The chromosome region `GenomicRegion("chr1", 0, 0)` that a scan passes on. -/
def ex_chrom_region : GenomicRegion := ⟨"chr1", 0, 0, '+', 0⟩

/-- A long read on `[0, 10)` followed by a shorter read on `[1, 5)`: sorted by
start, the second nested inside the first. -/
def ex_nested : Cursors (List Char) :=
  { regions := ⟨[⟨"chr1", 0, 10, '+', 0⟩, ⟨"chr1", 1, 5, '+', 0⟩], 0, 0⟩,
    reads := ⟨["ACGTACGTAC".toList, "CGTA".toList], 0, 0⟩ }

/-- Two reads of one length, on `[0, 4)` and `[2, 6)`. -/
def ex_equal_length : Cursors (List Char) :=
  { regions := ⟨[⟨"chr1", 0, 4, '+', 0⟩, ⟨"chr1", 2, 6, '-', 0⟩], 0, 0⟩,
    reads := ⟨["ACGT".toList, "ACGT".toList], 0, 0⟩ }

/-- A plus-strand read `CGCG` on `[1, 5)`, not yet in the window. -/
def ex_one_read : Cursors (List Char) :=
  { regions := ⟨[⟨"chr1", 1, 5, '+', 0⟩], 0, 0⟩,
    reads := ⟨["CGCG".toList], 0, 0⟩ }

/-- The read of `ex_one_read`, taken into the window. -/
def ex_one_read_window : Cursors (List Char) :=
  { regions := ⟨[⟨"chr1", 1, 5, '+', 0⟩], 0, 1⟩,
    reads := ⟨["CGCG".toList], 0, 1⟩ }

/-- A read on `chr1` followed by a read on `chr2`, which keeps the head cursor
valid through the scan of `chr1`. -/
def ex_two_chroms : Cursors (List Char) :=
  { regions := ⟨[⟨"chr1", 1, 5, '+', 0⟩, ⟨"chr2", 0, 4, '+', 0⟩], 0, 0⟩,
    reads := ⟨["CGCG".toList, "ACGT".toList], 0, 0⟩ }

/-- The stream of the scenario of section 8 of the specification: one
plus-strand read on `[1, 5)` of `chr1` with the given score and base calls. -/
def ex_scenario (score : ℚ) (seq : List Char) : Cursors (List Char) :=
  { regions := ⟨[⟨"chr1", 1, 5, '+', score⟩], 0, 0⟩,
    reads := ⟨[seq], 0, 0⟩ }

/-- The stream `ex_nested` with FASTQ records. -/
def ex_nested_fastq : Cursors FASTQRecord :=
  { regions := ⟨[⟨"chr1", 0, 10, '+', 0⟩, ⟨"chr1", 1, 5, '+', 0⟩], 0, 0⟩,
    reads := ⟨[⟨"ACGTACGTAC".toList, "IIIIIIIIII".toList⟩,
      ⟨"CGTA".toList, "IIII".toList⟩], 0, 0⟩ }

/-! ## Moving to the next chromosome -/

/-- Modelled from the spec: `operator<` of `GenomicRegion`, which is not among
the sources; regions are ordered primarily by chromosome name and then by start
offset. Names compare character by character, as strings do. -/
def region_lt (a b : GenomicRegion) : Bool :=
  decide (a.chrom.toList < b.chrom.toList) ||
    (a.chrom == b.chrom && decide (a.start < b.start))

/-- The first `while` loop of `advance_chromosome` (lines 407-412): the tail
passes the regions ordered before `chrom_region`. -/
def advance_chromosome_last_loop {T : Type} (chrom_region : GenomicRegion) :
    Nat → Cursors T → Cursors T
  | 0, cs => cs
  | fuel + 1, cs =>
    if cs.regions.last_is_good &&
        (cs.regions.get_last).any (fun r => region_lt r chrom_region) then
      advance_chromosome_last_loop chrom_region fuel
        ⟨cs.regions.increment_last, cs.reads.increment_last⟩
    else cs

/-- The second `while` loop of `advance_chromosome` (lines 413-417): the head
passes the regions ordered before `chrom_region`. -/
def advance_chromosome_first_loop {T : Type} (chrom_region : GenomicRegion) :
    Nat → Cursors T → Cursors T
  | 0, cs => cs
  | fuel + 1, cs =>
    if cs.regions.first_is_good &&
        (cs.regions.get_first).any (fun r => region_lt r chrom_region) then
      advance_chromosome_first_loop chrom_region fuel
        ⟨cs.regions.increment_first, cs.reads.increment_first⟩
    else cs

/-- The function `advance_chromosome(chrom_region, regions, reads)`
(lines 403-418). Each loop moves its cursor by one per iteration and stops at
the end of the stream, which bounds its iterations. -/
def advance_chromosome {T : Type} (chrom_region : GenomicRegion) (cs : Cursors T) :
    Cursors T :=
  let cs1 := advance_chromosome_last_loop chrom_region
    (cs.regions.data.length - cs.regions.last) cs
  advance_chromosome_first_loop chrom_region
    (cs1.regions.data.length - cs1.regions.first) cs1

/-- A call that moves the window: `advance(first, last, chrom_region, ...)` or
`advance_chromosome(chrom_region, ...)`. -/
inductive WindowCall where
  | advance (first last : Nat) (chrom_region : GenomicRegion)
  | advance_chromosome (chrom_region : GenomicRegion)

/-- The cursors after one window call. -/
def run_call {T : Type} (call : WindowCall) (cs : Cursors T) : Cursors T :=
  match call with
  | .advance first last chrom_region => advance first last chrom_region cs
  | .advance_chromosome chrom_region => advance_chromosome chrom_region cs

/-- The cursors after a sequence of window calls, in order. -/
def run_calls {T : Type} (calls : List WindowCall) (cs : Cursors T) : Cursors T :=
  calls.foldl (fun acc call => run_call call acc) cs

/-- The stream of `ex_two_chroms` after the scan of `chr1`: the read of `chr1`
has been dropped by neither cursor yet, head at 0 and tail at 1. -/
def ex_between_chroms : Cursors (List Char) :=
  { regions := ⟨[⟨"chr1", 1, 5, '+', 0⟩, ⟨"chr2", 0, 4, '+', 0⟩], 0, 1⟩,
    reads := ⟨["CGCG".toList, "ACGT".toList], 0, 1⟩ }

/-- Modelled from the spec: the record type `epiread` of `Epiread.hpp`, which is
not among the sources; one read is a chromosome, a start position and a call
string. -/
structure epiread where
  chr : List Char
  pos : Nat
  seq : List Char
  deriving DecidableEq

/-- The character class `isspace` that formatted input skips: space, tab, line
feed, vertical tab, form feed and carriage return. -/
def isspace (c : Char) : Bool :=
  c == ' ' || c == '\t' || c == '\n' || c == Char.ofNat 11 || c == Char.ofNat 12 || c == '\r'

/-- Formatted extraction of a `std::string` from the characters left in a stream
(`is >> s`): leading whitespace is skipped, then the characters up to the next
whitespace are taken; the result is the string and the characters left. The
extraction fails (`none`) when no character is taken. -/
def extract_string (input : List Char) : Option (List Char × List Char) :=
  let rest := input.dropWhile isspace
  if rest.isEmpty then none
  else some (rest.takeWhile (fun c => !isspace c), rest.dropWhile (fun c => !isspace c))

/-- The value of a decimal digit character. -/
def digit_value (c : Char) : Nat := c.toNat - 48

/-- The value of a string of decimal digits. -/
def digits_value (ds : List Char) : Nat :=
  ds.foldl (fun acc c => acc * 10 + digit_value c) 0

/-- Formatted extraction of a `size_t` (`is >> p`): leading whitespace is skipped,
an optional sign and then decimal digits are taken, and the extraction stops at
the first other character. It fails when there is no digit or when the digits
exceed the range of `size_t`; a minus sign negates the value modulo `2 ^ 64`. -/
def extract_size_t (input : List Char) : Option (Nat × List Char) :=
  let rest := input.dropWhile isspace
  let negative : Bool := rest.head? == some '-'
  let signed : Bool := negative || rest.head? == some '+'
  let body := if signed then rest.drop 1 else rest
  let ds := body.takeWhile Char.isDigit
  if ds.isEmpty then none
  else if SIZE_MOD ≤ digits_value ds then none
  else some (if negative then usub 0 (digits_value ds) else digits_value ds,
    body.dropWhile Char.isDigit)

/-- The call `std::getline(in, buffer)` on the characters left in a stream: the
line up to the next line feed and the characters after it; `none` at the end of
the input. -/
def getline (input : List Char) : Option (List Char × List Char) :=
  if input.isEmpty then none
  else some (input.takeWhile (fun c => c != '\n'),
    (input.dropWhile (fun c => c != '\n')).drop 1)

/-- The output operator `operator<<(out, er)` (lines 56-59): chromosome, tab,
position in decimal, tab, call string. -/
def write_epiread (er : epiread) : List Char :=
  er.chr ++ ['\t'] ++ Nat.toDigits 10 er.pos ++ ['\t'] ++ er.seq

/-- What `operator>>(in, er)` does: nothing when `getline` fails, a
`runtime_error` with the offending line, or a read stored in `er`, with the
characters left in the stream. -/
inductive ReadOutcome where
  | no_line
  | malformed (buffer : List Char)
  | parsed (er : epiread) (rest : List Char)
  deriving DecidableEq

/-- The input operator `operator>>(in, er)` (lines 45-54) on the characters left
in the stream: one line is taken and `er.chr`, `er.pos`, `er.seq` are extracted
from it. -/
def read_epiread (input : List Char) : ReadOutcome :=
  match getline input with
  | none => .no_line
  | some (buffer, rest) =>
    match extract_string buffer with
    | none => .malformed buffer
    | some (chr, r1) =>
      match extract_size_t r1 with
      | none => .malformed buffer
      | some (pos, r2) =>
        match extract_string r2 with
        | none => .malformed buffer
        | some (seq, _) => .parsed ⟨chr, pos, seq⟩ rest

/-- The precondition of a window call: `first <= last` for a call of `advance`,
nothing for a call of `advance_chromosome`. -/
def call_ordered (call : WindowCall) : Prop :=
  match call with
  | .advance first last _ => first ≤ last
  | .advance_chromosome _ => True

instance (call : WindowCall) : Decidable (call_ordered call) := by
  cases call <;> (unfold call_ordered; infer_instance)

/-! ## Read offsets (`src/common/Epiread.cpp`) -/

/-- The function `adjust_read_offsets` (lines 27-35): the first loop takes the
minimum of `std::numeric_limits<size_t>::max()` and every `pos`, the second
loop subtracts it from every `pos` in `size_t` arithmetic. The result is the
returned offset together with the vector as the call leaves it. -/
def adjust_read_offsets (reads : List epiread) : Nat × List epiread :=
  let first_read_offset := reads.foldl (fun acc r => min r.pos acc) (SIZE_MOD - 1)
  (first_read_offset,
    reads.map (fun r => { r with pos := usub r.pos first_read_offset }))

/-- Three reads of one chromosome at positions 7, 3 and 12. -/
def ex_epireads : List epiread :=
  [⟨"chr1".toList, 7, "CT".toList⟩, ⟨"chr1".toList, 3, "TTC".toList⟩,
    ⟨"chr1".toList, 12, "C".toList⟩]

/-- The calls `advance(k, k + 1, ...)` that `scan_chromosome_cpg` has made when
its loop reaches position `i`: one for each CpG `k < i` of the sequence, in
order. -/
def cpg_calls (chrom : List Char) (i : Nat) : List (Nat × Nat) :=
  ((List.range i).filter (fun k => is_cpg chrom k == some true)).map (fun k => (k, uadd k 1))

/-- The cursors over which `scan_chromosome_cpg`, called with the cursors `cs`,
counts at the CpG at position `i`: `cs` after the calls of every CpG up to and
including `i`. -/
def cpg_site_cursors {T : Type} (chrom : List Char) (chrom_region : GenomicRegion)
    (cs : Cursors T) (i : Nat) : Cursors T :=
  advance_calls chrom_region (cpg_calls chrom (i + 1)) cs

/-- The calls `advance(k, k, ...)` that `scan_chromosome` has made when its loop
reaches position `i`: one for each position `k < i`. -/
def site_calls (i : Nat) : List (Nat × Nat) :=
  (List.range i).map (fun k => (k, k))

/-- The cursors over which `scan_chromosome`, called with the cursors `cs`, counts
at position `i`: `cs` after the calls of every position up to and including
`i`. -/
def site_cursors {T : Type} (chrom_region : GenomicRegion) (cs : Cursors T) (i : Nat) :
    Cursors T :=
  advance_calls chrom_region (site_calls (i + 1)) cs

/-! # Properties -/


section WindowLemmas

variable {T : Type}

theorem tail_cond_iff (l : Nat) (c : GenomicRegion) (it : FileIterator GenomicRegion) :
    (it.last_is_good &&
      (it.get_last).any (fun r => c.same_chrom r && !succeeds r l)) = true ↔
    ∃ r, it.data[it.last]? = some r ∧ c.chrom = r.chrom ∧ r.start ≤ l := by
  unfold FileIterator.last_is_good FileIterator.get_last
  constructor
  · intro h
    simp only [Bool.and_eq_true, decide_eq_true_eq] at h
    obtain ⟨hlt, hany⟩ := h
    refine ⟨it.data[it.last], List.getElem?_eq_getElem hlt, ?_⟩
    rw [List.getElem?_eq_getElem hlt] at hany
    simpa [Option.any, GenomicRegion.same_chrom, succeeds, GenomicRegion.get_start] using hany
  · rintro ⟨r, hr, hc, hs⟩
    have hlt : it.last < it.data.length := (List.getElem?_eq_some.mp hr).1
    simp [hr, hlt, Option.any, GenomicRegion.same_chrom, succeeds, GenomicRegion.get_start, hc, hs]

theorem head_cond_iff (f : Nat) (c : GenomicRegion) (it : FileIterator GenomicRegion) :
    (it.first_is_good &&
      (it.get_first).any (fun r => c.same_chrom r && precedes r f)) = true ↔
    ∃ r, it.data[it.first]? = some r ∧ c.chrom = r.chrom ∧ r.end_ ≤ f := by
  unfold FileIterator.first_is_good FileIterator.get_first
  constructor
  · intro h
    simp only [Bool.and_eq_true, decide_eq_true_eq] at h
    obtain ⟨hlt, hany⟩ := h
    refine ⟨it.data[it.first], List.getElem?_eq_getElem hlt, ?_⟩
    rw [List.getElem?_eq_getElem hlt] at hany
    simpa [Option.any, GenomicRegion.same_chrom, precedes, GenomicRegion.get_end] using hany
  · rintro ⟨r, hr, hc, hs⟩
    have hlt : it.first < it.data.length := (List.getElem?_eq_some.mp hr).1
    simp [hr, hlt, Option.any, GenomicRegion.same_chrom, precedes, GenomicRegion.get_end, hc, hs]

theorem advance_last_loop_frame (l : Nat) (c : GenomicRegion) (n : Nat) (cs : Cursors T) :
    (advance_last_loop l c n cs).regions.data = cs.regions.data ∧
    (advance_last_loop l c n cs).regions.first = cs.regions.first ∧
    (advance_last_loop l c n cs).reads.data = cs.reads.data ∧
    (advance_last_loop l c n cs).reads.first = cs.reads.first ∧
    cs.regions.last ≤ (advance_last_loop l c n cs).regions.last ∧
    (advance_last_loop l c n cs).reads.last + cs.regions.last =
      cs.reads.last + (advance_last_loop l c n cs).regions.last := by
  induction n generalizing cs with
  | zero => simp [advance_last_loop]
  | succ n ih =>
    rw [advance_last_loop]
    split
    · obtain ⟨h1, h2, h3, h4, h5, h6⟩ :=
        ih ⟨cs.regions.increment_last, cs.reads.increment_last⟩
      have h5' : cs.regions.last + 1 ≤ (advance_last_loop l c n
          ⟨cs.regions.increment_last, cs.reads.increment_last⟩).regions.last := h5
      have h6' : (advance_last_loop l c n
          ⟨cs.regions.increment_last, cs.reads.increment_last⟩).reads.last +
            (cs.regions.last + 1) = (cs.reads.last + 1) + (advance_last_loop l c n
          ⟨cs.regions.increment_last, cs.reads.increment_last⟩).regions.last := h6
      exact ⟨h1, h2, h3, h4, by omega, by omega⟩
    · simp

theorem advance_last_loop_added (l : Nat) (c : GenomicRegion) (n : Nat) (cs : Cursors T)
    (j : Nat) (h1 : cs.regions.last ≤ j)
    (h2 : j < (advance_last_loop l c n cs).regions.last) :
    ∃ r, cs.regions.data[j]? = some r ∧ c.chrom = r.chrom ∧ r.start ≤ l := by
  induction n generalizing cs with
  | zero => simp [advance_last_loop] at h2; omega
  | succ n ih =>
    rw [advance_last_loop] at h2
    split at h2
    · rename_i hc
      rcases Nat.eq_or_lt_of_le h1 with heq | hlt
      · subst heq
        exact (tail_cond_iff l c cs.regions).mp hc
      · exact ih ⟨cs.regions.increment_last, cs.reads.increment_last⟩ hlt h2
    · omega

theorem advance_last_loop_exit (l : Nat) (c : GenomicRegion) (n : Nat) (cs : Cursors T)
    (hn : cs.regions.data.length - cs.regions.last ≤ n) (r : GenomicRegion)
    (hr : cs.regions.data[(advance_last_loop l c n cs).regions.last]? = some r) :
    ¬ (c.chrom = r.chrom ∧ r.start ≤ l) := by
  induction n generalizing cs with
  | zero =>
    simp only [advance_last_loop] at hr
    have := (List.getElem?_eq_some.mp hr).1
    omega
  | succ n ih =>
    rw [advance_last_loop] at hr
    split at hr
    · refine ih ⟨cs.regions.increment_last, cs.reads.increment_last⟩ ?_ hr
      simp only [FileIterator.increment_last]
      omega
    · rename_i hc
      intro hcontra
      exact hc ((tail_cond_iff l c cs.regions).mpr ⟨r, hr, hcontra⟩)

theorem advance_first_loop_frame (f : Nat) (c : GenomicRegion) (n : Nat) (cs : Cursors T) :
    (advance_first_loop f c n cs).regions.data = cs.regions.data ∧
    (advance_first_loop f c n cs).regions.last = cs.regions.last ∧
    (advance_first_loop f c n cs).reads.data = cs.reads.data ∧
    (advance_first_loop f c n cs).reads.last = cs.reads.last ∧
    cs.regions.first ≤ (advance_first_loop f c n cs).regions.first ∧
    (advance_first_loop f c n cs).reads.first + cs.regions.first =
      cs.reads.first + (advance_first_loop f c n cs).regions.first := by
  induction n generalizing cs with
  | zero => simp [advance_first_loop]
  | succ n ih =>
    rw [advance_first_loop]
    split
    · obtain ⟨h1, h2, h3, h4, h5, h6⟩ :=
        ih ⟨cs.regions.increment_first, cs.reads.increment_first⟩
      have h5' : cs.regions.first + 1 ≤ (advance_first_loop f c n
          ⟨cs.regions.increment_first, cs.reads.increment_first⟩).regions.first := h5
      have h6' : (advance_first_loop f c n
          ⟨cs.regions.increment_first, cs.reads.increment_first⟩).reads.first +
            (cs.regions.first + 1) = (cs.reads.first + 1) + (advance_first_loop f c n
          ⟨cs.regions.increment_first, cs.reads.increment_first⟩).regions.first := h6
      exact ⟨h1, h2, h3, h4, by omega, by omega⟩
    · simp

theorem advance_first_loop_dropped (f : Nat) (c : GenomicRegion) (n : Nat) (cs : Cursors T)
    (j : Nat) (h1 : cs.regions.first ≤ j)
    (h2 : j < (advance_first_loop f c n cs).regions.first) :
    ∃ r, cs.regions.data[j]? = some r ∧ c.chrom = r.chrom ∧ r.end_ ≤ f := by
  induction n generalizing cs with
  | zero => simp [advance_first_loop] at h2; omega
  | succ n ih =>
    rw [advance_first_loop] at h2
    split at h2
    · rename_i hc
      rcases Nat.eq_or_lt_of_le h1 with heq | hlt
      · subst heq
        exact (head_cond_iff f c cs.regions).mp hc
      · exact ih ⟨cs.regions.increment_first, cs.reads.increment_first⟩ hlt h2
    · omega

theorem advance_first_loop_exit (f : Nat) (c : GenomicRegion) (n : Nat) (cs : Cursors T)
    (hn : cs.regions.data.length - cs.regions.first ≤ n) (r : GenomicRegion)
    (hr : cs.regions.data[(advance_first_loop f c n cs).regions.first]? = some r) :
    ¬ (c.chrom = r.chrom ∧ r.end_ ≤ f) := by
  induction n generalizing cs with
  | zero =>
    simp only [advance_first_loop] at hr
    have := (List.getElem?_eq_some.mp hr).1
    omega
  | succ n ih =>
    rw [advance_first_loop] at hr
    split at hr
    · refine ih ⟨cs.regions.increment_first, cs.reads.increment_first⟩ ?_ hr
      simp only [FileIterator.increment_first]
      omega
    · rename_i hc
      intro hcontra
      exact hc ((head_cond_iff f c cs.regions).mpr ⟨r, hr, hcontra⟩)

end WindowLemmas


section AdvanceLemmas

variable {T : Type}

theorem advance_frame (f l : Nat) (c : GenomicRegion) (cs : Cursors T) :
    (advance f l c cs).regions.data = cs.regions.data ∧
    (advance f l c cs).reads.data = cs.reads.data ∧
    cs.regions.first ≤ (advance f l c cs).regions.first ∧
    cs.regions.last ≤ (advance f l c cs).regions.last ∧
    (advance f l c cs).reads.first + cs.regions.first =
      cs.reads.first + (advance f l c cs).regions.first ∧
    (advance f l c cs).reads.last + cs.regions.last =
      cs.reads.last + (advance f l c cs).regions.last := by
  unfold advance
  obtain ⟨a1, a2, a3, a4, a5, a6⟩ :=
    advance_last_loop_frame l c (cs.regions.data.length - cs.regions.last) cs
  generalize advance_last_loop l c (cs.regions.data.length - cs.regions.last) cs = cs1 at *
  obtain ⟨b1, b2, b3, b4, b5, b6⟩ :=
    advance_first_loop_frame f c (cs1.regions.data.length - cs1.regions.first) cs1
  simp only
  generalize advance_first_loop f c (cs1.regions.data.length - cs1.regions.first) cs1 = cs2 at *
  refine ⟨by rw [b1, a1], by rw [b3, a3], by omega, by omega, by omega, by omega⟩

theorem advance_added (f l : Nat) (c : GenomicRegion) (cs : Cursors T) (j : Nat)
    (h1 : cs.regions.last ≤ j) (h2 : j < (advance f l c cs).regions.last) :
    ∃ r, cs.regions.data[j]? = some r ∧ c.chrom = r.chrom ∧ r.start ≤ l := by
  unfold advance at h2
  simp only at h2
  rw [(advance_first_loop_frame f c _ _).2.1] at h2
  exact advance_last_loop_added l c _ cs j h1 h2

theorem advance_tail_exit (f l : Nat) (c : GenomicRegion) (cs : Cursors T)
    (r : GenomicRegion)
    (hr : cs.regions.data[(advance f l c cs).regions.last]? = some r) :
    ¬ (c.chrom = r.chrom ∧ r.start ≤ l) := by
  unfold advance at hr
  simp only at hr
  rw [(advance_first_loop_frame f c _ _).2.1] at hr
  exact advance_last_loop_exit l c _ cs (le_refl _) r hr

theorem advance_dropped (f l : Nat) (c : GenomicRegion) (cs : Cursors T) (j : Nat)
    (h1 : cs.regions.first ≤ j) (h2 : j < (advance f l c cs).regions.first) :
    ∃ r, cs.regions.data[j]? = some r ∧ c.chrom = r.chrom ∧ r.end_ ≤ f := by
  unfold advance at h2
  simp only at h2
  have hfr := advance_last_loop_frame l c (cs.regions.data.length - cs.regions.last) cs
  have := advance_first_loop_dropped f c _ _ j (by rw [hfr.2.1]; exact h1) h2
  rwa [hfr.1] at this

theorem advance_head_exit (f l : Nat) (c : GenomicRegion) (cs : Cursors T)
    (r : GenomicRegion)
    (hr : cs.regions.data[(advance f l c cs).regions.first]? = some r) :
    ¬ (c.chrom = r.chrom ∧ r.end_ ≤ f) := by
  unfold advance at hr
  simp only at hr
  have hfr := advance_last_loop_frame l c (cs.regions.data.length - cs.regions.last) cs
  generalize advance_last_loop l c (cs.regions.data.length - cs.regions.last) cs = cs1
    at hr hfr
  rw [← hfr.1] at hr
  exact advance_first_loop_exit f c _ cs1 (le_refl _) r hr

theorem mem_window {α : Type} (it : FileIterator α) (x : α) :
    x ∈ window it ↔ ∃ j, it.first ≤ j ∧ j < it.last ∧ it.data[j]? = some x := by
  unfold window
  rw [List.mem_iff_getElem?]
  constructor
  · rintro ⟨n, hn⟩
    rw [List.getElem?_take] at hn
    split at hn
    · rw [List.getElem?_drop] at hn
      exact ⟨it.first + n, by omega, by omega, hn⟩
    · cases hn
  · rintro ⟨j, h1, h2, h3⟩
    refine ⟨j - it.first, ?_⟩
    rw [List.getElem?_take, if_pos (by omega), List.getElem?_drop]
    have : it.first + (j - it.first) = j := by omega
    rw [this]; exact h3

theorem window_head {α : Type} (it : FileIterator α) (x : α)
    (h : (window it).head? = some x) :
    it.first < it.last ∧ it.data[it.first]? = some x := by
  unfold window at h
  rw [List.head?_take] at h
  split at h
  · cases h
  · rename_i hne
    rw [List.head?_drop] at h
    exact ⟨by omega, h⟩

theorem RunInv.init (c : GenomicRegion) (cs : Cursors T) (L F : Nat)
    (h : cs.regions.first = cs.regions.last) :
    RunInv c cs.regions.data cs.regions.first L F cs :=
  ⟨rfl, le_refl _, by omega, fun j h1 h2 => by omega, fun j h1 h2 => by omega⟩

theorem RunInv.step (c : GenomicRegion) (data : List GenomicRegion) (h0 L F : Nat)
    (cs : Cursors T) (inv : RunInv c data h0 L F cs) (f l : Nat)
    (hl : l ≤ L) (hf : f ≤ F) :
    RunInv c data h0 L F (advance f l c cs) := by
  obtain ⟨a1, _, a3, a4, _, _⟩ := advance_frame f l c cs
  refine ⟨by rw [a1, inv.data_eq], le_trans inv.first_ge a3, le_trans inv.last_ge a4, ?_, ?_⟩
  · intro j h1 h2
    by_cases hj : j < cs.regions.last
    · exact inv.taken j h1 hj
    · obtain ⟨r, hr, hc, hs⟩ := advance_added f l c cs j (by omega) h2
      rw [inv.data_eq] at hr
      exact ⟨r, hr, hc, le_trans hs hl⟩
  · intro j h1 h2
    by_cases hj : j < cs.regions.first
    · exact inv.dropped j h1 hj
    · obtain ⟨r, hr, hc, hs⟩ := advance_dropped f l c cs j (by omega) h2
      rw [inv.data_eq] at hr
      exact ⟨r, hr, hc, le_trans hs hf⟩

theorem RunInv.calls (c : GenomicRegion) (data : List GenomicRegion) (h0 L F : Nat)
    (calls : List (Nat × Nat)) (cs : Cursors T) (inv : RunInv c data h0 L F cs)
    (hcalls : ∀ p ∈ calls, p.2 ≤ L ∧ p.1 ≤ F) :
    RunInv c data h0 L F (advance_calls c calls cs) := by
  induction calls generalizing cs with
  | nil => exact inv
  | cons p ps ih =>
    unfold advance_calls
    rw [List.foldl_cons]
    have hp := hcalls p (List.mem_cons_self _ _)
    exact ih (advance p.1 p.2 c cs) (RunInv.step c data h0 L F cs inv p.1 p.2 hp.1 hp.2)
      (fun q hq => hcalls q (List.mem_cons_of_mem _ hq))

end AdvanceLemmas


section SortedLemmas

theorem sorted_getElem? (data : List GenomicRegion) (hs : SortedStream data)
    (i j : Nat) (a b : GenomicRegion) (hij : i < j)
    (ha : data[i]? = some a) (hb : data[j]? = some b) : region_le a b := by
  obtain ⟨hi, rfl⟩ := List.getElem?_eq_some.mp ha
  obtain ⟨hj, rfl⟩ := List.getElem?_eq_some.mp hb
  exact (List.pairwise_iff_getElem.mp hs) i j hi hj hij

theorem ends_sorted_getElem? (c : GenomicRegion) (data : List GenomicRegion)
    (hs : EndsSorted c data)
    (i j : Nat) (a b : GenomicRegion) (hij : i < j)
    (ha : data[i]? = some a) (hb : data[j]? = some b)
    (hca : c.chrom = a.chrom) (hcb : c.chrom = b.chrom) : a.end_ ≤ b.end_ := by
  obtain ⟨hi, rfl⟩ := List.getElem?_eq_some.mp ha
  obtain ⟨hj, rfl⟩ := List.getElem?_eq_some.mp hb
  exact (List.pairwise_iff_getElem.mp hs) i j hi hj hij hca hcb

end SortedLemmas

/-! ## Claims -/

/-- C1 (amended): starting from an empty window and running `advance` calls of a
left-to-right scan, every pair left in the window `[head, tail)` after the call
`advance(first, last, chrom)` belongs to the chromosome and has
`interval.start <= last`, and the pair at the head of a non-empty window has
`interval.end > first`; when the interval ends do not decrease along the
stream, every pair of the window has `interval.end > first`. -/
theorem window_sound_amended {T : Type} (chrom_region : GenomicRegion) (cs : Cursors T)
    (calls : List (Nat × Nat)) (first last : Nat)
    (hempty : cs.regions.first = cs.regions.last)
    (hscan : ∀ p ∈ calls, p.1 ≤ first ∧ p.2 ≤ last) :
    (∀ r ∈ window (advance first last chrom_region
        (advance_calls chrom_region calls cs)).regions,
      chrom_region.chrom = r.chrom ∧ r.start ≤ last) ∧
    (∀ r, (window (advance first last chrom_region
        (advance_calls chrom_region calls cs)).regions).head? = some r →
      first < r.end_) ∧
    (EndsSorted chrom_region cs.regions.data →
      ∀ r ∈ window (advance first last chrom_region
        (advance_calls chrom_region calls cs)).regions, first < r.end_) := by
  have inv0 := RunInv.init chrom_region cs last first hempty
  have inv1 := RunInv.calls chrom_region _ _ last first calls cs inv0
    (fun p hp => ⟨(hscan p hp).2, (hscan p hp).1⟩)
  have inv2 := RunInv.step chrom_region _ _ last first _ inv1 first last (le_refl _) (le_refl _)
  have hexit := advance_head_exit first last chrom_region
    (advance_calls chrom_region calls cs)
  rw [inv1.data_eq] at hexit
  generalize advance first last chrom_region (advance_calls chrom_region calls cs) = cs2
    at inv2 hexit ⊢
  have hmem : ∀ r ∈ window cs2.regions, chrom_region.chrom = r.chrom ∧ r.start ≤ last := by
    intro r hr
    obtain ⟨j, h1, h2, h3⟩ := (mem_window _ r).mp hr
    obtain ⟨r', hr', hc, hs⟩ := inv2.taken j (le_trans inv2.first_ge h1) h2
    rw [inv2.data_eq, hr'] at h3
    cases h3
    exact ⟨hc, hs⟩
  have hhead : ∀ r, (window cs2.regions).head? = some r → first < r.end_ := by
    intro r hr
    have hin : r ∈ window cs2.regions := List.mem_of_mem_head? hr
    obtain ⟨_, hr0⟩ := window_head _ r hr
    rw [inv2.data_eq] at hr0
    have := hexit r hr0
    have hc := (hmem r hin).1
    by_contra hcon
    exact this ⟨hc, by omega⟩
  refine ⟨hmem, hhead, ?_⟩
  intro hends r hr
  obtain ⟨j, h1, h2, h3⟩ := (mem_window _ r).mp hr
  rw [inv2.data_eq] at h3
  obtain ⟨r0, hr0, _, _⟩ := inv2.taken cs2.regions.first inv2.first_ge (by omega)
  have hw0 : (window cs2.regions).head? = some r0 := by
    unfold window
    rw [List.head?_take, if_neg (by omega), List.head?_drop, inv2.data_eq]
    exact hr0
  have h0 := hhead r0 hw0
  rcases Nat.eq_or_lt_of_le h1 with heq | hlt
  · rw [← heq, hr0] at h3
    cases h3
    exact h0
  · have := ends_sorted_getElem? chrom_region _ hends _ _ r0 r hlt hr0 h3
      (hmem r0 (List.mem_of_mem_head? hw0)).1 (hmem r hr).1
    omega

/-- C1 witness: two reads of one length, scanned at positions 0, 1 and then 2;
both are in the window at position 2 and both end after it. -/
theorem window_sound_amended_witness :
    (ex_equal_length.regions.first = ex_equal_length.regions.last) ∧
    (∀ p ∈ [((0 : Nat), (0 : Nat)), (1, 1)], p.1 ≤ 2 ∧ p.2 ≤ 2) ∧
    EndsSorted ex_chrom_region ex_equal_length.regions.data ∧
    window (advance 2 2 ex_chrom_region
        (advance_calls ex_chrom_region [(0, 0), (1, 1)] ex_equal_length)).regions =
      [⟨"chr1", 0, 4, '+', 0⟩, ⟨"chr1", 2, 6, '-', 0⟩] ∧
    (∀ r ∈ window (advance 2 2 ex_chrom_region
        (advance_calls ex_chrom_region [(0, 0), (1, 1)] ex_equal_length)).regions,
      ex_chrom_region.chrom = r.chrom ∧ r.start ≤ 2) ∧
    (∀ r ∈ window (advance 2 2 ex_chrom_region
        (advance_calls ex_chrom_region [(0, 0), (1, 1)] ex_equal_length)).regions,
      2 < r.end_) :=
  ⟨rfl, by decide, by decide, by decide,
    (window_sound_amended ex_chrom_region ex_equal_length [(0, 0), (1, 1)] 2 2 rfl
      (by decide)).1,
    (window_sound_amended ex_chrom_region ex_equal_length [(0, 0), (1, 1)] 2 2 rfl
      (by decide)).2.2 (by decide)⟩

/-- C1 counterexample: on a stream sorted by start, a read on `[1, 5)` nested
behind a read on `[0, 10)` is still in the window after the scan has reached
position 5, the end of its interval. -/
theorem window_sound_counterexample :
    SortedStream ex_nested.regions.data ∧
    window (advance_calls ex_chrom_region
        [(0, 0), (1, 1), (2, 2), (3, 3), (4, 4), (5, 5)] ex_nested).regions
      = [⟨"chr1", 0, 10, '+', 0⟩, ⟨"chr1", 1, 5, '+', 0⟩] ∧
    ¬ (∀ r ∈ window (advance_calls ex_chrom_region
        [(0, 0), (1, 1), (2, 2), (3, 3), (4, 4), (5, 5)] ex_nested).regions,
      r.start ≤ 5 ∧ r.end_ > 5) := by
  refine ⟨by decide, by decide, by decide⟩

/-- C2: on a stream sorted by chromosome and start, with head and tail starting
together at the first pair of the chromosome, after a run of `advance` calls
with non-decreasing `first` and `last` every pair of the chromosome with
`interval.start <= last` and `interval.end > first` has its index in
`[head, tail)`; so a pair of the chromosome outside the window has
`interval.start > last` or `interval.end <= first`. -/
theorem window_complete {T : Type} (chrom_region : GenomicRegion) (cs : Cursors T)
    (calls : List (Nat × Nat)) (first last : Nat)
    (hsorted : SortedStream cs.regions.data)
    (hempty : cs.regions.first = cs.regions.last)
    (hstart : FirstOfChrom chrom_region cs.regions.data cs.regions.first)
    (hscan : ∀ p ∈ calls, p.1 ≤ first ∧ p.2 ≤ last) :
    (∀ j r, cs.regions.data[j]? = some r → chrom_region.chrom = r.chrom →
      r.start ≤ last → first < r.end_ →
      (advance first last chrom_region
        (advance_calls chrom_region calls cs)).regions.first ≤ j ∧
      j < (advance first last chrom_region
        (advance_calls chrom_region calls cs)).regions.last) ∧
    (∀ j r, cs.regions.data[j]? = some r → chrom_region.chrom = r.chrom →
      ¬ ((advance first last chrom_region
        (advance_calls chrom_region calls cs)).regions.first ≤ j ∧
      j < (advance first last chrom_region
        (advance_calls chrom_region calls cs)).regions.last) →
      last < r.start ∨ r.end_ ≤ first) := by
  have inv0 := RunInv.init chrom_region cs last first hempty
  have inv1 := RunInv.calls chrom_region _ _ last first calls cs inv0
    (fun p hp => ⟨(hscan p hp).2, (hscan p hp).1⟩)
  have inv2 := RunInv.step chrom_region _ _ last first _ inv1 first last (le_refl _) (le_refl _)
  have hexit := advance_tail_exit first last chrom_region
    (advance_calls chrom_region calls cs)
  rw [inv1.data_eq] at hexit
  generalize advance first last chrom_region (advance_calls chrom_region calls cs) = cs2
    at inv2 hexit ⊢
  have main : ∀ j r, cs.regions.data[j]? = some r → chrom_region.chrom = r.chrom →
      r.start ≤ last → first < r.end_ →
      cs2.regions.first ≤ j ∧ j < cs2.regions.last := by
    intro j r hr hc hs he
    obtain ⟨hj0, r0, hr0, hc0⟩ := hstart j r hr hc
    constructor
    · by_contra hlt
      obtain ⟨r', hr', _, he'⟩ := inv2.dropped j hj0 (by omega)
      rw [hr] at hr'
      cases hr'
      omega
    · by_contra hge
      have hjlen : j < cs.regions.data.length := (List.getElem?_eq_some.mp hr).1
      have htlen : cs2.regions.last < cs.regions.data.length := by omega
      obtain ⟨rt, hrt⟩ : ∃ rt, cs.regions.data[cs2.regions.last]? = some rt :=
        ⟨_, List.getElem?_eq_getElem htlen⟩
      have hx := hexit rt hrt
      rcases Nat.eq_or_lt_of_le (Nat.le_of_not_lt hge) with heq | hlt
      · rw [heq, hr] at hrt
        cases hrt
        exact hx ⟨hc, hs⟩
      · rcases sorted_getElem? _ hsorted _ _ rt r hlt hrt hr with ⟨hcc, hss⟩ | hltc
        · exact hx ⟨by rw [hcc]; exact hc, by omega⟩
        · rcases Nat.eq_or_lt_of_le inv2.last_ge with heq0 | hlt0
          · rw [← heq0, hr0] at hrt
            cases hrt
            rw [← hc0, hc] at hltc
            exact lt_irrefl _ hltc
          · rcases sorted_getElem? _ hsorted _ _ r0 rt hlt0 hr0 hrt with ⟨hcc, _⟩ | hltc0
            · rw [← hcc, ← hc0, hc] at hltc
              exact lt_irrefl _ hltc
            · rw [← hc0, hc] at hltc0
              exact lt_asymm hltc hltc0
  refine ⟨main, ?_⟩
  intro j r hr hc hout
  by_contra hcon
  exact hout (main j r hr hc (by omega) (by omega))

/-- C2 witness: two reads of one length on one chromosome, scanned at positions
0, 1 and then 2; the read on `[2, 6)`, at index 1 of the stream, overlaps
position 2 and lies in the window. -/
theorem window_complete_witness :
    SortedStream ex_equal_length.regions.data ∧
    (ex_equal_length.regions.first = ex_equal_length.regions.last) ∧
    FirstOfChrom ex_chrom_region ex_equal_length.regions.data
      ex_equal_length.regions.first ∧
    (∀ p ∈ [((0 : Nat), (0 : Nat)), (1, 1)], p.1 ≤ 2 ∧ p.2 ≤ 2) ∧
    (ex_equal_length.regions.data[1]? = some ⟨"chr1", 2, 6, '-', 0⟩) ∧
    ((advance 2 2 ex_chrom_region
        (advance_calls ex_chrom_region [(0, 0), (1, 1)] ex_equal_length)).regions.first ≤ 1 ∧
      1 < (advance 2 2 ex_chrom_region
        (advance_calls ex_chrom_region [(0, 0), (1, 1)] ex_equal_length)).regions.last) :=
  ⟨by decide, rfl,
    fun j _ _ _ => ⟨Nat.zero_le j, ⟨"chr1", 0, 4, '+', 0⟩, rfl, rfl⟩,
    by decide, rfl,
    (window_complete ex_chrom_region ex_equal_length [(0, 0), (1, 1)] 2 2 (by decide) rfl
      (fun j _ _ _ => ⟨Nat.zero_le j, ⟨"chr1", 0, 4, '+', 0⟩, rfl, rfl⟩) (by decide)).1
      1 ⟨"chr1", 2, 6, '-', 0⟩ rfl rfl (by decide) (by decide)⟩

section ArithLemmas

theorem usub_eq_sub (a b : Nat) (hb : b ≤ a) (ha : a < SIZE_MOD) : usub a b = a - b := by
  unfold usub SIZE_MOD at *
  omega

theorem uadd_eq_add (a b : Nat) (h : a + b < SIZE_MOD) : uadd a b = a + b := by
  unfold uadd SIZE_MOD at *
  omega

theorem cpg_minus_cond (i start len : Nat) (hi : i + 1 < SIZE_MOD) (hlen : len < SIZE_MOD)
    (hs : start ≤ i + 1) (hc : i + 2 ≤ len + start) :
    uadd (usub i start) 2 ≤ len ∧
    usub (usub len 1) (usub (uadd i 1) start) = (len - 1) - ((i + 1) - start) ∧
    (len - 1) - ((i + 1) - start) < len := by
  unfold uadd usub SIZE_MOD at *
  omega

theorem plain_g_offset (i start len : Nat) :
    usub len (uadd (usub i start) 1) = usub (usub len 1) (usub i start) := by
  unfold uadd usub SIZE_MOD
  omega

theorem single_g_offset (i start len : Nat) (hi : i < SIZE_MOD) (hlen : len < SIZE_MOD)
    (hs : start ≤ i) (hc : i - start < len) :
    usub (usub len 1) (usub i start) = (len - 1) - (i - start) ∧
    (len - 1) - (i - start) < len := by
  unfold usub SIZE_MOD at *
  omega

theorem cytosine_not_thymine (c : Char) (h : is_cytosine c = true) : is_thymine c = false := by
  unfold is_cytosine at h
  unfold is_thymine
  simp only [Bool.or_eq_true, beq_iff_eq] at h
  rcases h with rfl | rfl <;> decide

theorem count_base_cytosine (c : Char) (mu : Nat × Nat) (h : is_cytosine c = true) :
    count_base c mu = (mu.1 + 1, mu.2) := by
  simp [count_base, h, cytosine_not_thymine c h]

theorem count_base_thymine (c : Char) (mu : Nat × Nat) (h : is_thymine c = true) :
    count_base c mu = (mu.1, mu.2 + 1) := by
  have hc : is_cytosine c = false := by
    cases hcy : is_cytosine c
    · rfl
    · rw [cytosine_not_thymine c hcy] at h; cases h
  simp [count_base, h, hc]

theorem count_base_other (c : Char) (mu : Nat × Nat) (hc : is_cytosine c = false)
    (ht : is_thymine c = false) : count_base c mu = mu := by
  simp [count_base, hc, ht]

theorem count_base_le (c : Char) (mu : Nat × Nat) :
    (count_base c mu).1 + (count_base c mu).2 ≤ mu.1 + mu.2 + 1 ∧
    mu.1 ≤ (count_base c mu).1 ∧ mu.2 ≤ (count_base c mu).2 := by
  cases hc : is_cytosine c
  · cases ht : is_thymine c
    · rw [count_base_other c mu hc ht]; omega
    · rw [count_base_thymine c mu ht]; dsimp only; omega
  · rw [count_base_cytosine c mu hc]; dsimp only; omega

theorem pos_not_neg (r : GenomicRegion) (h : r.pos_strand = true) : r.neg_strand = false := by
  unfold GenomicRegion.pos_strand at h
  unfold GenomicRegion.neg_strand
  simp only [beq_iff_eq] at h
  rw [h]; decide

theorem neg_not_pos (r : GenomicRegion) (h : r.neg_strand = true) : r.pos_strand = false := by
  cases hp : r.pos_strand
  · rfl
  · rw [pos_not_neg r hp] at h; cases h

end ArithLemmas

/-- C3: `add_contribution_cpg` (plain and FASTQ overloads) at the CpG at position
`i` scores a plus-strand pair with `start <= i` and `i - start < len(seq)` on
`seq[i - start]`, and a minus-strand pair with `start <= i + 1` and
`i - start + 2 <= len(seq)` on `seq[(len(seq) - 1) - ((i + 1) - start)]`, the
base aligned to position `i + 1` when `len(seq) = end - start`; scoring adds
exactly 1 to the methylated count for a cytosine, exactly 1 to the
unmethylated count for a thymine, and nothing for another base. -/
theorem cpg_strand_table (i : Nat) (r : GenomicRegion) (s q : List Char) (mu : Nat × Nat)
    (hi : i + 1 < SIZE_MOD) (hlen : s.length < SIZE_MOD) :
    (r.pos_strand = true → r.start ≤ i → i - r.start < s.length →
      ∃ c, s[i - r.start]? = some c ∧
        PlainSeq.add_contribution_cpg i r s mu = some (count_base c mu) ∧
        FastqSeq.add_contribution_cpg i r ⟨s, q⟩ mu = some (count_base c mu)) ∧
    (r.neg_strand = true → r.start ≤ i + 1 → i + 2 ≤ s.length + r.start →
      ∃ c, s[(s.length - 1) - ((i + 1) - r.start)]? = some c ∧
        PlainSeq.add_contribution_cpg i r s mu = some (count_base c mu) ∧
        FastqSeq.add_contribution_cpg i r ⟨s, q⟩ mu = some (count_base c mu)) ∧
    (s.length = r.end_ - r.start → r.start ≤ i + 1 → i + 2 ≤ s.length + r.start →
      r.end_ - 1 - ((s.length - 1) - ((i + 1) - r.start)) = i + 1) ∧
    (∀ c, (is_cytosine c = true → count_base c mu = (mu.1 + 1, mu.2)) ∧
      (is_thymine c = true → count_base c mu = (mu.1, mu.2 + 1)) ∧
      (is_cytosine c = false → is_thymine c = false → count_base c mu = mu)) := by
  refine ⟨?_, ?_, fun h1 h2 h3 => by omega,
    fun c => ⟨count_base_cytosine c mu, count_base_thymine c mu, count_base_other c mu⟩⟩
  · intro hp hs hc
    have hneg := pos_not_neg r hp
    have hpos : usub i r.start = i - r.start :=
      usub_eq_sub i r.start hs (by unfold SIZE_MOD at *; omega)
    refine ⟨s[i - r.start], List.getElem?_eq_getElem hc, ?_, ?_⟩
    · simp [PlainSeq.add_contribution_cpg, GenomicRegion.get_start, hp, hs, hpos, hc]
    · simp [FastqSeq.add_contribution_cpg, GenomicRegion.get_start, hp, hs, hpos, hc, hneg]
  · intro hn hs hc
    have hpos := neg_not_pos r hn
    obtain ⟨h1, h2, h3⟩ := cpg_minus_cond i r.start s.length hi hlen hs hc
    refine ⟨s[(s.length - 1) - ((i + 1) - r.start)], List.getElem?_eq_getElem h3, ?_, ?_⟩
    · simp [PlainSeq.add_contribution_cpg, GenomicRegion.get_start, hpos, h1, h2, h3]
    · simp [FastqSeq.add_contribution_cpg, GenomicRegion.get_start, hpos, hn, h1, h2, h3]

/-- C3 witness: the CpG at position 1, a plus-strand read on `[1, 5)` and a
minus-strand read on `[2, 6)`. -/
theorem cpg_strand_table_witness :
    (1 + 1 < SIZE_MOD) ∧ ("CGCG".toList.length < SIZE_MOD) ∧
    (PlainSeq.add_contribution_cpg 1 ⟨"chr1", 1, 5, '+', 0⟩ "CGCG".toList (0, 0) =
      some (1, 0)) ∧
    (∃ c, "CGCG".toList[(4 - 1) - ((1 + 1) - 2)]? = some c ∧
      PlainSeq.add_contribution_cpg 1 ⟨"chr1", 2, 6, '-', 0⟩ "CGCG".toList (0, 0) =
        some (count_base c (0, 0)) ∧
      FastqSeq.add_contribution_cpg 1 ⟨"chr1", 2, 6, '-', 0⟩ ⟨"CGCG".toList, []⟩ (0, 0) =
        some (count_base c (0, 0))) := by
  refine ⟨by decide, by decide, ?_, ?_⟩
  · obtain ⟨c, hc, h1, _⟩ := (cpg_strand_table 1 ⟨"chr1", 1, 5, '+', 0⟩ "CGCG".toList []
      (0, 0) (by decide) (by decide)).1 rfl (by decide) (by decide)
    have hc0 : c = 'C' := by
      have : "CGCG".toList[1 - 1]? = some 'C' := by decide
      rw [this] at hc
      exact (Option.some.inj hc).symm
    subst hc0
    rw [h1]
    decide
  · exact (cpg_strand_table 1 ⟨"chr1", 2, 6, '-', 0⟩ "CGCG".toList []
      (0, 0) (by decide) (by decide)).2.1 rfl (by decide) (by decide)

/-- C4 (code evaluated at the failing input): at the CpG at position 1 of the
reference `ACGT`, a plus-strand read `GT` on `[2, 4)`, which starts at the paired
G, adds an unmethylated count in the plain-sequence overload of
`add_contribution_cpg`, while both FASTQ overloads leave the counts unchanged. -/
theorem cpg_plain_counts_plus_read_after_site :
    PlainSeq.add_contribution_cpg 1 ⟨"chr1", 2, 4, '+', 0⟩ "GT".toList (0, 0) = some (0, 1) ∧
    FastqSeq.add_contribution_cpg 1 ⟨"chr1", 2, 4, '+', 0⟩ ⟨"GT".toList, "II".toList⟩ (0, 0)
      = some (0, 0) ∧
    FastqQual.add_contribution_cpg ⟨'5'⟩ 1 ⟨"chr1", 2, 4, '+', 0⟩
      ⟨"GT".toList, "II".toList⟩ (0, 0) = some (0, 0) ∧
    (scan_chromosome_cpg PlainSeq.add_contribution_cpg "ACGT".toList ex_chrom_region 100
      ⟨⟨[⟨"chr1", 2, 4, '+', 0⟩], 0, 0⟩, ⟨["GT".toList], 0, 0⟩⟩).out =
      [⟨"chr1", 1, 2, "CpG", 1, 0, '+'⟩] ∧
    (scan_chromosome_cpg FastqSeq.add_contribution_cpg "ACGT".toList ex_chrom_region 100
      ⟨⟨[⟨"chr1", 2, 4, '+', 0⟩], 0, 0⟩, ⟨[⟨"GT".toList, "II".toList⟩], 0, 0⟩⟩).out =
      [⟨"chr1", 1, 2, "CpG", 0, 0, '+'⟩] := by
  refine ⟨by decide, by decide, by decide, ?_, ?_⟩
  · have h : (scan_chromosome_cpg PlainSeq.add_contribution_cpg "ACGT".toList
        ex_chrom_region 100
        ⟨⟨[⟨"chr1", 2, 4, '+', 0⟩], 0, 0⟩, ⟨["GT".toList], 0, 0⟩⟩).out =
        [write_row "chr1" 1 "CpG" (0, 1)] := by rfl
    rw [h]
    norm_num [write_row, uadd, SIZE_MOD]
  · have h : (scan_chromosome_cpg FastqSeq.add_contribution_cpg "ACGT".toList
        ex_chrom_region 100
        ⟨⟨[⟨"chr1", 2, 4, '+', 0⟩], 0, 0⟩, ⟨[⟨"GT".toList, "II".toList⟩], 0, 0⟩⟩).out =
        [write_row "chr1" 1 "CpG" (0, 0)] := by rfl
    rw [h]
    norm_num [write_row, uadd, SIZE_MOD]

/-- C5: at position `i`, `add_contribution_c` scores a plus-strand pair on
`seq[i - start]` and leaves the counts unchanged for a minus-strand pair;
`add_contribution_g` scores a minus-strand pair on
`seq[(len(seq) - 1) - (i - start)]` and leaves the counts unchanged for a
plus-strand pair; the plain-sequence form `len(seq) - (i - start + 1)` is the
same offset. -/
theorem single_base_strand_table (i : Nat) (r : GenomicRegion) (s q : List Char)
    (mu : Nat × Nat) (hi : i < SIZE_MOD) (hlen : s.length < SIZE_MOD) :
    (r.pos_strand = true → r.start ≤ i → i - r.start < s.length →
      ∃ c, s[i - r.start]? = some c ∧
        PlainSeq.add_contribution_c i r s mu = some (count_base c mu) ∧
        FastqSeq.add_contribution_c i r ⟨s, q⟩ mu = some (count_base c mu)) ∧
    (r.neg_strand = true →
      PlainSeq.add_contribution_c i r s mu = some mu ∧
      FastqSeq.add_contribution_c i r ⟨s, q⟩ mu = some mu) ∧
    (r.neg_strand = true → r.start ≤ i → i - r.start < s.length →
      ∃ c, s[(s.length - 1) - (i - r.start)]? = some c ∧
        PlainSeq.add_contribution_g i r s mu = some (count_base c mu) ∧
        FastqSeq.add_contribution_g i r ⟨s, q⟩ mu = some (count_base c mu)) ∧
    (r.pos_strand = true →
      PlainSeq.add_contribution_g i r s mu = some mu ∧
      FastqSeq.add_contribution_g i r ⟨s, q⟩ mu = some mu) ∧
    (usub s.length (uadd (usub i r.start) 1) = usub (usub s.length 1) (usub i r.start)) := by
  refine ⟨?_, ?_, ?_, ?_, plain_g_offset i r.start s.length⟩
  · intro hp hs hc
    have hpos : usub i r.start = i - r.start := usub_eq_sub i r.start hs hi
    refine ⟨s[i - r.start], List.getElem?_eq_getElem hc, ?_, ?_⟩
    · simp [PlainSeq.add_contribution_c, GenomicRegion.get_start, hp, hpos, hc]
    · simp [FastqSeq.add_contribution_c, GenomicRegion.get_start, hp, hpos, hc]
  · intro hn
    have hp := neg_not_pos r hn
    simp [PlainSeq.add_contribution_c, FastqSeq.add_contribution_c, hp]
  · intro hn hs hc
    obtain ⟨h1, h2⟩ := single_g_offset i r.start s.length hi hlen hs hc
    refine ⟨s[(s.length - 1) - (i - r.start)], List.getElem?_eq_getElem h2, ?_, ?_⟩
    · simp [PlainSeq.add_contribution_g, GenomicRegion.get_start, hn,
        plain_g_offset i r.start s.length, h1, h2]
    · simp [FastqSeq.add_contribution_g, GenomicRegion.get_start, hn, h1, h2]
  · intro hp
    have hn := pos_not_neg r hp
    simp [PlainSeq.add_contribution_g, FastqSeq.add_contribution_g, hn]

/-- C5 witness: position 3, a plus-strand read on `[1, 5)` and a minus-strand read
on `[2, 6)`. -/
theorem single_base_strand_table_witness :
    (3 < SIZE_MOD) ∧ ("ACGT".toList.length < SIZE_MOD) ∧
    (∃ c, "ACGT".toList[3 - 1]? = some c ∧
      PlainSeq.add_contribution_c 3 ⟨"chr1", 1, 5, '+', 0⟩ "ACGT".toList (0, 0) =
        some (count_base c (0, 0)) ∧
      FastqSeq.add_contribution_c 3 ⟨"chr1", 1, 5, '+', 0⟩ ⟨"ACGT".toList, []⟩ (0, 0) =
        some (count_base c (0, 0))) ∧
    (∃ c, "ACGT".toList[(4 - 1) - (3 - 2)]? = some c ∧
      PlainSeq.add_contribution_g 3 ⟨"chr1", 2, 6, '-', 0⟩ "ACGT".toList (0, 0) =
        some (count_base c (0, 0)) ∧
      FastqSeq.add_contribution_g 3 ⟨"chr1", 2, 6, '-', 0⟩ ⟨"ACGT".toList, []⟩ (0, 0) =
        some (count_base c (0, 0))) :=
  ⟨by decide, by decide,
    (single_base_strand_table 3 ⟨"chr1", 1, 5, '+', 0⟩ "ACGT".toList [] (0, 0)
      (by decide) (by decide)).1 rfl (by decide) (by decide),
    (single_base_strand_table 3 ⟨"chr1", 2, 6, '-', 0⟩ "ACGT".toList [] (0, 0)
      (by decide) (by decide)).2.2.1 rfl (by decide) (by decide)⟩

section AccumulateLemmas

variable {T : Type}

theorem drop_cons_of_getElem? {α : Type} (l : List α) (j : Nat) (x : α)
    (h : l[j]? = some x) : l.drop j = x :: l.drop (j + 1) := by
  obtain ⟨hj, rfl⟩ := List.getElem?_eq_some.mp h
  exact List.drop_eq_getElem_cons hj

theorem count_base_cases (c : Char) (mu : Nat × Nat) :
    count_base c mu = mu ∨ count_base c mu = (mu.1 + 1, mu.2) ∨
      count_base c mu = (mu.1, mu.2 + 1) := by
  cases hc : is_cytosine c
  · cases ht : is_thymine c
    · exact Or.inl (count_base_other c mu hc ht)
    · exact Or.inr (Or.inr (count_base_thymine c mu ht))
  · exact Or.inr (Or.inl (count_base_cytosine c mu hc))

theorem map_count_base_cases (o : Option Char) (mu mu' : Nat × Nat)
    (h : o.map (fun c => count_base c mu) = some mu') :
    mu' = mu ∨ mu' = (mu.1 + 1, mu.2) ∨ mu' = (mu.1, mu.2 + 1) := by
  cases o with
  | none => cases h
  | some c =>
    simp only [Option.map_some'] at h
    cases h
    exact count_base_cases c mu

theorem count_checked_cases (qc : QualityChecker) (s : FASTQRecord) (p : Nat)
    (mu mu' : Nat × Nat) (h : count_checked qc s p mu = some mu') :
    mu' = mu ∨ mu' = (mu.1 + 1, mu.2) ∨ mu' = (mu.1, mu.2 + 1) := by
  unfold count_checked at h
  cases hc : s.first[p]? with
  | none => simp only [hc] at h; cases h
  | some c =>
    simp only [hc] at h
    cases hq : qc.check s p with
    | none => simp only [hq] at h; cases h
    | some ok =>
      simp only [hq] at h
      cases ok
      · simp only [Bool.false_eq_true, if_false] at h
        cases h
        exact Or.inl rfl
      · simp only [if_true] at h
        cases h
        exact count_base_cases c mu

theorem plain_cpg_at_most_one (i : Nat) : AtMostOne (PlainSeq.add_contribution_cpg i) := by
  intro r s mu mu' h
  unfold PlainSeq.add_contribution_cpg at h
  split at h
  · simp only at h
    split at h
    · exact map_count_base_cases _ mu mu' h
    · cases h; exact Or.inl rfl
  · split at h
    · simp only at h
      split at h
      · exact map_count_base_cases _ mu mu' h
      · cases h; exact Or.inl rfl
    · cases h; exact Or.inl rfl

theorem plain_c_at_most_one (i : Nat) : AtMostOne (PlainSeq.add_contribution_c i) := by
  intro r s mu mu' h
  unfold PlainSeq.add_contribution_c at h
  split at h
  · exact map_count_base_cases _ mu mu' h
  · cases h; exact Or.inl rfl

theorem plain_g_at_most_one (i : Nat) : AtMostOne (PlainSeq.add_contribution_g i) := by
  intro r s mu mu' h
  unfold PlainSeq.add_contribution_g at h
  split at h
  · exact map_count_base_cases _ mu mu' h
  · cases h; exact Or.inl rfl

theorem fastq_cpg_at_most_one (i : Nat) : AtMostOne (FastqSeq.add_contribution_cpg i) := by
  intro r s mu mu' h
  unfold FastqSeq.add_contribution_cpg at h
  cases hp : r.pos_strand
  · simp only [hp, Bool.false_and, Bool.false_eq_true, if_false, Option.some_bind] at h
    split at h
    · exact map_count_base_cases _ mu mu' h
    · cases h; exact Or.inl rfl
  · have hn := pos_not_neg r hp
    simp only [hn, Bool.false_and, Bool.false_eq_true, if_false] at h
    split at h
    · cases hm : (s.first[usub i r.get_start]?).map (fun c => count_base c mu) with
      | none => rw [hm] at h; cases h
      | some m =>
        rw [hm] at h
        simp only [Option.some_bind] at h
        cases h
        exact map_count_base_cases _ mu mu' hm
    · simp only [Option.some_bind] at h
      cases h; exact Or.inl rfl

theorem fastq_c_at_most_one (i : Nat) : AtMostOne (FastqSeq.add_contribution_c i) := by
  intro r s mu mu' h
  unfold FastqSeq.add_contribution_c at h
  split at h
  · exact map_count_base_cases _ mu mu' h
  · cases h; exact Or.inl rfl

theorem fastq_g_at_most_one (i : Nat) : AtMostOne (FastqSeq.add_contribution_g i) := by
  intro r s mu mu' h
  unfold FastqSeq.add_contribution_g at h
  split at h
  · exact map_count_base_cases _ mu mu' h
  · cases h; exact Or.inl rfl

theorem qual_cpg_at_most_one (qc : QualityChecker) (i : Nat) :
    AtMostOne (FastqQual.add_contribution_cpg qc i) := by
  intro r s mu mu' h
  unfold FastqQual.add_contribution_cpg at h
  cases hp : r.pos_strand
  · simp only [hp, Bool.false_and, Bool.false_eq_true, if_false, Option.some_bind] at h
    split at h
    · exact count_checked_cases qc s _ mu mu' h
    · cases h; exact Or.inl rfl
  · have hn := pos_not_neg r hp
    simp only [hn, Bool.false_and, Bool.false_eq_true, if_false] at h
    split at h
    · cases hm : count_checked qc s (usub i r.get_start) mu with
      | none => rw [hm] at h; cases h
      | some m =>
        rw [hm] at h
        simp only [Option.some_bind] at h
        cases h
        exact count_checked_cases qc s _ mu mu' hm
    · simp only [Option.some_bind] at h
      cases h; exact Or.inl rfl

theorem qual_c_at_most_one (qc : QualityChecker) (i : Nat) :
    AtMostOne (FastqQual.add_contribution_c qc i) := by
  intro r s mu mu' h
  unfold FastqQual.add_contribution_c at h
  split at h
  · exact count_checked_cases qc s _ mu mu' h
  · cases h; exact Or.inl rfl

theorem qual_g_at_most_one (qc : QualityChecker) (i : Nat) :
    AtMostOne (FastqQual.add_contribution_g qc i) := by
  intro r s mu mu' h
  unfold FastqQual.add_contribution_g at h
  split at h
  · exact count_checked_cases qc s _ mu mu' h
  · cases h; exact Or.inl rfl

theorem accumulate_loop_bound (f : GenomicRegion → T → Nat × Nat → Option (Nat × Nat))
    (hf : AtMostOne f) (M : ℚ) (regions : FileIterator GenomicRegion)
    (reads : FileIterator T) (n j k : Nat) (mu res : Nat × Nat)
    (h : accumulate_loop f M regions reads n j k mu = some res) :
    res.1 + res.2 ≤ mu.1 + mu.2 +
      (((regions.data.drop j).take n).filter
        (fun r => decide (r.get_score ≤ M))).length := by
  induction n generalizing j k mu with
  | zero =>
    simp only [accumulate_loop] at h
    cases h
    simp
  | succ n ih =>
    rw [accumulate_loop] at h
    split at h
    · cases h
    · rename_i r hr
      rw [drop_cons_of_getElem? _ _ _ hr, List.take_succ_cons, List.filter_cons]
      split at h
      · rename_i hle
        split at h
        · cases h
        · rename_i s hs
          cases hm : f r s mu with
          | none => rw [hm] at h; cases h
          | some m =>
            rw [hm] at h
            simp only [Option.some_bind] at h
            have h1 := ih (j + 1) (k + 1) m h
            rw [if_pos (by simpa using hle), List.length_cons]
            rcases hf r s mu m hm with rfl | rfl | rfl
            · omega
            · dsimp only at h1; omega
            · dsimp only at h1; omega
      · rename_i hle
        have h1 := ih (j + 1) (k + 1) mu h
        rw [if_neg (by simpa using hle)]
        exact h1

theorem accumulate_bound (f : GenomicRegion → T → Nat × Nat → Option (Nat × Nat))
    (hf : AtMostOne f) (M : ℚ) (cs : Cursors T) (res : Nat × Nat)
    (h : accumulate f M cs = some res) :
    res.1 + res.2 ≤ eligible_count M cs := by
  unfold accumulate at h
  split at h
  · cases h
  · have := accumulate_loop_bound f hf M cs.regions cs.reads _ _ _ _ res h
    unfold eligible_count window
    simpa using this

end AccumulateLemmas

/-- C6: for every site `i`, mismatch threshold and window, the counts accumulated
by any of the nine accumulators satisfy `meth + unmeth <= ` the number of window
pairs with score `<=` the threshold; each accumulator changes the counters by
at most one unit in total per pair. -/
theorem coverage_bound (i : Nat) (max_mismatches : ℚ) (qc : QualityChecker) :
    (∀ (cs : Cursors (List Char)) (mu : Nat × Nat),
      (accumulate (PlainSeq.add_contribution_cpg i) max_mismatches cs = some mu ∨
       accumulate (PlainSeq.add_contribution_c i) max_mismatches cs = some mu ∨
       accumulate (PlainSeq.add_contribution_g i) max_mismatches cs = some mu) →
      mu.1 + mu.2 ≤ eligible_count max_mismatches cs) ∧
    (∀ (cs : Cursors FASTQRecord) (mu : Nat × Nat),
      (accumulate (FastqSeq.add_contribution_cpg i) max_mismatches cs = some mu ∨
       accumulate (FastqSeq.add_contribution_c i) max_mismatches cs = some mu ∨
       accumulate (FastqSeq.add_contribution_g i) max_mismatches cs = some mu ∨
       accumulate (FastqQual.add_contribution_cpg qc i) max_mismatches cs = some mu ∨
       accumulate (FastqQual.add_contribution_c qc i) max_mismatches cs = some mu ∨
       accumulate (FastqQual.add_contribution_g qc i) max_mismatches cs = some mu) →
      mu.1 + mu.2 ≤ eligible_count max_mismatches cs) ∧
    (AtMostOne (PlainSeq.add_contribution_cpg i) ∧
     AtMostOne (PlainSeq.add_contribution_c i) ∧
     AtMostOne (PlainSeq.add_contribution_g i) ∧
     AtMostOne (FastqSeq.add_contribution_cpg i) ∧
     AtMostOne (FastqSeq.add_contribution_c i) ∧
     AtMostOne (FastqSeq.add_contribution_g i) ∧
     AtMostOne (FastqQual.add_contribution_cpg qc i) ∧
     AtMostOne (FastqQual.add_contribution_c qc i) ∧
     AtMostOne (FastqQual.add_contribution_g qc i)) := by
  refine ⟨?_, ?_, plain_cpg_at_most_one i, plain_c_at_most_one i, plain_g_at_most_one i,
    fastq_cpg_at_most_one i, fastq_c_at_most_one i, fastq_g_at_most_one i,
    qual_cpg_at_most_one qc i, qual_c_at_most_one qc i, qual_g_at_most_one qc i⟩
  · rintro cs mu (h | h | h)
    · exact accumulate_bound _ (plain_cpg_at_most_one i) _ cs mu h
    · exact accumulate_bound _ (plain_c_at_most_one i) _ cs mu h
    · exact accumulate_bound _ (plain_g_at_most_one i) _ cs mu h
  · rintro cs mu (h | h | h | h | h | h)
    · exact accumulate_bound _ (fastq_cpg_at_most_one i) _ cs mu h
    · exact accumulate_bound _ (fastq_c_at_most_one i) _ cs mu h
    · exact accumulate_bound _ (fastq_g_at_most_one i) _ cs mu h
    · exact accumulate_bound _ (qual_cpg_at_most_one qc i) _ cs mu h
    · exact accumulate_bound _ (qual_c_at_most_one qc i) _ cs mu h
    · exact accumulate_bound _ (qual_g_at_most_one qc i) _ cs mu h

/-- C6 witness: the CpG at position 1 and a window holding one plus-strand read
`CGCG` on `[1, 5)`. -/
theorem coverage_bound_witness :
    accumulate (PlainSeq.add_contribution_cpg 1) 100 ex_one_read_window = some (1, 0) ∧
    (1, 0).1 + (1, 0).2 ≤ eligible_count 100 ex_one_read_window :=
  ⟨by decide, (coverage_bound 1 100 ⟨'5'⟩).1 ex_one_read_window (1, 0) (Or.inl (by decide))⟩

section RowLemmas

variable {T : Type}

theorem write_row_reports (name : String) (i : Nat) (label : String) (mu : Nat × Nat) :
    RowReports (write_row name i label mu) mu.1 mu.2 := by
  unfold RowReports write_row
  simp only
  have hmax : (0 : ℚ) < max 1 ((mu.1 + mu.2 : ℕ) : ℚ) := lt_of_lt_of_le one_pos (le_max_left _ _)
  refine ⟨trivial, trivial, ?_, ?_, ?_, ?_⟩
  · intro hpos
    have : (1 : ℚ) ≤ ((mu.1 + mu.2 : ℕ) : ℚ) := by exact_mod_cast hpos
    rw [max_eq_right this]
  · intro hz
    have h1 : mu.1 = 0 := by omega
    rw [h1]
    simp
  · exact div_nonneg (Nat.cast_nonneg _) (le_of_lt hmax)
  · rw [div_le_one hmax]
    have : ((mu.1 : ℕ) : ℚ) ≤ ((mu.1 + mu.2 : ℕ) : ℚ) := by
      exact_mod_cast Nat.le_add_right _ _
    exact le_trans this (le_max_right _ _)

theorem write_row_start (name : String) (i : Nat) (label : String) (mu : Nat × Nat) :
    (write_row name i label mu).start = i := rfl

theorem cpg_loop_rows_prop (f : Nat → GenomicRegion → T → Nat × Nat → Option (Nat × Nat))
    (chrom : List Char) (c : GenomicRegion) (M : ℚ) (Q : OutputRow → Prop)
    (hQ : ∀ i cs mu, accumulate (f i) M cs = some mu →
      Q (write_row c.get_chrom i "CpG" mu))
    (fuel i : Nat) (st : ScanState T) (hst : ∀ row ∈ st.out, Q row) :
    ∀ row ∈ (scan_chromosome_cpg_loop f chrom c M fuel i st).out, Q row := by
  induction fuel generalizing i st with
  | zero => simpa [scan_chromosome_cpg_loop] using hst
  | succ fuel ih =>
    rw [scan_chromosome_cpg_loop]
    split
    · split
      · exact hst
      · exact ih (i + 1) st hst
      · simp only
        split
        · exact hst
        · rename_i mu hmu
          apply ih
          intro row hrow
          rcases List.mem_append.mp hrow with h | h
          · exact hst row h
          · rw [List.mem_singleton] at h
            rw [h]
            exact hQ i _ mu hmu
    · exact hst

theorem scan_loop_rows_prop
    (fc fg : Nat → GenomicRegion → T → Nat × Nat → Option (Nat × Nat))
    (chrom : List Char) (c : GenomicRegion) (M : ℚ) (Q : OutputRow → Prop)
    (hC : ∀ i cs mu, accumulate (fc i) M cs = some mu →
      Q (write_row c.get_chrom i "C" mu))
    (hG : ∀ i cs mu, accumulate (fg i) M cs = some mu →
      Q (write_row c.get_chrom i "G" mu))
    (fuel i : Nat) (st : ScanState T) (hst : ∀ row ∈ st.out, Q row) :
    ∀ row ∈ (scan_chromosome_loop fc fg chrom c M fuel i st).out, Q row := by
  induction fuel generalizing i st with
  | zero => simpa [scan_chromosome_loop] using hst
  | succ fuel ih =>
    rw [scan_chromosome_loop]
    split
    · simp only
      split
      · exact hst
      · rename_i b hb
        have h1 : ∀ out1, (if is_cytosine b = true then
            (accumulate (fc i) M (advance i i c st.cursors)).map
              (fun mu => st.out ++ [write_row c.get_chrom i "C" mu])
            else some st.out) = some out1 → ∀ row ∈ out1, Q row := by
          intro out1 ho
          split at ho
          · cases hacc : accumulate (fc i) M (advance i i c st.cursors) with
            | none => rw [hacc] at ho; cases ho
            | some mu =>
              rw [hacc] at ho
              simp only [Option.map_some', Option.some.injEq] at ho
              subst ho
              intro row hrow
              rcases List.mem_append.mp hrow with h | h
              · exact hst row h
              · rw [List.mem_singleton] at h
                rw [h]
                exact hC i _ mu hacc
          · cases ho
            exact hst
        split
        · exact hst
        · rename_i out1 ho1
          have hq1 := h1 out1 ho1
          have h2 : ∀ out2, (if is_guanine b = true then
              (accumulate (fg i) M (advance i i c st.cursors)).map
                (fun mu => out1 ++ [write_row c.get_chrom i "G" mu])
              else some out1) = some out2 → ∀ row ∈ out2, Q row := by
            intro out2 ho
            split at ho
            · cases hacc : accumulate (fg i) M (advance i i c st.cursors) with
              | none => rw [hacc] at ho; cases ho
              | some mu =>
                rw [hacc] at ho
                simp only [Option.map_some', Option.some.injEq] at ho
                subst ho
                intro row hrow
                rcases List.mem_append.mp hrow with h | h
                · exact hq1 row h
                · rw [List.mem_singleton] at h
                  rw [h]
                  exact hG i _ mu hacc
            · cases ho
              exact hq1
          split
          · exact hq1
          · rename_i out2 ho2
            exact ih (i + 1) _ (h2 out2 ho2)
    · exact hst

end RowLemmas

section RowWindowLemmas

variable {T : Type}

theorem advance_calls_snoc (c : GenomicRegion) (calls : List (Nat × Nat)) (a b : Nat)
    (cs : Cursors T) :
    advance_calls c (calls ++ [(a, b)]) cs = advance a b c (advance_calls c calls cs) := by
  simp [advance_calls, List.foldl_append]

theorem cpg_calls_site (chrom : List Char) (i : Nat) (h : is_cpg chrom i = some true) :
    cpg_calls chrom (i + 1) = cpg_calls chrom i ++ [(i, uadd i 1)] := by
  simp [cpg_calls, List.range_succ, List.filter_append, h]

theorem cpg_calls_skip (chrom : List Char) (i : Nat) (h : is_cpg chrom i = some false) :
    cpg_calls chrom (i + 1) = cpg_calls chrom i := by
  simp [cpg_calls, List.range_succ, List.filter_append, h]

theorem site_calls_succ (i : Nat) : site_calls (i + 1) = site_calls i ++ [(i, i)] := by
  simp [site_calls, List.range_succ]

theorem cpg_loop_rows_window
    (f : Nat → GenomicRegion → T → Nat × Nat → Option (Nat × Nat))
    (chrom : List Char) (c : GenomicRegion) (M : ℚ) (cs : Cursors T)
    (fuel i : Nat) (st : ScanState T)
    (hcur : st.cursors = advance_calls c (cpg_calls chrom i) cs)
    (hst : ∀ row ∈ st.out, ∃ mu,
      accumulate (f row.start) M (cpg_site_cursors chrom c cs row.start) = some mu ∧
      row = write_row c.get_chrom row.start "CpG" mu) :
    ∀ row ∈ (scan_chromosome_cpg_loop f chrom c M fuel i st).out, ∃ mu,
      accumulate (f row.start) M (cpg_site_cursors chrom c cs row.start) = some mu ∧
      row = write_row c.get_chrom row.start "CpG" mu := by
  induction fuel generalizing i st with
  | zero => simpa [scan_chromosome_cpg_loop] using hst
  | succ fuel ih =>
    rw [scan_chromosome_cpg_loop]
    split
    · split
      · exact hst
      · rename_i hcpg
        exact ih (i + 1) st (by rw [cpg_calls_skip chrom i hcpg]; exact hcur) hst
      · rename_i hcpg
        have hsite : advance i (uadd i 1) c st.cursors = cpg_site_cursors chrom c cs i := by
          unfold cpg_site_cursors
          rw [cpg_calls_site chrom i hcpg, advance_calls_snoc, hcur]
        simp only
        split
        · exact hst
        · rename_i mu hmu
          refine ih (i + 1) _ ?_ ?_
          · show advance i (uadd i 1) c st.cursors = _
            rw [hsite]
            rfl
          · intro row hrow
            rcases List.mem_append.mp hrow with h | h
            · exact hst row h
            · rw [List.mem_singleton] at h
              rw [h, write_row_start]
              rw [hsite] at hmu
              exact ⟨mu, hmu, rfl⟩
    · exact hst

theorem scan_loop_rows_window
    (fc fg : Nat → GenomicRegion → T → Nat × Nat → Option (Nat × Nat))
    (chrom : List Char) (c : GenomicRegion) (M : ℚ) (cs : Cursors T)
    (fuel i : Nat) (st : ScanState T)
    (hcur : st.cursors = advance_calls c (site_calls i) cs)
    (hst : ∀ row ∈ st.out, ∃ mu,
      (accumulate (fc row.start) M (site_cursors c cs row.start) = some mu ∧
        row = write_row c.get_chrom row.start "C" mu) ∨
      (accumulate (fg row.start) M (site_cursors c cs row.start) = some mu ∧
        row = write_row c.get_chrom row.start "G" mu)) :
    ∀ row ∈ (scan_chromosome_loop fc fg chrom c M fuel i st).out, ∃ mu,
      (accumulate (fc row.start) M (site_cursors c cs row.start) = some mu ∧
        row = write_row c.get_chrom row.start "C" mu) ∨
      (accumulate (fg row.start) M (site_cursors c cs row.start) = some mu ∧
        row = write_row c.get_chrom row.start "G" mu) := by
  induction fuel generalizing i st with
  | zero => simpa [scan_chromosome_loop] using hst
  | succ fuel ih =>
    rw [scan_chromosome_loop]
    have hsite : advance i i c st.cursors = site_cursors c cs i := by
      unfold site_cursors
      rw [site_calls_succ, advance_calls_snoc, hcur]
    split
    · simp only
      rw [hsite]
      split
      · exact hst
      · rename_i b hb
        have h1 : ∀ out1, (if is_cytosine b = true then
            (accumulate (fc i) M (site_cursors c cs i)).map
              (fun mu => st.out ++ [write_row c.get_chrom i "C" mu])
            else some st.out) = some out1 → ∀ row ∈ out1, ∃ mu,
              (accumulate (fc row.start) M (site_cursors c cs row.start) = some mu ∧
                row = write_row c.get_chrom row.start "C" mu) ∨
              (accumulate (fg row.start) M (site_cursors c cs row.start) = some mu ∧
                row = write_row c.get_chrom row.start "G" mu) := by
          intro out1 ho
          split at ho
          · cases hacc : accumulate (fc i) M (site_cursors c cs i) with
            | none => rw [hacc] at ho; cases ho
            | some mu =>
              rw [hacc] at ho
              simp only [Option.map_some', Option.some.injEq] at ho
              subst ho
              intro row hrow
              rcases List.mem_append.mp hrow with h | h
              · exact hst row h
              · rw [List.mem_singleton] at h
                rw [h, write_row_start]
                exact ⟨mu, Or.inl ⟨hacc, rfl⟩⟩
          · cases ho
            exact hst
        split
        · exact hst
        · rename_i out1 ho1
          have hq1 := h1 out1 ho1
          have h2 : ∀ out2, (if is_guanine b = true then
              (accumulate (fg i) M (site_cursors c cs i)).map
                (fun mu => out1 ++ [write_row c.get_chrom i "G" mu])
              else some out1) = some out2 → ∀ row ∈ out2, ∃ mu,
                (accumulate (fc row.start) M (site_cursors c cs row.start) = some mu ∧
                  row = write_row c.get_chrom row.start "C" mu) ∨
                (accumulate (fg row.start) M (site_cursors c cs row.start) = some mu ∧
                  row = write_row c.get_chrom row.start "G" mu) := by
            intro out2 ho
            split at ho
            · cases hacc : accumulate (fg i) M (site_cursors c cs i) with
              | none => rw [hacc] at ho; cases ho
              | some mu =>
                rw [hacc] at ho
                simp only [Option.map_some', Option.some.injEq] at ho
                subst ho
                intro row hrow
                rcases List.mem_append.mp hrow with h | h
                · exact hq1 row h
                · rw [List.mem_singleton] at h
                  rw [h, write_row_start]
                  exact ⟨mu, Or.inr ⟨hacc, rfl⟩⟩
            · cases ho
              exact hq1
          split
          · exact hq1
          · rename_i out2 ho2
            exact ih (i + 1) _ rfl (h2 out2 ho2)
    · exact hst

end RowWindowLemmas

/-- C7: every row emitted by `scan_chromosome_cpg` reports the counts `meth`, `unmeth`
that the inner loop accumulates at the row's position over the cursors the scan
holds there (the initial cursors after the `advance` call of every CpG up to that
position), and every row emitted by `scan_chromosome` reports, by its label `C`
or `G`, the counts of `add_contribution_c` or `add_contribution_g` over the
cursors after the `advance` call of every position up to the row's; the row has
`total = meth + unmeth` and `fraction = meth / max(1, total)` as an exact
rational: `meth / total` when `total > 0`, `0` when `total = 0`, always in
`[0, 1]`. -/
theorem reported_fraction {T : Type}
    (f fc fg : Nat → GenomicRegion → T → Nat × Nat → Option (Nat × Nat))
    (chrom : List Char) (chrom_region : GenomicRegion) (max_mismatches : ℚ)
    (cs : Cursors T) :
    (∀ row ∈ (scan_chromosome_cpg f chrom chrom_region max_mismatches cs).out,
      ∃ (meth unmeth : Nat),
        accumulate (f row.start) max_mismatches
          (cpg_site_cursors chrom chrom_region cs row.start) = some (meth, unmeth) ∧
        row.label = "CpG" ∧
        row.total = meth + unmeth ∧
        row.fraction = (meth : ℚ) / max 1 ((meth + unmeth : ℕ) : ℚ) ∧
        RowReports row meth unmeth) ∧
    (∀ row ∈ (scan_chromosome fc fg chrom chrom_region max_mismatches cs).out,
      ∃ (meth unmeth : Nat),
        ((row.label = "C" ∧
          accumulate (fc row.start) max_mismatches
            (site_cursors chrom_region cs row.start) = some (meth, unmeth)) ∨
         (row.label = "G" ∧
          accumulate (fg row.start) max_mismatches
            (site_cursors chrom_region cs row.start) = some (meth, unmeth))) ∧
        row.total = meth + unmeth ∧
        row.fraction = (meth : ℚ) / max 1 ((meth + unmeth : ℕ) : ℚ) ∧
        RowReports row meth unmeth) := by
  constructor
  · intro row hrow
    obtain ⟨mu, hacc, hw⟩ := cpg_loop_rows_window f chrom chrom_region max_mismatches cs
      _ 0 _ rfl (fun r hr => by cases hr) row hrow
    have hrep := write_row_reports chrom_region.get_chrom row.start "CpG" mu
    rw [← hw] at hrep
    exact ⟨mu.1, mu.2, hacc, by rw [hw]; rfl, hrep.1, by rw [hrep.2.1, hrep.1], hrep⟩
  · intro row hrow
    obtain ⟨mu, h | h⟩ := scan_loop_rows_window fc fg chrom chrom_region max_mismatches cs
      _ 0 _ rfl (fun r hr => by cases hr) row hrow
    · obtain ⟨hacc, hw⟩ := h
      have hrep := write_row_reports chrom_region.get_chrom row.start "C" mu
      rw [← hw] at hrep
      exact ⟨mu.1, mu.2, Or.inl ⟨by rw [hw]; rfl, hacc⟩, hrep.1,
        by rw [hrep.2.1, hrep.1], hrep⟩
    · obtain ⟨hacc, hw⟩ := h
      have hrep := write_row_reports chrom_region.get_chrom row.start "G" mu
      rw [← hw] at hrep
      exact ⟨mu.1, mu.2, Or.inr ⟨by rw [hw]; rfl, hacc⟩, hrep.1,
        by rw [hrep.2.1, hrep.1], hrep⟩

/-- C7 witness: under one plus-strand read `CGCG` on `[1, 5)`, the scan of `ACGCGT`
emits at position 1 the row `CpG` with total 1 and fraction 1, the counts `(1, 0)`
of the window at that position; in all-cytosine mode the row `G` at position 2
has total 0 and fraction 0. -/
theorem reported_fraction_witness :
    ((⟨"chr1", 1, 2, "CpG", 1, 1, '+'⟩ : OutputRow) ∈
      (scan_chromosome_cpg PlainSeq.add_contribution_cpg "ACGCGT".toList ex_chrom_region
        100 ex_one_read).out) ∧
    accumulate (PlainSeq.add_contribution_cpg 1) 100
      (cpg_site_cursors "ACGCGT".toList ex_chrom_region ex_one_read 1) = some (1, 0) ∧
    (∃ (meth unmeth : Nat),
      accumulate (PlainSeq.add_contribution_cpg 1) 100
        (cpg_site_cursors "ACGCGT".toList ex_chrom_region ex_one_read 1)
          = some (meth, unmeth) ∧
      (1 : Nat) = meth + unmeth ∧
      (1 : ℚ) = (meth : ℚ) / max 1 ((meth + unmeth : ℕ) : ℚ)) ∧
    ((⟨"chr1", 2, 3, "G", 0, 0, '+'⟩ : OutputRow) ∈
      (scan_chromosome PlainSeq.add_contribution_c PlainSeq.add_contribution_g
        "ACGCGT".toList ex_chrom_region 100 ex_one_read).out) ∧
    accumulate (PlainSeq.add_contribution_g 2) 100
      (site_cursors ex_chrom_region ex_one_read 2) = some (0, 0) := by
  have hmem : (⟨"chr1", 1, 2, "CpG", 1, 1, '+'⟩ : OutputRow) ∈
      (scan_chromosome_cpg PlainSeq.add_contribution_cpg "ACGCGT".toList ex_chrom_region
        100 ex_one_read).out := by
    have h : (scan_chromosome_cpg PlainSeq.add_contribution_cpg "ACGCGT".toList
        ex_chrom_region 100 ex_one_read).out =
        [write_row "chr1" 1 "CpG" (1, 0), write_row "chr1" 3 "CpG" (1, 0)] := by rfl
    rw [h]
    norm_num [write_row, uadd, SIZE_MOD]
  have hmem2 : (⟨"chr1", 2, 3, "G", 0, 0, '+'⟩ : OutputRow) ∈
      (scan_chromosome PlainSeq.add_contribution_c PlainSeq.add_contribution_g
        "ACGCGT".toList ex_chrom_region 100 ex_one_read).out := by
    have h : (scan_chromosome PlainSeq.add_contribution_c PlainSeq.add_contribution_g
        "ACGCGT".toList ex_chrom_region 100 ex_one_read).out =
        [write_row "chr1" 1 "C" (1, 0), write_row "chr1" 2 "G" (0, 0),
          write_row "chr1" 3 "C" (1, 0), write_row "chr1" 4 "G" (0, 0)] := by rfl
    rw [h]
    norm_num [write_row, uadd, SIZE_MOD]
  obtain ⟨meth, unmeth, hacc, _, htot, hfrac, _⟩ :=
    (reported_fraction PlainSeq.add_contribution_cpg PlainSeq.add_contribution_c
      PlainSeq.add_contribution_g "ACGCGT".toList ex_chrom_region 100 ex_one_read).1 _ hmem
  exact ⟨hmem, by decide, ⟨meth, unmeth, hacc, htot, hfrac⟩, hmem2, by decide⟩

section FilterLemmas

variable {T : Type}

theorem accumulate_loop_eq_foldlM
    (f : GenomicRegion → T → Nat × Nat → Option (Nat × Nat)) (M : ℚ)
    (regions : FileIterator GenomicRegion) (reads : FileIterator T)
    (n j k : Nat) (mu : Nat × Nat)
    (hj : j + n ≤ regions.data.length) (hk : k + n ≤ reads.data.length) :
    accumulate_loop f M regions reads n j k mu =
      ((((regions.data.drop j).take n).zip ((reads.data.drop k).take n)).filter
        (fun p => decide (p.1.get_score ≤ M))).foldlM (fun acc p => f p.1 p.2 acc) mu := by
  induction n generalizing j k mu with
  | zero => simp [accumulate_loop]
  | succ n ih =>
    have hjl : j < regions.data.length := by omega
    have hkl : k < reads.data.length := by omega
    rw [accumulate_loop, List.getElem?_eq_getElem hjl, List.getElem?_eq_getElem hkl,
      List.drop_eq_getElem_cons hjl, List.drop_eq_getElem_cons hkl,
      List.take_succ_cons, List.take_succ_cons, List.zip_cons_cons, List.filter_cons]
    simp only
    by_cases hle : regions.data[j].get_score ≤ M
    · rw [if_pos hle, if_pos (by simpa using hle), List.foldlM_cons]
      cases hm : f regions.data[j] reads.data[k] mu with
      | none => rfl
      | some m =>
        simp only [Option.some_bind, Option.bind_eq_bind]
        exact ih (j + 1) (k + 1) m (by omega) (by omega)
    · rw [if_neg hle, if_neg (by simpa using hle)]
      exact ih (j + 1) (k + 1) mu (by omega) (by omega)

end FilterLemmas

/-- C8: the inner loop shared by every scan mode applies the accumulator to
exactly the window pairs whose score is `<=` the maximum, in window order; so
when every score in the window is `<=` the maximum (equal to it included) the
result is that of the unfiltered loop, and when every score exceeds the maximum
both counts stay `0`. -/
theorem mismatch_filter_boundary {T : Type}
    (f : GenomicRegion → T → Nat × Nat → Option (Nat × Nat)) (max_mismatches : ℚ)
    (cs : Cursors T)
    (hwin : cs.regions.first ≤ cs.regions.last)
    (hregions : cs.regions.last ≤ cs.regions.data.length)
    (hsync : cs.reads.first = cs.regions.first ∧ cs.reads.last = cs.regions.last)
    (hreads : cs.reads.last ≤ cs.reads.data.length) :
    accumulate f max_mismatches cs =
      (((window cs.regions).zip (window cs.reads)).filter
        (fun p => decide (p.1.get_score ≤ max_mismatches))).foldlM
          (fun acc p => f p.1 p.2 acc) (0, 0) ∧
    ((∀ r ∈ window cs.regions, r.get_score ≤ max_mismatches) →
      accumulate f max_mismatches cs =
        ((window cs.regions).zip (window cs.reads)).foldlM
          (fun acc p => f p.1 p.2 acc) (0, 0)) ∧
    ((∀ r ∈ window cs.regions, max_mismatches < r.get_score) →
      accumulate f max_mismatches cs = some (0, 0)) := by
  have main : accumulate f max_mismatches cs =
      (((window cs.regions).zip (window cs.reads)).filter
        (fun p => decide (p.1.get_score ≤ max_mismatches))).foldlM
          (fun acc p => f p.1 p.2 acc) (0, 0) := by
    unfold accumulate
    rw [if_neg (by omega)]
    unfold window
    rw [hsync.1, hsync.2]
    exact accumulate_loop_eq_foldlM f max_mismatches cs.regions cs.reads _ _ _ _
      (by omega) (by omega)
  refine ⟨main, ?_, ?_⟩
  · intro hall
    rw [main, List.filter_eq_self.mpr]
    intro p hp
    simpa using hall p.1 (List.of_mem_zip hp).1
  · intro hall
    rw [main, List.filter_eq_nil_iff.mpr]
    · rfl
    · intro p hp
      have := hall p.1 (List.of_mem_zip hp).1
      simpa using this

/-- C8 witness: a window of one pair with score `0`, once under the maximum
`0` (score equal to the maximum) and the accumulator for the CpG at position 1. -/
theorem mismatch_filter_boundary_witness :
    (ex_one_read_window.regions.first ≤ ex_one_read_window.regions.last) ∧
    (ex_one_read_window.regions.last ≤ ex_one_read_window.regions.data.length) ∧
    (ex_one_read_window.reads.first = ex_one_read_window.regions.first ∧
      ex_one_read_window.reads.last = ex_one_read_window.regions.last) ∧
    (ex_one_read_window.reads.last ≤ ex_one_read_window.reads.data.length) ∧
    (∀ r ∈ window ex_one_read_window.regions, r.get_score ≤ 0) ∧
    accumulate (PlainSeq.add_contribution_cpg 1) 0 ex_one_read_window =
        ((window ex_one_read_window.regions).zip (window ex_one_read_window.reads)).foldlM
          (fun acc p => PlainSeq.add_contribution_cpg 1 p.1 p.2 acc) (0, 0) :=
  ⟨by decide, by decide, by decide, by decide, by decide,
    (mismatch_filter_boundary (PlainSeq.add_contribution_cpg 1) 0 ex_one_read_window
      (by decide) (by decide) (by decide) (by decide)).2.1 (by decide)⟩

section QualityLemmas

theorem count_checked_eq (qc : QualityChecker) (s : FASTQRecord) (p : Nat) (mu : Nat × Nat)
    (c q : Char) (hc : s.first[p]? = some c) (hq : s.second[p]? = some q) :
    count_checked qc s p mu = some (if qc.cutoff ≤ q then count_base c mu else mu) := by
  unfold count_checked QualityChecker.check
  simp only [hc, hq, Option.map_some', decide_eq_true_eq]

end QualityLemmas

/-- C9: in the quality-checked accumulators the base `c` at the computed offset
`p`, with quality character `q`, is counted exactly when `q >= cutoff`: the
result is `count_base c` of the counters when `cutoff <= q` (so also when `q`
equals the cutoff) and the unchanged counters when `q < cutoff`. -/
theorem quality_filter_boundary (qc : QualityChecker) (i : Nat) (r : GenomicRegion)
    (s : FASTQRecord) (mu : Nat × Nat) (p : Nat) (c q : Char)
    (hi : i + 1 < SIZE_MOD) (hlen : s.first.length < SIZE_MOD)
    (hc : s.first[p]? = some c) (hq : s.second[p]? = some q) :
    (r.pos_strand = true → r.start ≤ i → p = i - r.start →
      FastqQual.add_contribution_cpg qc i r s mu =
        some (if qc.cutoff ≤ q then count_base c mu else mu)) ∧
    (r.neg_strand = true → r.start ≤ i + 1 → i + 2 ≤ s.first.length + r.start →
      p = (s.first.length - 1) - ((i + 1) - r.start) →
      FastqQual.add_contribution_cpg qc i r s mu =
        some (if qc.cutoff ≤ q then count_base c mu else mu)) ∧
    (r.pos_strand = true → r.start ≤ i → p = i - r.start →
      FastqQual.add_contribution_c qc i r s mu =
        some (if qc.cutoff ≤ q then count_base c mu else mu)) ∧
    (r.neg_strand = true → r.start ≤ i → i - r.start < s.first.length →
      p = (s.first.length - 1) - (i - r.start) →
      FastqQual.add_contribution_g qc i r s mu =
        some (if qc.cutoff ≤ q then count_base c mu else mu)) ∧
    (q = qc.cutoff → (if qc.cutoff ≤ q then count_base c mu else mu) = count_base c mu) ∧
    (q < qc.cutoff → (if qc.cutoff ≤ q then count_base c mu else mu) = mu) := by
  have hcc := count_checked_eq qc s p mu c q hc hq
  refine ⟨?_, ?_, ?_, ?_, ?_, ?_⟩
  · intro hp hs hpe
    have hneg := pos_not_neg r hp
    have hpos : usub i r.start = p := by
      rw [hpe]; exact usub_eq_sub i r.start hs (by unfold SIZE_MOD at *; omega)
    simp [FastqQual.add_contribution_cpg, GenomicRegion.get_start, hp, hs, hpos, hneg, hcc]
  · intro hn hs hcond hpe
    have hpos := neg_not_pos r hn
    obtain ⟨h1, h2, _⟩ := cpg_minus_cond i r.start s.first.length hi hlen hs hcond
    rw [← hpe] at h2
    simp [FastqQual.add_contribution_cpg, GenomicRegion.get_start, hpos, hn, h1, h2, hcc]
  · intro hp hs hpe
    have hpos : usub i r.start = p := by
      rw [hpe]; exact usub_eq_sub i r.start hs (by unfold SIZE_MOD at *; omega)
    simp [FastqQual.add_contribution_c, GenomicRegion.get_start, hp, hpos, hcc]
  · intro hn hs hcov hpe
    obtain ⟨h1, _⟩ := single_g_offset i r.start s.first.length
      (by unfold SIZE_MOD at *; omega) hlen hs hcov
    rw [← hpe] at h1
    simp [FastqQual.add_contribution_g, GenomicRegion.get_start, hn, h1, hcc]
  · intro he
    rw [he, if_pos (le_refl _)]
  · intro hlt
    rw [if_neg (not_le.mpr hlt)]

/-- C9 witness: cutoff character `5`; the C at offset 0 of the read `CGCG` on
`[1, 5)` has quality `5`, equal to the cutoff, and is counted. -/
theorem quality_filter_boundary_witness :
    (1 + 1 < SIZE_MOD) ∧ ("CGCG".toList.length < SIZE_MOD) ∧
    ("CGCG".toList[0]? = some 'C') ∧ ("5!II".toList[0]? = some '5') ∧
    FastqQual.add_contribution_cpg ⟨'5'⟩ 1 ⟨"chr1", 1, 5, '+', 0⟩
      ⟨"CGCG".toList, "5!II".toList⟩ (0, 0) =
        some (if (⟨'5'⟩ : QualityChecker).cutoff ≤ '5' then count_base 'C' (0, 0)
          else (0, 0)) ∧
    ((if (⟨'5'⟩ : QualityChecker).cutoff ≤ '5' then count_base 'C' (0, 0) else (0, 0)) =
      count_base 'C' (0, 0)) :=
  ⟨by decide, by decide, by decide, by decide,
    (quality_filter_boundary ⟨'5'⟩ 1 ⟨"chr1", 1, 5, '+', 0⟩
      ⟨"CGCG".toList, "5!II".toList⟩ (0, 0) 0 'C' '5' (by decide) (by decide)
      (by decide) (by decide)).1 rfl (by decide) rfl,
    (quality_filter_boundary ⟨'5'⟩ 1 ⟨"chr1", 1, 5, '+', 0⟩
      ⟨"CGCG".toList, "5!II".toList⟩ (0, 0) 0 'C' '5' (by decide) (by decide)
      (by decide) (by decide)).2.2.2.2.1 rfl⟩

section ScanLemmas

variable {T : Type}

end ScanLemmas

/-- C11 (code evaluated at the failing input): the stream of a read on `[0, 10)`
followed by a read on `[1, 5)` is sorted by chromosome and start, and every
sequence is as long as its interval is wide; yet at position 5 of the reference
`ACGTACGTACG` the shorter read is still in the window, `add_contribution_c`
computes the offset `5 - 1 = 4`, outside its four bases, and the scan aborts on
`assert(position < s.length())`. The FASTQ overload of `add_contribution_cpg`
fails in the same way at the CpG at position 5. -/
theorem nested_read_offset_out_of_range :
    SortedStream ex_nested.regions.data ∧
    (∀ p ∈ ex_nested.regions.data.zip ex_nested.reads.data,
      p.2.length = p.1.end_ - p.1.start) ∧
    PlainSeq.add_contribution_c 5 ⟨"chr1", 1, 5, '+', 0⟩ "CGTA".toList (1, 0) = none ∧
    (scan_chromosome PlainSeq.add_contribution_c PlainSeq.add_contribution_g
      "ACGTACGTACG".toList ex_chrom_region 100 ex_nested).aborted = true ∧
    (scan_chromosome FastqSeq.add_contribution_c FastqSeq.add_contribution_g
      "ACGTACGTACG".toList ex_chrom_region 100 ex_nested_fastq).aborted = true ∧
    FastqSeq.add_contribution_cpg 5 ⟨"chr1", 1, 5, '+', 0⟩
      ⟨"CGTA".toList, "IIII".toList⟩ (1, 0) = none ∧
    (scan_chromosome_cpg FastqSeq.add_contribution_cpg
      "ACGTACGTACG".toList ex_chrom_region 100 ex_nested_fastq).aborted = true ∧
    (scan_chromosome_cpg (FastqQual.add_contribution_cpg ⟨'5'⟩)
      "ACGTACGTACG".toList ex_chrom_region 100 ex_nested_fastq).aborted = true := by
  refine ⟨by decide, by decide, by decide, by decide, by decide, by decide, by decide,
    by decide⟩

section ScenarioLemmas

variable {T : Type}

theorem cpg_loop_skip (f : Nat → GenomicRegion → T → Nat × Nat → Option (Nat × Nat))
    (chrom : List Char) (c : GenomicRegion) (M : ℚ) (fuel i : Nat) (st : ScanState T)
    (hi : i < usub chrom.length 1) (hgood : st.cursors.regions.first_is_good = true)
    (hcpg : is_cpg chrom i = some false) :
    scan_chromosome_cpg_loop f chrom c M (fuel + 1) i st =
      scan_chromosome_cpg_loop f chrom c M fuel (i + 1) st := by
  rw [scan_chromosome_cpg_loop]
  simp [hi, hgood, hcpg]

theorem cpg_loop_site (f : Nat → GenomicRegion → T → Nat × Nat → Option (Nat × Nat))
    (chrom : List Char) (c : GenomicRegion) (M : ℚ) (fuel i : Nat) (st : ScanState T)
    (mu : Nat × Nat)
    (hi : i < usub chrom.length 1) (hgood : st.cursors.regions.first_is_good = true)
    (hcpg : is_cpg chrom i = some true)
    (hacc : accumulate (f i) M (advance i (uadd i 1) c st.cursors) = some mu) :
    scan_chromosome_cpg_loop f chrom c M (fuel + 1) i st =
      scan_chromosome_cpg_loop f chrom c M fuel (i + 1)
        { cursors := advance i (uadd i 1) c st.cursors,
          out := st.out ++ [write_row c.get_chrom i "CpG" mu],
          aborted := st.aborted } := by
  rw [scan_chromosome_cpg_loop]
  simp [hi, hgood, hcpg, hacc]

theorem cpg_loop_out_append (f : Nat → GenomicRegion → T → Nat × Nat → Option (Nat × Nat))
    (chrom : List Char) (c : GenomicRegion) (M : ℚ) (fuel i : Nat) (st : ScanState T) :
    ∃ rest, (scan_chromosome_cpg_loop f chrom c M fuel i st).out = st.out ++ rest := by
  induction fuel generalizing i st with
  | zero => exact ⟨[], by simp [scan_chromosome_cpg_loop]⟩
  | succ fuel ih =>
    rw [scan_chromosome_cpg_loop]
    split
    · split
      · exact ⟨[], by simp⟩
      · exact ih (i + 1) st
      · simp only
        split
        · exact ⟨[], by simp⟩
        · rename_i mu _
          obtain ⟨rest, hrest⟩ := ih (i + 1)
            { cursors := advance i (uadd i 1) c st.cursors,
              out := st.out ++ [write_row c.get_chrom i "CpG" mu],
              aborted := st.aborted }
          exact ⟨write_row c.get_chrom i "CpG" mu :: rest, by rw [hrest]; simp⟩
    · exact ⟨[], by simp⟩

theorem scenario_first_row (score M : ℚ) (h : score ≤ M) (b x y z : Char) :
    (scan_chromosome_cpg PlainSeq.add_contribution_cpg "ACGCGT".toList ex_chrom_region M
      (ex_scenario score [b, x, y, z])).out.head? =
      some (write_row "chr1" 1 "CpG" (count_base b (0, 0))) := by
  have hB : usub "ACGCGT".toList.length 1 = 5 := by decide
  have hadv : advance 1 (uadd 1 1) ex_chrom_region (ex_scenario score [b, x, y, z]) =
      { regions := ⟨[⟨"chr1", 1, 5, '+', score⟩], 0, 1⟩,
        reads := ⟨[[b, x, y, z]], 0, 1⟩ } := by rfl
  have hacc : accumulate (PlainSeq.add_contribution_cpg 1) M
      (advance 1 (uadd 1 1) ex_chrom_region (ex_scenario score [b, x, y, z])) =
      some (count_base b (0, 0)) := by
    rw [hadv]
    have h1 : usub 1 1 = 0 := by decide
    simp [accumulate, accumulate_loop, GenomicRegion.get_score, h,
      PlainSeq.add_contribution_cpg, GenomicRegion.pos_strand, GenomicRegion.get_start, h1]
  have step0 := cpg_loop_skip PlainSeq.add_contribution_cpg "ACGCGT".toList
    ex_chrom_region M 4 0
    { cursors := ex_scenario score [b, x, y, z], out := [], aborted := false }
    (by rw [hB]; decide) rfl (by decide)
  have step1 := cpg_loop_site PlainSeq.add_contribution_cpg "ACGCGT".toList
    ex_chrom_region M 3 1
    { cursors := ex_scenario score [b, x, y, z], out := [], aborted := false }
    (count_base b (0, 0)) (by rw [hB]; decide) rfl (by decide) hacc
  obtain ⟨rest, hrest⟩ := cpg_loop_out_append PlainSeq.add_contribution_cpg
    "ACGCGT".toList ex_chrom_region M 3 (1 + 1)
    { cursors := advance 1 (uadd 1 1) ex_chrom_region (ex_scenario score [b, x, y, z]),
      out := ([] : List OutputRow) ++
        [write_row ex_chrom_region.get_chrom 1 "CpG" (count_base b (0, 0))],
      aborted := false }
  unfold scan_chromosome_cpg
  rw [hB, step0, step1, hrest]
  rfl

end ScenarioLemmas

/-- C12: scanning the reference `ACGCGT` in CpG mode with one plus-strand read on
`[1, 5)` that passes the mismatch filter, the first row written is the row of
the CpG at position 1: start 1, end 2, label `CpG`, strand `+`, total 1, and
fraction 1 when the read's base at offset 0 is `C` (read `CGCG`), fraction 0
when it is `T`. -/
theorem spec_scenario (score max_mismatches : ℚ) (hfilter : score ≤ max_mismatches)
    (x y z : Char) :
    (scan_chromosome_cpg PlainSeq.add_contribution_cpg "ACGCGT".toList ex_chrom_region
        max_mismatches (ex_scenario score "CGCG".toList)).out.head? =
      some { chrom := "chr1", start := 1, end_ := 2, label := "CpG", total := 1,
             fraction := 1, strand := '+' } ∧
    (scan_chromosome_cpg PlainSeq.add_contribution_cpg "ACGCGT".toList ex_chrom_region
        max_mismatches (ex_scenario score ['T', x, y, z])).out.head? =
      some { chrom := "chr1", start := 1, end_ := 2, label := "CpG", total := 1,
             fraction := 0, strand := '+' } := by
  constructor
  · have h := scenario_first_row score max_mismatches hfilter 'C' 'G' 'C' 'G'
    have hs : "CGCG".toList = ['C', 'G', 'C', 'G'] := by decide
    rw [hs, h]
    have hc : count_base 'C' (0, 0) = (1, 0) := by decide
    rw [hc]
    norm_num [write_row, uadd, SIZE_MOD]
  · rw [scenario_first_row score max_mismatches hfilter 'T' x y z]
    have hc : count_base 'T' (0, 0) = (0, 1) := by decide
    rw [hc]
    norm_num [write_row, uadd, SIZE_MOD]

/-- C12 witness: score 0 and a mismatch maximum of 100. -/
theorem spec_scenario_witness :
    ((0 : ℚ) ≤ 100) ∧
    (scan_chromosome_cpg PlainSeq.add_contribution_cpg "ACGCGT".toList ex_chrom_region
        100 (ex_scenario 0 "CGCG".toList)).out.head? =
      some { chrom := "chr1", start := 1, end_ := 2, label := "CpG", total := 1,
             fraction := 1, strand := '+' } ∧
    (scan_chromosome_cpg PlainSeq.add_contribution_cpg "ACGCGT".toList ex_chrom_region
        100 (ex_scenario 0 "TGCG".toList)).out.head? =
      some { chrom := "chr1", start := 1, end_ := 2, label := "CpG", total := 1,
             fraction := 0, strand := '+' } :=
  ⟨by decide, (spec_scenario 0 100 (by decide) 'G' 'C' 'G').1,
    (spec_scenario 0 100 (by decide) 'G' 'C' 'G').2⟩

section ChromosomeLemmas

variable {T : Type}

theorem chrom_tail_cond_iff (c : GenomicRegion) (it : FileIterator GenomicRegion) :
    (it.last_is_good && (it.get_last).any (fun r => region_lt r c)) = true ↔
    ∃ r, it.data[it.last]? = some r ∧ region_lt r c = true := by
  unfold FileIterator.last_is_good FileIterator.get_last
  constructor
  · intro h
    simp only [Bool.and_eq_true, decide_eq_true_eq] at h
    obtain ⟨hlt, hany⟩ := h
    refine ⟨it.data[it.last], List.getElem?_eq_getElem hlt, ?_⟩
    rw [List.getElem?_eq_getElem hlt] at hany
    simpa [Option.any] using hany
  · rintro ⟨r, hr, hc⟩
    have hlt : it.last < it.data.length := (List.getElem?_eq_some.mp hr).1
    simp [hr, hlt, Option.any, hc]

theorem chrom_head_cond_iff (c : GenomicRegion) (it : FileIterator GenomicRegion) :
    (it.first_is_good && (it.get_first).any (fun r => region_lt r c)) = true ↔
    ∃ r, it.data[it.first]? = some r ∧ region_lt r c = true := by
  unfold FileIterator.first_is_good FileIterator.get_first
  constructor
  · intro h
    simp only [Bool.and_eq_true, decide_eq_true_eq] at h
    obtain ⟨hlt, hany⟩ := h
    refine ⟨it.data[it.first], List.getElem?_eq_getElem hlt, ?_⟩
    rw [List.getElem?_eq_getElem hlt] at hany
    simpa [Option.any] using hany
  · rintro ⟨r, hr, hc⟩
    have hlt : it.first < it.data.length := (List.getElem?_eq_some.mp hr).1
    simp [hr, hlt, Option.any, hc]

theorem chrom_last_loop_frame (c : GenomicRegion) (n : Nat) (cs : Cursors T) :
    (advance_chromosome_last_loop c n cs).regions.data = cs.regions.data ∧
    (advance_chromosome_last_loop c n cs).regions.first = cs.regions.first ∧
    (advance_chromosome_last_loop c n cs).reads.data = cs.reads.data ∧
    (advance_chromosome_last_loop c n cs).reads.first = cs.reads.first ∧
    cs.regions.last ≤ (advance_chromosome_last_loop c n cs).regions.last ∧
    (advance_chromosome_last_loop c n cs).reads.last + cs.regions.last =
      cs.reads.last + (advance_chromosome_last_loop c n cs).regions.last := by
  induction n generalizing cs with
  | zero => simp [advance_chromosome_last_loop]
  | succ n ih =>
    rw [advance_chromosome_last_loop]
    split
    · obtain ⟨h1, h2, h3, h4, h5, h6⟩ :=
        ih ⟨cs.regions.increment_last, cs.reads.increment_last⟩
      have h5' : cs.regions.last + 1 ≤ (advance_chromosome_last_loop c n
          ⟨cs.regions.increment_last, cs.reads.increment_last⟩).regions.last := h5
      have h6' : (advance_chromosome_last_loop c n
          ⟨cs.regions.increment_last, cs.reads.increment_last⟩).reads.last +
            (cs.regions.last + 1) = (cs.reads.last + 1) + (advance_chromosome_last_loop c n
          ⟨cs.regions.increment_last, cs.reads.increment_last⟩).regions.last := h6
      exact ⟨h1, h2, h3, h4, by omega, by omega⟩
    · simp

theorem chrom_last_loop_skipped (c : GenomicRegion) (n : Nat) (cs : Cursors T)
    (j : Nat) (h1 : cs.regions.last ≤ j)
    (h2 : j < (advance_chromosome_last_loop c n cs).regions.last) :
    ∃ r, cs.regions.data[j]? = some r ∧ region_lt r c = true := by
  induction n generalizing cs with
  | zero => simp [advance_chromosome_last_loop] at h2; omega
  | succ n ih =>
    rw [advance_chromosome_last_loop] at h2
    split at h2
    · rename_i hc
      rcases Nat.eq_or_lt_of_le h1 with heq | hlt
      · subst heq
        exact (chrom_tail_cond_iff c cs.regions).mp hc
      · exact ih ⟨cs.regions.increment_last, cs.reads.increment_last⟩ hlt h2
    · omega

theorem chrom_last_loop_exit (c : GenomicRegion) (n : Nat) (cs : Cursors T)
    (hn : cs.regions.data.length - cs.regions.last ≤ n) (r : GenomicRegion)
    (hr : cs.regions.data[(advance_chromosome_last_loop c n cs).regions.last]? = some r) :
    region_lt r c = false := by
  induction n generalizing cs with
  | zero =>
    simp only [advance_chromosome_last_loop] at hr
    have := (List.getElem?_eq_some.mp hr).1
    omega
  | succ n ih =>
    rw [advance_chromosome_last_loop] at hr
    split at hr
    · refine ih ⟨cs.regions.increment_last, cs.reads.increment_last⟩ ?_ hr
      simp only [FileIterator.increment_last]
      omega
    · rename_i hc
      cases hlt : region_lt r c
      · rfl
      · exact absurd ((chrom_tail_cond_iff c cs.regions).mpr ⟨r, hr, hlt⟩) hc

theorem chrom_first_loop_frame (c : GenomicRegion) (n : Nat) (cs : Cursors T) :
    (advance_chromosome_first_loop c n cs).regions.data = cs.regions.data ∧
    (advance_chromosome_first_loop c n cs).regions.last = cs.regions.last ∧
    (advance_chromosome_first_loop c n cs).reads.data = cs.reads.data ∧
    (advance_chromosome_first_loop c n cs).reads.last = cs.reads.last ∧
    cs.regions.first ≤ (advance_chromosome_first_loop c n cs).regions.first ∧
    (advance_chromosome_first_loop c n cs).reads.first + cs.regions.first =
      cs.reads.first + (advance_chromosome_first_loop c n cs).regions.first := by
  induction n generalizing cs with
  | zero => simp [advance_chromosome_first_loop]
  | succ n ih =>
    rw [advance_chromosome_first_loop]
    split
    · obtain ⟨h1, h2, h3, h4, h5, h6⟩ :=
        ih ⟨cs.regions.increment_first, cs.reads.increment_first⟩
      have h5' : cs.regions.first + 1 ≤ (advance_chromosome_first_loop c n
          ⟨cs.regions.increment_first, cs.reads.increment_first⟩).regions.first := h5
      have h6' : (advance_chromosome_first_loop c n
          ⟨cs.regions.increment_first, cs.reads.increment_first⟩).reads.first +
            (cs.regions.first + 1) = (cs.reads.first + 1) + (advance_chromosome_first_loop c n
          ⟨cs.regions.increment_first, cs.reads.increment_first⟩).regions.first := h6
      exact ⟨h1, h2, h3, h4, by omega, by omega⟩
    · simp

theorem chrom_first_loop_skipped (c : GenomicRegion) (n : Nat) (cs : Cursors T)
    (j : Nat) (h1 : cs.regions.first ≤ j)
    (h2 : j < (advance_chromosome_first_loop c n cs).regions.first) :
    ∃ r, cs.regions.data[j]? = some r ∧ region_lt r c = true := by
  induction n generalizing cs with
  | zero => simp [advance_chromosome_first_loop] at h2; omega
  | succ n ih =>
    rw [advance_chromosome_first_loop] at h2
    split at h2
    · rename_i hc
      rcases Nat.eq_or_lt_of_le h1 with heq | hlt
      · subst heq
        exact (chrom_head_cond_iff c cs.regions).mp hc
      · exact ih ⟨cs.regions.increment_first, cs.reads.increment_first⟩ hlt h2
    · omega

theorem chrom_first_loop_exit (c : GenomicRegion) (n : Nat) (cs : Cursors T)
    (hn : cs.regions.data.length - cs.regions.first ≤ n) (r : GenomicRegion)
    (hr : cs.regions.data[(advance_chromosome_first_loop c n cs).regions.first]? = some r) :
    region_lt r c = false := by
  induction n generalizing cs with
  | zero =>
    simp only [advance_chromosome_first_loop] at hr
    have := (List.getElem?_eq_some.mp hr).1
    omega
  | succ n ih =>
    rw [advance_chromosome_first_loop] at hr
    split at hr
    · refine ih ⟨cs.regions.increment_first, cs.reads.increment_first⟩ ?_ hr
      simp only [FileIterator.increment_first]
      omega
    · rename_i hc
      cases hlt : region_lt r c
      · rfl
      · exact absurd ((chrom_head_cond_iff c cs.regions).mpr ⟨r, hr, hlt⟩) hc

theorem advance_chromosome_frame (c : GenomicRegion) (cs : Cursors T) :
    (advance_chromosome c cs).regions.data = cs.regions.data ∧
    (advance_chromosome c cs).reads.data = cs.reads.data ∧
    cs.regions.first ≤ (advance_chromosome c cs).regions.first ∧
    cs.regions.last ≤ (advance_chromosome c cs).regions.last ∧
    (advance_chromosome c cs).reads.first + cs.regions.first =
      cs.reads.first + (advance_chromosome c cs).regions.first ∧
    (advance_chromosome c cs).reads.last + cs.regions.last =
      cs.reads.last + (advance_chromosome c cs).regions.last := by
  unfold advance_chromosome
  obtain ⟨a1, a2, a3, a4, a5, a6⟩ :=
    chrom_last_loop_frame c (cs.regions.data.length - cs.regions.last) cs
  generalize advance_chromosome_last_loop c (cs.regions.data.length - cs.regions.last) cs
    = cs1 at *
  obtain ⟨b1, b2, b3, b4, b5, b6⟩ :=
    chrom_first_loop_frame c (cs1.regions.data.length - cs1.regions.first) cs1
  simp only
  generalize advance_chromosome_first_loop c (cs1.regions.data.length - cs1.regions.first)
    cs1 = cs2 at *
  refine ⟨by rw [b1, a1], by rw [b3, a3], by omega, by omega, by omega, by omega⟩

theorem run_call_frame (call : WindowCall) (cs : Cursors T) :
    (run_call call cs).regions.data = cs.regions.data ∧
    (run_call call cs).reads.data = cs.reads.data ∧
    cs.regions.first ≤ (run_call call cs).regions.first ∧
    cs.regions.last ≤ (run_call call cs).regions.last ∧
    (run_call call cs).reads.first + cs.regions.first =
      cs.reads.first + (run_call call cs).regions.first ∧
    (run_call call cs).reads.last + cs.regions.last =
      cs.reads.last + (run_call call cs).regions.last := by
  cases call with
  | advance f l c => exact advance_frame f l c cs
  | advance_chromosome c => exact advance_chromosome_frame c cs

theorem run_calls_frame (calls : List WindowCall) (cs : Cursors T) :
    (run_calls calls cs).regions.data = cs.regions.data ∧
    (run_calls calls cs).reads.data = cs.reads.data ∧
    cs.regions.first ≤ (run_calls calls cs).regions.first ∧
    cs.regions.last ≤ (run_calls calls cs).regions.last ∧
    (run_calls calls cs).reads.first + cs.regions.first =
      cs.reads.first + (run_calls calls cs).regions.first ∧
    (run_calls calls cs).reads.last + cs.regions.last =
      cs.reads.last + (run_calls calls cs).regions.last := by
  induction calls generalizing cs with
  | nil => simp [run_calls]
  | cons call rest ih =>
    have h1 := run_call_frame call cs
    have h2 := ih (run_call call cs)
    unfold run_calls at h2 ⊢
    rw [List.foldl_cons]
    generalize List.foldl (fun acc call => run_call call acc) (run_call call cs) rest = cs2
      at h2 ⊢
    generalize run_call call cs = cs1 at h1 h2
    obtain ⟨a1, a2, a3, a4, a5, a6⟩ := h1
    obtain ⟨b1, b2, b3, b4, b5, b6⟩ := h2
    exact ⟨by rw [b1, a1], by rw [b2, a2], by omega, by omega, by omega, by omega⟩

end ChromosomeLemmas

/-- C13: each call of `advance` or `advance_chromosome` leaves the head index and
the tail index of both cursors at or above their values before the call, and so
does every sequence of such calls; hence an index below the head, once dropped,
is not in the window `[head, tail)` after any later calls. -/
theorem cursors_monotone {T : Type} (calls : List WindowCall) (cs : Cursors T) :
    (∀ (call : WindowCall) (c0 : Cursors T),
      c0.regions.first ≤ (run_call call c0).regions.first ∧
      c0.regions.last ≤ (run_call call c0).regions.last ∧
      c0.reads.first ≤ (run_call call c0).reads.first ∧
      c0.reads.last ≤ (run_call call c0).reads.last) ∧
    (cs.regions.first ≤ (run_calls calls cs).regions.first ∧
      cs.regions.last ≤ (run_calls calls cs).regions.last ∧
      cs.reads.first ≤ (run_calls calls cs).reads.first ∧
      cs.reads.last ≤ (run_calls calls cs).reads.last) ∧
    (∀ j, j < cs.regions.first →
      ¬ ((run_calls calls cs).regions.first ≤ j ∧ j < (run_calls calls cs).regions.last)) := by
  refine ⟨?_, ?_, ?_⟩
  · intro call c0
    obtain ⟨_, _, h3, h4, h5, h6⟩ := run_call_frame call c0
    exact ⟨h3, h4, by omega, by omega⟩
  · obtain ⟨_, _, h3, h4, h5, h6⟩ := run_calls_frame calls cs
    exact ⟨h3, h4, by omega, by omega⟩
  · intro j hj hcon
    obtain ⟨_, _, h3, _, _, _⟩ := run_calls_frame calls cs
    omega

/-- C14: when the interval cursor and the record cursor start with equal head
indices and equal tail indices, they have equal head indices and equal tail
indices after every sequence of `advance` and `advance_chromosome` calls; and
with equal indices each window interval is paired with the record at the same
stream index, these pairs being the ones the inner loop of the scan visits. -/
theorem index_alignment {T : Type} (calls : List WindowCall) (cs : Cursors T)
    (hfirst : cs.reads.first = cs.regions.first)
    (hlast : cs.reads.last = cs.regions.last) :
    (run_calls calls cs).reads.first = (run_calls calls cs).regions.first ∧
    (run_calls calls cs).reads.last = (run_calls calls cs).regions.last ∧
    (∀ p ∈ (window (run_calls calls cs).regions).zip (window (run_calls calls cs).reads),
      ∃ j, (run_calls calls cs).regions.first ≤ j ∧ j < (run_calls calls cs).regions.last ∧
        cs.regions.data[j]? = some p.1 ∧ cs.reads.data[j]? = some p.2) ∧
    (∀ (f : GenomicRegion → T → Nat × Nat → Option (Nat × Nat)) (max_mismatches : ℚ),
      (run_calls calls cs).regions.first ≤ (run_calls calls cs).regions.last →
      (run_calls calls cs).regions.last ≤ cs.regions.data.length →
      (run_calls calls cs).regions.last ≤ cs.reads.data.length →
      accumulate f max_mismatches (run_calls calls cs) =
        (((window (run_calls calls cs).regions).zip
          (window (run_calls calls cs).reads)).filter
            (fun p => decide (p.1.get_score ≤ max_mismatches))).foldlM
              (fun acc p => f p.1 p.2 acc) (0, 0)) := by
  obtain ⟨h1, h2, _, _, h5, h6⟩ := run_calls_frame calls cs
  have e1 : (run_calls calls cs).reads.first = (run_calls calls cs).regions.first := by omega
  have e2 : (run_calls calls cs).reads.last = (run_calls calls cs).regions.last := by omega
  refine ⟨e1, e2, ?_, ?_⟩
  swap
  · intro f M hwin hreg hreads
    unfold accumulate
    rw [if_neg (by omega)]
    unfold window
    rw [e1, e2]
    exact accumulate_loop_eq_foldlM f M _ _ _ _ _ _ (by rw [h1]; omega) (by rw [h2]; omega)
  intro p hp
  obtain ⟨n, hn⟩ := List.mem_iff_getElem?.mp hp
  rw [List.getElem?_zip_eq_some] at hn
  obtain ⟨hn1, hn2⟩ := hn
  unfold window at hn1 hn2
  rw [List.getElem?_take] at hn1 hn2
  split at hn1
  · rename_i hlt
    split at hn2
    · rw [List.getElem?_drop] at hn1 hn2
      rw [h1] at hn1
      rw [h2, e1] at hn2
      exact ⟨(run_calls calls cs).regions.first + n, by omega, by omega, hn1, hn2⟩
    · cases hn2
  · cases hn1

/-- C14 witness: the scan of `chr1` at positions 0 and 1 followed by the move to
`chr2`, on cursors that start together. -/
theorem index_alignment_witness :
    (ex_two_chroms.reads.first = ex_two_chroms.regions.first) ∧
    (ex_two_chroms.reads.last = ex_two_chroms.regions.last) ∧
    ((run_calls [.advance 0 1 ex_chrom_region, .advance 1 2 ex_chrom_region,
        .advance_chromosome ⟨"chr2", 0, 0, '+', 0⟩] ex_two_chroms).reads.first =
      (run_calls [.advance 0 1 ex_chrom_region, .advance 1 2 ex_chrom_region,
        .advance_chromosome ⟨"chr2", 0, 0, '+', 0⟩] ex_two_chroms).regions.first) ∧
    ((run_calls [.advance 0 1 ex_chrom_region, .advance 1 2 ex_chrom_region,
        .advance_chromosome ⟨"chr2", 0, 0, '+', 0⟩] ex_two_chroms).reads.last =
      (run_calls [.advance 0 1 ex_chrom_region, .advance 1 2 ex_chrom_region,
        .advance_chromosome ⟨"chr2", 0, 0, '+', 0⟩] ex_two_chroms).regions.last) ∧
    ((run_calls [.advance 0 1 ex_chrom_region, .advance 1 2 ex_chrom_region,
        .advance_chromosome ⟨"chr2", 0, 0, '+', 0⟩] ex_two_chroms).regions.first = 1) :=
  ⟨rfl, rfl,
    (index_alignment [.advance 0 1 ex_chrom_region, .advance 1 2 ex_chrom_region,
        .advance_chromosome ⟨"chr2", 0, 0, '+', 0⟩] ex_two_chroms rfl rfl).1,
    (index_alignment [.advance 0 1 ex_chrom_region, .advance 1 2 ex_chrom_region,
        .advance_chromosome ⟨"chr2", 0, 0, '+', 0⟩] ex_two_chroms rfl rfl).2.1,
    by decide⟩

section DrainLemmas

variable {T : Type}

theorem region_lt_chrom_start (r c : GenomicRegion) (hc : c.start = 0) :
    region_lt r c = true ↔ r.chrom < c.chrom := by
  unfold region_lt
  rw [String.lt_iff_toList_lt]
  simp [hc]

theorem advance_chromosome_skipped (c : GenomicRegion) (cs : Cursors T) (j : Nat)
    (h : (cs.regions.first ≤ j ∧ j < (advance_chromosome c cs).regions.first) ∨
      (cs.regions.last ≤ j ∧ j < (advance_chromosome c cs).regions.last)) :
    ∃ r, cs.regions.data[j]? = some r ∧ region_lt r c = true := by
  unfold advance_chromosome at h
  simp only at h
  have hfr := chrom_last_loop_frame c (cs.regions.data.length - cs.regions.last) cs
  rcases h with ⟨h1, h2⟩ | ⟨h1, h2⟩
  · have := chrom_first_loop_skipped c _ _ j (by rw [hfr.2.1]; exact h1) h2
    rwa [hfr.1] at this
  · rw [(chrom_first_loop_frame c _ _).2.1] at h2
    exact chrom_last_loop_skipped c _ cs j h1 h2

theorem advance_chromosome_exits (c : GenomicRegion) (cs : Cursors T) (r : GenomicRegion) :
    (cs.regions.data[(advance_chromosome c cs).regions.first]? = some r →
      region_lt r c = false) ∧
    (cs.regions.data[(advance_chromosome c cs).regions.last]? = some r →
      region_lt r c = false) := by
  unfold advance_chromosome
  simp only
  have hfr := chrom_last_loop_frame c (cs.regions.data.length - cs.regions.last) cs
  constructor
  · intro hr
    generalize advance_chromosome_last_loop c (cs.regions.data.length - cs.regions.last) cs
      = cs1 at hr hfr
    rw [← hfr.1] at hr
    exact chrom_first_loop_exit c _ cs1 (le_refl _) r hr
  · intro hr
    rw [(chrom_first_loop_frame c _ _).2.1] at hr
    exact chrom_last_loop_exit c _ cs (le_refl _) r hr

end DrainLemmas

/-- C19: after `advance_chromosome` with the region `(chrom, 0, 0)`, the head and
the tail, when still valid, refer to pairs that are not ordered before that
region; every pair either cursor has skipped is ordered before it, that is, lies
on a chromosome ordered before `chrom`; no pair of `chrom` or of a later
chromosome is skipped; and on a stream sorted in chromosome order no pair from
the head on is ordered before the region. -/
theorem advance_chromosome_drains {T : Type} (chrom_region : GenomicRegion)
    (cs : Cursors T) (hzero : chrom_region.start = 0) :
    (∀ r, cs.regions.data[(advance_chromosome chrom_region cs).regions.first]? = some r →
      region_lt r chrom_region = false) ∧
    (∀ r, cs.regions.data[(advance_chromosome chrom_region cs).regions.last]? = some r →
      region_lt r chrom_region = false) ∧
    (∀ j, (cs.regions.first ≤ j ∧ j < (advance_chromosome chrom_region cs).regions.first) ∨
        (cs.regions.last ≤ j ∧ j < (advance_chromosome chrom_region cs).regions.last) →
      ∃ r, cs.regions.data[j]? = some r ∧ region_lt r chrom_region = true ∧
        r.chrom < chrom_region.chrom) ∧
    (∀ j r, cs.regions.data[j]? = some r →
      (r.chrom = chrom_region.chrom ∨ chrom_region.chrom < r.chrom) →
      ¬ ((cs.regions.first ≤ j ∧ j < (advance_chromosome chrom_region cs).regions.first) ∨
        (cs.regions.last ≤ j ∧ j < (advance_chromosome chrom_region cs).regions.last))) ∧
    (SortedStream cs.regions.data →
      ∀ j r, (advance_chromosome chrom_region cs).regions.first ≤ j →
        cs.regions.data[j]? = some r → region_lt r chrom_region = false) := by
  have hskip : ∀ j, (cs.regions.first ≤ j ∧
        j < (advance_chromosome chrom_region cs).regions.first) ∨
        (cs.regions.last ≤ j ∧ j < (advance_chromosome chrom_region cs).regions.last) →
      ∃ r, cs.regions.data[j]? = some r ∧ region_lt r chrom_region = true ∧
        r.chrom < chrom_region.chrom := by
    intro j hj
    obtain ⟨r, hr, hlt⟩ := advance_chromosome_skipped chrom_region cs j hj
    exact ⟨r, hr, hlt, (region_lt_chrom_start r chrom_region hzero).mp hlt⟩
  refine ⟨fun r => (advance_chromosome_exits chrom_region cs r).1,
    fun r => (advance_chromosome_exits chrom_region cs r).2, hskip, ?_, ?_⟩
  · intro j r hr hchrom hj
    obtain ⟨r', hr', _, hlt⟩ := hskip j hj
    rw [hr] at hr'
    cases hr'
    rcases hchrom with heq | hgt
    · rw [heq] at hlt
      exact lt_irrefl _ hlt
    · exact lt_asymm hlt hgt
  · intro hsorted j r hj hr
    have hjlen : j < cs.regions.data.length := (List.getElem?_eq_some.mp hr).1
    obtain ⟨rh, hrh⟩ : ∃ rh,
        cs.regions.data[(advance_chromosome chrom_region cs).regions.first]? = some rh :=
      ⟨_, List.getElem?_eq_getElem (by omega)⟩
    have hhead := (advance_chromosome_exits chrom_region cs rh).1 hrh
    have hhead' : ¬ rh.chrom < chrom_region.chrom := by
      intro hcon
      rw [(region_lt_chrom_start rh chrom_region hzero).mpr hcon] at hhead
      cases hhead
    cases hlt : region_lt r chrom_region
    · rfl
    · exfalso
      have hrlt := (region_lt_chrom_start r chrom_region hzero).mp hlt
      rcases Nat.eq_or_lt_of_le hj with heq | hgt
      · rw [← heq, hrh] at hr
        cases hr
        exact hhead' hrlt
      · rcases sorted_getElem? _ hsorted _ _ rh r hgt hrh hr with ⟨hcc, _⟩ | hltc
        · rw [hcc] at hhead'
          exact hhead' hrlt
        · exact hhead' (lt_trans hltc hrlt)

/-- C19 witness: moving from `chr1` to `chr2` on a stream with one read on each;
both cursors pass the read of `chr1` and stop at the read of `chr2`. -/
theorem advance_chromosome_drains_witness :
    ((⟨"chr2", 0, 0, '+', 0⟩ : GenomicRegion).start = 0) ∧
    ((advance_chromosome ⟨"chr2", 0, 0, '+', 0⟩ ex_between_chroms).regions.first = 1) ∧
    ((advance_chromosome ⟨"chr2", 0, 0, '+', 0⟩ ex_between_chroms).regions.last = 1) ∧
    (∃ r, ex_between_chroms.regions.data[0]? = some r ∧
      region_lt r ⟨"chr2", 0, 0, '+', 0⟩ = true ∧
      r.chrom < (⟨"chr2", 0, 0, '+', 0⟩ : GenomicRegion).chrom) ∧
    (region_lt ⟨"chr2", 0, 4, '+', 0⟩ ⟨"chr2", 0, 0, '+', 0⟩ = false) :=
  ⟨rfl, by decide, by decide,
    (advance_chromosome_drains ⟨"chr2", 0, 0, '+', 0⟩ ex_between_chroms rfl).2.2.1 0
      (Or.inl ⟨by decide, by decide⟩),
    (advance_chromosome_drains ⟨"chr2", 0, 0, '+', 0⟩ ex_between_chroms rfl).1
      ⟨"chr2", 0, 4, '+', 0⟩ (by decide)⟩

section OffsetLemmas

theorem cover_offsets (i start len : Nat) (hi : i < SIZE_MOD) (hlen : len < SIZE_MOD)
    (hs : start ≤ i) (hc : i - start < len) :
    usub i start < len ∧ usub (usub len 1) (usub i start) < len ∧
    usub len (uadd (usub i start) 1) < len := by
  unfold uadd usub SIZE_MOD at *
  omega

theorem cpg_offsets (i start len : Nat) (hi : i + 1 < SIZE_MOD) (hlen : len + 1 < SIZE_MOD)
    (hs : start ≤ i + 1) (hc : i < start + len) :
    (start ≤ i → usub i start < len) ∧
    (uadd (usub i start) 2 ≤ len →
      usub (usub len 1) (usub (uadd i 1) start) < len) := by
  unfold uadd usub SIZE_MOD at *
  omega

theorem map_isSome_of_lt (s : List Char) (p : Nat) (mu : Nat × Nat) (h : p < s.length) :
    ((s[p]?).map (fun c => count_base c mu)).isSome = true := by
  rw [List.getElem?_eq_getElem h]
  rfl

end OffsetLemmas

/-- C17: for a pair whose sequence is as long as its interval is wide, the
single-C offset `i - start` and the single-G offset `(len - 1) - (i - start)` (in
both written forms) are below `len` when `start <= i < end`, so that
`add_contribution_c` and `add_contribution_g` index inside the sequence; and
when `start <= i + 1` and `end > i`, every offset that `add_contribution_cpg`
indexes at site `i` in 64-bit arithmetic is below `len`, the wrapped case
`start = i + 1` included. -/
theorem pair_offset_safety (i : Nat) (r : GenomicRegion) (s : FASTQRecord) (mu : Nat × Nat)
    (hwidth : s.first.length = r.end_ - r.start)
    (hi : i + 1 < SIZE_MOD) (hlen : s.first.length + 1 < SIZE_MOD) :
    (r.start ≤ i → i < r.end_ →
      usub i r.start < s.first.length ∧
      usub (usub s.first.length 1) (usub i r.start) < s.first.length ∧
      usub s.first.length (uadd (usub i r.start) 1) < s.first.length ∧
      (PlainSeq.add_contribution_c i r s.first mu).isSome = true ∧
      (PlainSeq.add_contribution_g i r s.first mu).isSome = true ∧
      (FastqSeq.add_contribution_c i r s mu).isSome = true ∧
      (FastqSeq.add_contribution_g i r s mu).isSome = true) ∧
    (r.start ≤ i + 1 → i < r.end_ →
      (r.start ≤ i → usub i r.start < s.first.length) ∧
      (uadd (usub i r.start) 2 ≤ s.first.length →
        usub (usub s.first.length 1) (usub (uadd i 1) r.start) < s.first.length) ∧
      (FastqSeq.add_contribution_cpg i r s mu).isSome = true ∧
      (PlainSeq.add_contribution_cpg i r s.first mu).isSome = true) := by
  constructor
  · intro hs he
    obtain ⟨h1, h2, h3⟩ := cover_offsets i r.start s.first.length
      (by unfold SIZE_MOD at *; omega) (by unfold SIZE_MOD at *; omega) hs (by omega)
    refine ⟨h1, h2, h3, ?_, ?_, ?_, ?_⟩
    · unfold PlainSeq.add_contribution_c
      split
      · exact map_isSome_of_lt _ _ _ h1
      · rfl
    · unfold PlainSeq.add_contribution_g
      split
      · exact map_isSome_of_lt _ _ _ h3
      · rfl
    · unfold FastqSeq.add_contribution_c
      split
      · exact map_isSome_of_lt _ _ _ h1
      · rfl
    · unfold FastqSeq.add_contribution_g
      split
      · exact map_isSome_of_lt _ _ _ h2
      · rfl
  · intro hs he
    obtain ⟨h1, h2⟩ := cpg_offsets i r.start s.first.length hi hlen hs (by omega)
    refine ⟨h1, h2, ?_, ?_⟩
    · unfold FastqSeq.add_contribution_cpg
      simp only [GenomicRegion.get_start]
      by_cases hp : (r.pos_strand && decide (r.start ≤ i)) = true
      · rw [if_pos hp]
        have hp' := hp
        simp only [Bool.and_eq_true, decide_eq_true_eq] at hp'
        have hsi : r.start ≤ i := hp'.2
        have hneg : r.neg_strand = false := pos_not_neg r hp'.1
        rw [List.getElem?_eq_getElem (h1 hsi)]
        simp [hneg]
      · rw [if_neg hp]
        simp only [Option.some_bind]
        split
        · rename_i hn
          have hn' := hn
          simp only [Bool.and_eq_true, decide_eq_true_eq] at hn'
          have hcond : uadd (usub i r.start) 2 ≤ s.first.length := hn'.2
          exact map_isSome_of_lt _ _ _ (h2 hcond)
        · rfl
    · unfold PlainSeq.add_contribution_cpg
      split
      · simp only
        split
        · rename_i hlt
          exact map_isSome_of_lt _ _ _ hlt
        · rfl
      · split
        · simp only
          split
          · rename_i hlt
            exact map_isSome_of_lt _ _ _ hlt
          · rfl
        · rfl

/-- C17 witness: the minus-strand read `ACGT` on `[2, 6)` at the CpG at position
1, the wrapped case `start = i + 1`, and at the single position 3. -/
theorem pair_offset_safety_witness :
    ("ACGT".toList.length = 6 - 2) ∧ (3 + 1 < SIZE_MOD) ∧
    ("ACGT".toList.length + 1 < SIZE_MOD) ∧
    (usub 3 2 < "ACGT".toList.length ∧
      usub (usub "ACGT".toList.length 1) (usub 3 2) < "ACGT".toList.length) ∧
    (uadd (usub 1 2) 2 ≤ "ACGT".toList.length) ∧
    (usub (usub "ACGT".toList.length 1) (usub (uadd 1 1) 2) < "ACGT".toList.length) ∧
    ((FastqSeq.add_contribution_cpg 1 ⟨"chr1", 2, 6, '-', 0⟩
      ⟨"ACGT".toList, "IIII".toList⟩ (0, 0)).isSome = true) := by
  have h3 := (pair_offset_safety 3 ⟨"chr1", 2, 6, '-', 0⟩ ⟨"ACGT".toList, "IIII".toList⟩
    (0, 0) (by decide) (by decide) (by decide)).1 (by decide) (by decide)
  have h1 := (pair_offset_safety 1 ⟨"chr1", 2, 6, '-', 0⟩ ⟨"ACGT".toList, "IIII".toList⟩
    (0, 0) (by decide) (by decide) (by decide)).2 (by decide) (by decide)
  exact ⟨by decide, by decide, by decide, ⟨h3.1, h3.2.1⟩, by decide,
    h1.2.1 (by decide), h1.2.2.1⟩

section NoopLemmas

theorem count_checked_accepting (qc : QualityChecker) (s : FASTQRecord) (p : Nat)
    (mu : Nat × Nat)
    (haccept : ∀ k, k < s.first.length → qc.check s k = some true) :
    count_checked qc s p mu = (s.first[p]?).map (fun c => count_base c mu) := by
  unfold count_checked
  by_cases hp : p < s.first.length
  · rw [List.getElem?_eq_getElem hp, haccept p hp]
    rfl
  · rw [List.getElem?_eq_none (by omega)]
    rfl

end NoopLemmas

/-- C18: with a quality checker that accepts every base of the record, the
quality-checked overloads of `add_contribution_cpg`, `add_contribution_c` and
`add_contribution_g` return the same counts as the FASTQ overloads that ignore
quality; and the counts of those do not depend on the quality string. -/
theorem quality_noop (qc : QualityChecker) (i : Nat) (r : GenomicRegion) (s : FASTQRecord)
    (mu : Nat × Nat) (q1 q2 : List Char)
    (haccept : ∀ k, k < s.first.length → qc.check s k = some true) :
    FastqQual.add_contribution_cpg qc i r s mu = FastqSeq.add_contribution_cpg i r s mu ∧
    FastqQual.add_contribution_c qc i r s mu = FastqSeq.add_contribution_c i r s mu ∧
    FastqQual.add_contribution_g qc i r s mu = FastqSeq.add_contribution_g i r s mu ∧
    FastqSeq.add_contribution_cpg i r ⟨s.first, q1⟩ mu =
      FastqSeq.add_contribution_cpg i r ⟨s.first, q2⟩ mu ∧
    FastqSeq.add_contribution_c i r ⟨s.first, q1⟩ mu =
      FastqSeq.add_contribution_c i r ⟨s.first, q2⟩ mu ∧
    FastqSeq.add_contribution_g i r ⟨s.first, q1⟩ mu =
      FastqSeq.add_contribution_g i r ⟨s.first, q2⟩ mu := by
  have hcc : ∀ p m, count_checked qc s p m = (s.first[p]?).map (fun c => count_base c m) :=
    fun p m => count_checked_accepting qc s p m haccept
  refine ⟨?_, ?_, ?_, rfl, rfl, rfl⟩
  · unfold FastqQual.add_contribution_cpg FastqSeq.add_contribution_cpg
    simp only [hcc]
  · unfold FastqQual.add_contribution_c FastqSeq.add_contribution_c
    simp only [hcc]
  · unfold FastqQual.add_contribution_g FastqSeq.add_contribution_g
    simp only [hcc]

/-- C18 witness: cutoff `!`, below every quality character of the record. -/
theorem quality_noop_witness :
    (∀ k, k < "CGCG".toList.length →
      (⟨'!'⟩ : QualityChecker).check ⟨"CGCG".toList, "5!II".toList⟩ k = some true) ∧
    FastqQual.add_contribution_cpg ⟨'!'⟩ 1 ⟨"chr1", 1, 5, '+', 0⟩
        ⟨"CGCG".toList, "5!II".toList⟩ (0, 0) =
      FastqSeq.add_contribution_cpg 1 ⟨"chr1", 1, 5, '+', 0⟩
        ⟨"CGCG".toList, "5!II".toList⟩ (0, 0) ∧
    FastqSeq.add_contribution_cpg 1 ⟨"chr1", 1, 5, '+', 0⟩
        ⟨"CGCG".toList, "5!II".toList⟩ (0, 0) = some (1, 0) :=
  ⟨by decide,
    (quality_noop ⟨'!'⟩ 1 ⟨"chr1", 1, 5, '+', 0⟩ ⟨"CGCG".toList, "5!II".toList⟩ (0, 0)
      [] [] (by decide)).1,
    by decide⟩

section AllCytosineLemmas

variable {T : Type}

end AllCytosineLemmas

section ExtractionLemmas

theorem span_append (p : Char → Bool) (l r : List Char)
    (hl : ∀ c ∈ l, p c = true) (hr : ∀ c, r.head? = some c → p c = false) :
    (l ++ r).takeWhile p = l ∧ (l ++ r).dropWhile p = r := by
  induction l with
  | nil =>
    cases r with
    | nil => exact ⟨rfl, rfl⟩
    | cons c r' =>
      have hc := hr c rfl
      simp [List.takeWhile_cons, List.dropWhile_cons, hc]
  | cons a l ih =>
    have ha := hl a (List.mem_cons_self _ _)
    obtain ⟨h1, h2⟩ := ih (fun c hc => hl c (List.mem_cons_of_mem _ hc))
    simp [List.takeWhile_cons, List.dropWhile_cons, ha, h1, h2]

theorem head?_append_of_ne_nil (l r : List Char) (h : l ≠ []) :
    (l ++ r).head? = l.head? := by
  cases l with
  | nil => exact absurd rfl h
  | cons a l => rfl

theorem head?_mem (l : List Char) (c : Char) (h : l.head? = some c) : c ∈ l := by
  cases l with
  | nil => cases h
  | cons a l =>
    simp only [List.head?_cons, Option.some.injEq] at h
    rw [h]
    exact List.mem_cons_self _ _

theorem extract_string_eq (ws t r : List Char)
    (hws : ∀ c ∈ ws, isspace c = true)
    (ht : t ≠ []) (htok : ∀ c ∈ t, isspace c = false)
    (hr : ∀ c, r.head? = some c → isspace c = true) :
    extract_string (ws ++ (t ++ r)) = some (t, r) := by
  have h1 : (ws ++ (t ++ r)).dropWhile isspace = t ++ r := by
    refine (span_append isspace ws (t ++ r) hws ?_).2
    intro c hc
    rw [head?_append_of_ne_nil t r ht] at hc
    exact htok c (head?_mem t c hc)
  have h2 := span_append (fun c => !isspace c) t r
    (fun c hc => by simp [htok c hc]) (fun c hc => by simp [hr c hc])
  unfold extract_string
  simp only [h1, h2.1, h2.2]
  have : (t ++ r).isEmpty = false := by
    cases t with
    | nil => exact absurd rfl ht
    | cons a t => rfl
  simp [this]

theorem digit_not_space (c : Char) (h : c.isDigit = true) : isspace c = false := by
  have hv : 48 ≤ c.val ∧ c.val ≤ 57 := by
    simpa [Char.isDigit] using h
  unfold isspace
  simp only [Bool.or_eq_false_iff, beq_eq_false_iff_ne, ne_eq]
  refine ⟨⟨⟨⟨⟨?_, ?_⟩, ?_⟩, ?_⟩, ?_⟩, ?_⟩ <;>
  · intro heq
    rw [heq] at hv
    exact absurd hv (by decide)

theorem digit_not_sign (c : Char) (h : c.isDigit = true) : c ≠ '-' ∧ c ≠ '+' := by
  have hv : 48 ≤ c.val ∧ c.val ≤ 57 := by
    simpa [Char.isDigit] using h
  constructor <;>
  · intro heq
    rw [heq] at hv
    exact absurd hv (by decide)

theorem extract_size_t_eq (ws ds r : List Char)
    (hws : ∀ c ∈ ws, isspace c = true)
    (hne : ds ≠ []) (hds : ∀ c ∈ ds, c.isDigit = true)
    (hr : ∀ c, r.head? = some c → c.isDigit = false)
    (hval : digits_value ds < SIZE_MOD) :
    extract_size_t (ws ++ (ds ++ r)) = some (digits_value ds, r) := by
  have h1 : (ws ++ (ds ++ r)).dropWhile isspace = ds ++ r := by
    refine (span_append isspace ws (ds ++ r) hws ?_).2
    intro c hc
    rw [head?_append_of_ne_nil ds r hne] at hc
    exact digit_not_space c (hds c (head?_mem ds c hc))
  have h2 := span_append Char.isDigit ds r hds hr
  obtain ⟨d, ds', rfl⟩ : ∃ d ds', ds = d :: ds' := by
    cases ds with
    | nil => exact absurd rfl hne
    | cons d ds' => exact ⟨d, ds', rfl⟩
  have hd := digit_not_sign d (hds d (List.mem_cons_self _ _))
  unfold extract_size_t
  simp only [h1]
  have hneg : ((d :: ds' ++ r).head? == some '-') = false := by
    simp [hd.1]
  have hpos : ((d :: ds' ++ r).head? == some '+') = false := by
    simp [hd.2]
  simp only [hneg, hpos, Bool.or_false, Bool.false_eq_true, if_false, h2.1, h2.2]
  have hval' : ¬ SIZE_MOD ≤ digits_value (d :: ds') := by omega
  simp [hval']

theorem digitChar_spec : ∀ k, k < 10 →
    (Nat.digitChar k).isDigit = true ∧ digit_value (Nat.digitChar k) = k := by
  decide

theorem toDigitsCore_spec (fuel n : Nat) (ds : List Char) (h : n < fuel) :
    ∃ D, Nat.toDigitsCore 10 fuel n ds = D ++ ds ∧ D ≠ [] ∧
      (∀ c ∈ D, c.isDigit = true) ∧ digits_value D = n := by
  induction fuel generalizing n ds with
  | zero => omega
  | succ fuel ih =>
    rw [Nat.toDigitsCore]
    obtain ⟨hdig, hval⟩ := digitChar_spec (n % 10) (Nat.mod_lt _ (by decide))
    split
    · rename_i hz
      refine ⟨[Nat.digitChar (n % 10)], rfl, by simp, ?_, ?_⟩
      · intro c hc
        rw [List.mem_singleton] at hc
        rw [hc]; exact hdig
      · simp only [digits_value, List.foldl_cons, List.foldl_nil, hval]
        omega
    · rename_i hnz
      obtain ⟨D, hD, _, hDd, hDv⟩ := ih (n / 10) (Nat.digitChar (n % 10) :: ds) (by omega)
      refine ⟨D ++ [Nat.digitChar (n % 10)], by rw [hD]; simp, by simp, ?_, ?_⟩
      · intro c hc
        rcases List.mem_append.mp hc with h1 | h1
        · exact hDd c h1
        · rw [List.mem_singleton] at h1
          rw [h1]; exact hdig
      · unfold digits_value at hDv ⊢
        rw [List.foldl_append, hDv]
        simp only [List.foldl_cons, List.foldl_nil, hval]
        omega

theorem toDigits_spec (n : Nat) :
    Nat.toDigits 10 n ≠ [] ∧ (∀ c ∈ Nat.toDigits 10 n, c.isDigit = true) ∧
    digits_value (Nat.toDigits 10 n) = n := by
  obtain ⟨D, hD, hne, hdig, hval⟩ := toDigitsCore_spec (n + 1) n [] (by omega)
  unfold Nat.toDigits
  rw [hD, List.append_nil]
  exact ⟨hne, hdig, hval⟩

end ExtractionLemmas

/-- C15: an epiread whose chromosome name and call string are non-empty and free
of whitespace is read back unchanged: `operator>>` applied to the line that
`operator<<` writes (chromosome, tab, position, tab, call string) succeeds and
stores the same `chr`, `pos` and `seq`. -/
theorem epiread_round_trip (er : epiread)
    (hchr : er.chr ≠ []) (hchr_ws : ∀ c ∈ er.chr, isspace c = false)
    (hseq : er.seq ≠ []) (hseq_ws : ∀ c ∈ er.seq, isspace c = false)
    (hpos : er.pos < SIZE_MOD) :
    read_epiread (write_epiread er) = .parsed er [] := by
  obtain ⟨hne, hdig, hval⟩ := toDigits_spec er.pos
  have hline : ∀ c ∈ write_epiread er, (c != '\n') = true := by
    intro c hc
    unfold write_epiread at hc
    simp only [List.mem_append, List.mem_singleton] at hc
    have key : c ≠ '\n' := by
      rcases hc with (((h | h) | h) | h) | h
      · intro heq; rw [heq] at h; exact absurd (hchr_ws _ h) (by decide)
      · rw [h]; decide
      · intro heq; rw [heq] at h; exact absurd (hdig _ h) (by decide)
      · rw [h]; decide
      · intro heq; rw [heq] at h; exact absurd (hseq_ws _ h) (by decide)
    simpa using key
  have hget : getline (write_epiread er) = some (write_epiread er, []) := by
    unfold getline
    have hnonempty : (write_epiread er).isEmpty = false := by
      unfold write_epiread
      cases hc : er.chr with
      | nil => exact absurd hc hchr
      | cons a t => rfl
    rw [hnonempty, List.takeWhile_eq_self_iff.mpr hline,
      List.dropWhile_eq_nil_iff.mpr hline]
    rfl
  have h1 : extract_string (write_epiread er) =
      some (er.chr, ['\t'] ++ (Nat.toDigits 10 er.pos ++ (['\t'] ++ (er.seq ++ [])))) := by
    have := extract_string_eq [] er.chr
      (['\t'] ++ (Nat.toDigits 10 er.pos ++ (['\t'] ++ (er.seq ++ []))))
      (fun c hc => by cases hc) hchr hchr_ws
      (fun c hc => by
        simp only [List.singleton_append, List.head?_cons, Option.some.injEq] at hc
        rw [← hc]; decide)
    simpa [write_epiread] using this
  have h2 : extract_size_t (['\t'] ++ (Nat.toDigits 10 er.pos ++ (['\t'] ++ (er.seq ++ [])))) =
      some (er.pos, ['\t'] ++ (er.seq ++ [])) := by
    have := extract_size_t_eq ['\t'] (Nat.toDigits 10 er.pos) (['\t'] ++ (er.seq ++ []))
      (fun c hc => by rw [List.mem_singleton] at hc; rw [hc]; decide) hne hdig
      (fun c hc => by
        simp only [List.singleton_append, List.head?_cons, Option.some.injEq] at hc
        rw [← hc]; decide)
      (by rw [hval]; exact hpos)
    rw [hval] at this
    exact this
  have h3 : extract_string (['\t'] ++ (er.seq ++ [])) = some (er.seq, []) :=
    extract_string_eq ['\t'] er.seq []
      (fun c hc => by rw [List.mem_singleton] at hc; rw [hc]; decide) hseq hseq_ws
      (fun c hc => by cases hc)
  unfold read_epiread
  simp only [hget, h1, h2, h3]

/-- C15 witness: the read `chr1`, 120, `CTC`. -/
theorem epiread_round_trip_witness :
    ("chr1".toList ≠ []) ∧ (∀ c ∈ "chr1".toList, isspace c = false) ∧
    ("CTC".toList ≠ []) ∧ (∀ c ∈ "CTC".toList, isspace c = false) ∧
    (120 < SIZE_MOD) ∧
    write_epiread ⟨"chr1".toList, 120, "CTC".toList⟩ = "chr1\t120\tCTC".toList ∧
    read_epiread (write_epiread ⟨"chr1".toList, 120, "CTC".toList⟩) =
      .parsed ⟨"chr1".toList, 120, "CTC".toList⟩ [] :=
  ⟨by decide, by decide, by decide, by decide, by decide, by decide,
    epiread_round_trip ⟨"chr1".toList, 120, "CTC".toList⟩ (by decide) (by decide)
      (by decide) (by decide) (by decide)⟩

section FieldLemmas

end FieldLemmas

section InversionLemmas

variable {T : Type}

theorem advance_first_loop_le (f : Nat) (c : GenomicRegion) (n : Nat) (cs : Cursors T)
    (t : Nat) (ht : cs.regions.first ≤ t)
    (hstop : ∀ r, cs.regions.data[t]? = some r → ¬ (c.chrom = r.chrom ∧ r.end_ ≤ f)) :
    (advance_first_loop f c n cs).regions.first ≤ t := by
  induction n generalizing cs with
  | zero => simpa [advance_first_loop] using ht
  | succ n ih =>
    rw [advance_first_loop]
    split
    · rename_i hc
      obtain ⟨r, hr, hcond⟩ := (head_cond_iff f c cs.regions).mp hc
      have hne : cs.regions.first ≠ t := by
        intro heq
        rw [heq] at hr
        exact hstop r hr hcond
      exact ih ⟨cs.regions.increment_first, cs.reads.increment_first⟩
        (show cs.regions.first + 1 ≤ t by omega) hstop
    · exact ht

theorem chrom_first_loop_le (c : GenomicRegion) (n : Nat) (cs : Cursors T)
    (t : Nat) (ht : cs.regions.first ≤ t)
    (hstop : ∀ r, cs.regions.data[t]? = some r → region_lt r c = false) :
    (advance_chromosome_first_loop c n cs).regions.first ≤ t := by
  induction n generalizing cs with
  | zero => simpa [advance_chromosome_first_loop] using ht
  | succ n ih =>
    rw [advance_chromosome_first_loop]
    split
    · rename_i hc
      obtain ⟨r, hr, hcond⟩ := (chrom_head_cond_iff c cs.regions).mp hc
      have hne : cs.regions.first ≠ t := by
        intro heq
        rw [heq] at hr
        rw [hstop r hr] at hcond
        cases hcond
      exact ih ⟨cs.regions.increment_first, cs.reads.increment_first⟩
        (show cs.regions.first + 1 ≤ t by omega) hstop
    · exact ht

theorem advance_not_inverted (f l : Nat) (c : GenomicRegion) (cs : Cursors T)
    (hhead : cs.regions.first ≤ cs.regions.last) (hfl : f ≤ l)
    (hwf : ∀ r ∈ cs.regions.data, r.start ≤ r.end_) :
    (advance f l c cs).regions.first ≤ (advance f l c cs).regions.last := by
  unfold advance
  simp only
  obtain ⟨a1, a2, _, _, a5, _⟩ :=
    advance_last_loop_frame l c (cs.regions.data.length - cs.regions.last) cs
  have hexit := advance_last_loop_exit l c (cs.regions.data.length - cs.regions.last) cs
    (le_refl _)
  generalize advance_last_loop l c (cs.regions.data.length - cs.regions.last) cs = cs1
    at a1 a2 a5 hexit ⊢
  rw [(advance_first_loop_frame f c _ cs1).2.1]
  refine advance_first_loop_le f c _ cs1 cs1.regions.last (by omega) ?_
  intro r hr ⟨hchrom, hend⟩
  rw [a1] at hr
  have hmem : r ∈ cs.regions.data := List.mem_iff_getElem?.mpr ⟨_, hr⟩
  have := hwf r hmem
  exact hexit r hr ⟨hchrom, by omega⟩

theorem advance_chromosome_not_inverted (c : GenomicRegion) (cs : Cursors T)
    (hhead : cs.regions.first ≤ cs.regions.last) :
    (advance_chromosome c cs).regions.first ≤ (advance_chromosome c cs).regions.last := by
  unfold advance_chromosome
  simp only
  obtain ⟨a1, a2, _, _, a5, _⟩ :=
    chrom_last_loop_frame c (cs.regions.data.length - cs.regions.last) cs
  have hexit := chrom_last_loop_exit c (cs.regions.data.length - cs.regions.last) cs
    (le_refl _)
  generalize advance_chromosome_last_loop c (cs.regions.data.length - cs.regions.last) cs
    = cs1 at a1 a2 a5 hexit ⊢
  rw [(chrom_first_loop_frame c _ cs1).2.1]
  refine chrom_first_loop_le c _ cs1 cs1.regions.last (by omega) ?_
  intro r hr
  rw [a1] at hr
  exact hexit r hr

theorem advance_last_in_range (f l : Nat) (c : GenomicRegion) (cs : Cursors T)
    (h : cs.regions.last ≤ cs.regions.data.length) :
    (advance f l c cs).regions.last ≤ cs.regions.data.length := by
  by_contra hcon
  obtain ⟨r, hr, _⟩ := advance_added f l c cs ((advance f l c cs).regions.last - 1)
    (by omega) (by omega)
  have := (List.getElem?_eq_some.mp hr).1
  omega

theorem advance_chromosome_last_in_range (c : GenomicRegion) (cs : Cursors T)
    (h : cs.regions.last ≤ cs.regions.data.length) :
    (advance_chromosome c cs).regions.last ≤ cs.regions.data.length := by
  by_contra hcon
  obtain ⟨r, hr, _⟩ := advance_chromosome_skipped c cs
    ((advance_chromosome c cs).regions.last - 1) (Or.inr ⟨by omega, by omega⟩)
  have := (List.getElem?_eq_some.mp hr).1
  omega

theorem run_calls_not_inverted (calls : List WindowCall) (cs : Cursors T)
    (hhead : cs.regions.first ≤ cs.regions.last)
    (hwf : ∀ r ∈ cs.regions.data, r.start ≤ r.end_)
    (hcalls : ∀ call ∈ calls, call_ordered call) :
    (run_calls calls cs).regions.first ≤ (run_calls calls cs).regions.last ∧
    (cs.regions.last ≤ cs.regions.data.length →
      (run_calls calls cs).regions.last ≤ cs.regions.data.length) := by
  induction calls generalizing cs with
  | nil => exact ⟨hhead, fun h => h⟩
  | cons call rest ih =>
    have hcall := hcalls call (List.mem_cons_self _ _)
    have hdata := (run_call_frame call cs).1
    have h1 : (run_call call cs).regions.first ≤ (run_call call cs).regions.last := by
      cases call with
      | advance f l c => exact advance_not_inverted f l c cs hhead hcall hwf
      | advance_chromosome c => exact advance_chromosome_not_inverted c cs hhead
    have h2 : cs.regions.last ≤ cs.regions.data.length →
        (run_call call cs).regions.last ≤ cs.regions.data.length := by
      intro h
      cases call with
      | advance f l c => exact advance_last_in_range f l c cs h
      | advance_chromosome c => exact advance_chromosome_last_in_range c cs h
    obtain ⟨i1, i2⟩ := ih (run_call call cs) h1 (by rw [hdata]; exact hwf)
      (fun q hq => hcalls q (List.mem_cons_of_mem _ hq))
    have hfold : run_calls (call :: rest) cs = run_calls rest (run_call call cs) := rfl
    rw [hfold]
    refine ⟨i1, fun h => ?_⟩
    have := i2 (by rw [hdata]; exact h2 h)
    rwa [hdata] at this

end InversionLemmas

/-- C21: when the head is at or before the tail, every interval of the stream has
`start <= end` and `first <= last`, the head is at or before the tail after
`advance(first, last, chrom)`; the same holds after `advance_chromosome(chrom)`
and after every sequence of such calls; with the tail inside the stream before
the calls it stays inside, so the inner loop of the scan runs from the head up
to the tail over regions of the stream. -/
theorem window_never_inverted {T : Type} (cs : Cursors T) (calls : List WindowCall)
    (hhead : cs.regions.first ≤ cs.regions.last)
    (hwf : ∀ r ∈ cs.regions.data, r.start ≤ r.end_)
    (hcalls : ∀ call ∈ calls, call_ordered call) :
    (∀ first last chrom_region, first ≤ last →
      (advance first last chrom_region cs).regions.first ≤
        (advance first last chrom_region cs).regions.last) ∧
    (∀ chrom_region,
      (advance_chromosome chrom_region cs).regions.first ≤
        (advance_chromosome chrom_region cs).regions.last) ∧
    (run_calls calls cs).regions.first ≤ (run_calls calls cs).regions.last ∧
    (cs.regions.last ≤ cs.regions.data.length →
      (run_calls calls cs).regions.last ≤ cs.regions.data.length ∧
      (∀ j, (run_calls calls cs).regions.first ≤ j → j < (run_calls calls cs).regions.last →
        ∃ r, cs.regions.data[j]? = some r)) ∧
    (∀ (f : GenomicRegion → T → Nat × Nat → Option (Nat × Nat)) (max_mismatches : ℚ),
      accumulate f max_mismatches (run_calls calls cs) =
        accumulate_loop f max_mismatches (run_calls calls cs).regions
          (run_calls calls cs).reads
          ((run_calls calls cs).regions.last - (run_calls calls cs).regions.first)
          (run_calls calls cs).regions.first (run_calls calls cs).reads.first (0, 0)) := by
  obtain ⟨h1, h2⟩ := run_calls_not_inverted calls cs hhead hwf hcalls
  refine ⟨fun f l c hfl => advance_not_inverted f l c cs hhead hfl hwf,
    fun c => advance_chromosome_not_inverted c cs hhead, h1, ?_, ?_⟩
  · intro hrange
    refine ⟨h2 hrange, fun j _ hj => ?_⟩
    have hlen := h2 hrange
    exact ⟨_, List.getElem?_eq_getElem (by omega)⟩
  · intro f M
    unfold accumulate
    rw [if_neg (by omega)]

/-- C21 witness: the scan of `chr1` at positions 0, 1 and 5 followed by the move
to `chr2`, on the stream with one read on each chromosome. -/
theorem window_never_inverted_witness :
    (ex_two_chroms.regions.first ≤ ex_two_chroms.regions.last) ∧
    (∀ r ∈ ex_two_chroms.regions.data, r.start ≤ r.end_) ∧
    (∀ call ∈ [WindowCall.advance 0 1 ex_chrom_region, .advance 1 2 ex_chrom_region,
        .advance 5 6 ex_chrom_region, .advance_chromosome ⟨"chr2", 0, 0, '+', 0⟩],
      call_ordered call) ∧
    (ex_two_chroms.regions.last ≤ ex_two_chroms.regions.data.length) ∧
    ((run_calls [.advance 0 1 ex_chrom_region, .advance 1 2 ex_chrom_region,
        .advance 5 6 ex_chrom_region, .advance_chromosome ⟨"chr2", 0, 0, '+', 0⟩]
        ex_two_chroms).regions.first = 1) ∧
    ((run_calls [.advance 0 1 ex_chrom_region, .advance 1 2 ex_chrom_region,
        .advance 5 6 ex_chrom_region, .advance_chromosome ⟨"chr2", 0, 0, '+', 0⟩]
        ex_two_chroms).regions.first ≤
      (run_calls [.advance 0 1 ex_chrom_region, .advance 1 2 ex_chrom_region,
        .advance 5 6 ex_chrom_region, .advance_chromosome ⟨"chr2", 0, 0, '+', 0⟩]
        ex_two_chroms).regions.last) ∧
    ((run_calls [.advance 0 1 ex_chrom_region, .advance 1 2 ex_chrom_region,
        .advance 5 6 ex_chrom_region, .advance_chromosome ⟨"chr2", 0, 0, '+', 0⟩]
        ex_two_chroms).regions.last ≤ ex_two_chroms.regions.data.length) :=
  ⟨by decide, by decide, by decide, by decide, by decide,
    (window_never_inverted ex_two_chroms
      [.advance 0 1 ex_chrom_region, .advance 1 2 ex_chrom_region,
        .advance 5 6 ex_chrom_region, .advance_chromosome ⟨"chr2", 0, 0, '+', 0⟩]
      (by decide) (by decide) (by decide)).2.2.1,
    ((window_never_inverted ex_two_chroms
      [.advance 0 1 ex_chrom_region, .advance 1 2 ex_chrom_region,
        .advance 5 6 ex_chrom_region, .advance_chromosome ⟨"chr2", 0, 0, '+', 0⟩]
      (by decide) (by decide) (by decide)).2.2.2.1 (by decide)).1⟩

section ReferenceRangeLemmas

variable {T : Type}

theorem empty_bound : usub ([] : List Char).length 1 = 18446744073709551614 + 1 := by
  decide

theorem scan_empty_aborts
    (fc fg : Nat → GenomicRegion → T → Nat × Nat → Option (Nat × Nat))
    (c : GenomicRegion) (M : ℚ) (cs : Cursors T)
    (hgood : cs.regions.first_is_good = true) :
    (scan_chromosome fc fg [] c M cs).aborted = true ∧
    (scan_chromosome fc fg [] c M cs).out = [] := by
  unfold scan_chromosome
  have hb : 0 < usub 0 1 := by decide
  rw [empty_bound, scan_chromosome_loop]
  simp [hgood, hb]

theorem scan_cpg_empty_aborts
    (f : Nat → GenomicRegion → T → Nat × Nat → Option (Nat × Nat))
    (c : GenomicRegion) (M : ℚ) (cs : Cursors T)
    (hgood : cs.regions.first_is_good = true) :
    (scan_chromosome_cpg f [] c M cs).aborted = true ∧
    (scan_chromosome_cpg f [] c M cs).out = [] := by
  unfold scan_chromosome_cpg
  have hb : 0 < usub 0 1 := by decide
  rw [empty_bound, scan_chromosome_cpg_loop]
  simp [hgood, is_cpg, hb]

theorem one_base_bound (b : Char) : usub [b].length 1 = 0 := by
  show usub 1 1 = 0
  decide

theorem scan_one_base
    (fc fg : Nat → GenomicRegion → T → Nat × Nat → Option (Nat × Nat))
    (b : Char) (c : GenomicRegion) (M : ℚ) (cs : Cursors T) :
    scan_chromosome fc fg [b] c M cs = ⟨cs, [], false⟩ ∧
    scan_chromosome_cpg fc [b] c M cs = ⟨cs, [], false⟩ := by
  unfold scan_chromosome scan_chromosome_cpg
  rw [one_base_bound]
  exact ⟨rfl, rfl⟩

theorem guard_in_range (chrom : List Char) (hne : chrom ≠ []) (i : Nat)
    (hi : i < usub chrom.length 1) :
    i + 1 < chrom.length ∧ uadd i 1 = i + 1 := by
  have hlen : 0 < chrom.length := List.length_pos.mpr hne
  unfold usub uadd SIZE_MOD at *
  omega

end ReferenceRangeLemmas

/-- C22 (code evaluated at the failing input): for the empty chromosome sequence the
loop bound `chrom.length() - 1` is `2^64 - 1`, so with a valid head the loop of
`scan_chromosome` is entered at `i = 0` and reads `chrom[0]`, a position that is
not below the length 0, and `scan_chromosome_cpg` applies the CpG test to
positions 0 and 1 of the empty sequence; this holds for every stream with a
valid head and is evaluated on a stream with one read. A one-base sequence is
never read, and for every non-empty sequence each position `i` that passes the
loop guard has `i` and `i + 1` inside the sequence. -/
theorem empty_reference_read_out_of_range :
    usub ([] : List Char).length 1 = 2 ^ 64 - 1 ∧
    ex_one_read.regions.first_is_good = true ∧
    ([] : List Char)[0]? = none ∧
    is_cpg [] 0 = none ∧
    (scan_chromosome PlainSeq.add_contribution_c PlainSeq.add_contribution_g
      [] ex_chrom_region 100 ex_one_read).aborted = true ∧
    (scan_chromosome_cpg PlainSeq.add_contribution_cpg
      [] ex_chrom_region 100 ex_one_read).aborted = true ∧
    (∀ (fc fg : Nat → GenomicRegion → List Char → Nat × Nat → Option (Nat × Nat))
      (c : GenomicRegion) (M : ℚ) (cs : Cursors (List Char)),
      cs.regions.first_is_good = true →
        (scan_chromosome fc fg [] c M cs).aborted = true ∧
        (scan_chromosome_cpg fc [] c M cs).aborted = true) ∧
    (∀ (fc fg : Nat → GenomicRegion → FASTQRecord → Nat × Nat → Option (Nat × Nat))
      (c : GenomicRegion) (M : ℚ) (cs : Cursors FASTQRecord),
      cs.regions.first_is_good = true →
        (scan_chromosome fc fg [] c M cs).aborted = true ∧
        (scan_chromosome_cpg fc [] c M cs).aborted = true) ∧
    (∀ (b : Char) (fc fg : Nat → GenomicRegion → List Char → Nat × Nat → Option (Nat × Nat))
      (c : GenomicRegion) (M : ℚ) (cs : Cursors (List Char)),
      scan_chromosome fc fg [b] c M cs = ⟨cs, [], false⟩ ∧
      scan_chromosome_cpg fc [b] c M cs = ⟨cs, [], false⟩) ∧
    (∀ (chrom : List Char), chrom ≠ [] → ∀ i, i < usub chrom.length 1 →
      i + 1 < chrom.length ∧ (∃ b, chrom[i]? = some b) ∧ (∃ b, is_cpg chrom i = some b)) := by
  refine ⟨by decide, by decide, by decide, by decide, by decide, by decide, ?_, ?_, ?_, ?_⟩
  · intro fc fg c M cs hgood
    exact ⟨(scan_empty_aborts fc fg c M cs hgood).1, (scan_cpg_empty_aborts fc c M cs hgood).1⟩
  · intro fc fg c M cs hgood
    exact ⟨(scan_empty_aborts fc fg c M cs hgood).1, (scan_cpg_empty_aborts fc c M cs hgood).1⟩
  · intro b fc fg c M cs
    exact scan_one_base fc fg b c M cs
  · intro chrom hne i hi
    obtain ⟨h1, h2⟩ := guard_in_range chrom hne i hi
    have h0 : i < chrom.length := by omega
    refine ⟨h1, ⟨_, List.getElem?_eq_getElem h0⟩, ?_⟩
    unfold is_cpg
    rw [h2, List.getElem?_eq_getElem h0, List.getElem?_eq_getElem h1]
    exact ⟨_, rfl⟩

section OffsetLemmas

theorem foldl_min_spec (reads : List epiread) (a : Nat) :
    reads.foldl (fun acc r => min r.pos acc) a ≤ a ∧
    (∀ r ∈ reads, reads.foldl (fun acc r => min r.pos acc) a ≤ r.pos) ∧
    (reads.foldl (fun acc r => min r.pos acc) a = a ∨
      ∃ r ∈ reads, r.pos = reads.foldl (fun acc r => min r.pos acc) a) := by
  induction reads generalizing a with
  | nil => simp
  | cons x rest ih =>
    obtain ⟨h1, h2, h3⟩ := ih (min x.pos a)
    simp only [List.foldl_cons]
    refine ⟨le_trans h1 (min_le_right _ _), ?_, ?_⟩
    · intro r hr
      rcases List.mem_cons.mp hr with rfl | hr
      · exact le_trans h1 (min_le_left _ _)
      · exact h2 r hr
    · rcases h3 with h3 | ⟨r, hr, hrp⟩
      · rcases Nat.le_total x.pos a with hxa | hxa
        · right
          refine ⟨x, List.mem_cons_self _ _, ?_⟩
          rw [h3, min_eq_left hxa]
        · left
          rw [h3, min_eq_right hxa]
      · exact Or.inr ⟨r, List.mem_cons_of_mem _ hr, hrp⟩

theorem offset_is_minimum (reads : List epiread) (hne : reads ≠ [])
    (hpos : ∀ r ∈ reads, r.pos < SIZE_MOD) :
    (∃ r ∈ reads, r.pos = (adjust_read_offsets reads).1) ∧
    (∀ r ∈ reads, (adjust_read_offsets reads).1 ≤ r.pos) := by
  obtain ⟨h1, h2, h3⟩ := foldl_min_spec reads (SIZE_MOD - 1)
  refine ⟨?_, h2⟩
  rcases h3 with h3 | h3
  · obtain ⟨x, hx⟩ := List.exists_mem_of_ne_nil reads hne
    refine ⟨x, hx, ?_⟩
    have ha := h2 x hx
    have hb := hpos x hx
    show x.pos = reads.foldl (fun acc r => min r.pos acc) (SIZE_MOD - 1)
    omega
  · exact h3

theorem adjusted_list (reads : List epiread) (hne : reads ≠ [])
    (hpos : ∀ r ∈ reads, r.pos < SIZE_MOD) :
    (adjust_read_offsets reads).2 =
      reads.map (fun r => ⟨r.chr, r.pos - (adjust_read_offsets reads).1, r.seq⟩) := by
  obtain ⟨_, hmin⟩ := offset_is_minimum reads hne hpos
  unfold adjust_read_offsets at hmin ⊢
  simp only at hmin ⊢
  apply List.map_congr_left
  intro r hr
  rw [usub_eq_sub _ _ (hmin r hr) (hpos r hr)]

end OffsetLemmas

/-- C23: for a non-empty list of epireads with positions in the range of `size_t`,
`adjust_read_offsets` returns a position of the list that is at most every
position of the list; the list after the call has, in the same order, the same
`chr` and `seq` and each `pos` lowered by the returned minimum, so some position
is 0 afterwards and the difference of any two positions is the same as before;
a second call returns 0 and leaves the list as it is. -/
theorem adjust_read_offsets_normalises (reads : List epiread) (hne : reads ≠ [])
    (hpos : ∀ r ∈ reads, r.pos < SIZE_MOD) :
    (∃ r ∈ reads, r.pos = (adjust_read_offsets reads).1) ∧
    (∀ r ∈ reads, (adjust_read_offsets reads).1 ≤ r.pos) ∧
    (adjust_read_offsets reads).2 =
      reads.map (fun r => ⟨r.chr, r.pos - (adjust_read_offsets reads).1, r.seq⟩) ∧
    (adjust_read_offsets reads).2.length = reads.length ∧
    (∀ (i : Nat) (r : epiread), reads[i]? = some r →
      ∃ q, (adjust_read_offsets reads).2[i]? = some q ∧ q.chr = r.chr ∧ q.seq = r.seq ∧
        q.pos + (adjust_read_offsets reads).1 = r.pos) ∧
    (∃ q ∈ (adjust_read_offsets reads).2, q.pos = 0) ∧
    (∀ q ∈ (adjust_read_offsets reads).2, 0 ≤ q.pos ∧ q.pos < SIZE_MOD) ∧
    (∀ (i j : Nat) (a b p q : epiread), reads[i]? = some a → reads[j]? = some b →
      (adjust_read_offsets reads).2[i]? = some p →
      (adjust_read_offsets reads).2[j]? = some q →
      (p.pos : ℤ) - (q.pos : ℤ) = (a.pos : ℤ) - (b.pos : ℤ)) ∧
    adjust_read_offsets (adjust_read_offsets reads).2 = (0, (adjust_read_offsets reads).2) := by
  obtain ⟨hex, hmin⟩ := offset_is_minimum reads hne hpos
  have hlist := adjusted_list reads hne hpos
  generalize (adjust_read_offsets reads).1 = m at hex hmin hlist
  generalize (adjust_read_offsets reads).2 = out at hlist
  subst hlist
  have hget : ∀ (i : Nat) (r : epiread), reads[i]? = some r →
      (reads.map (fun r => (⟨r.chr, r.pos - m, r.seq⟩ : epiread)))[i]? =
        some ⟨r.chr, r.pos - m, r.seq⟩ := by
    intro i r hr
    rw [List.getElem?_map, hr]
    rfl
  have hzero : ∃ q ∈ reads.map (fun r => (⟨r.chr, r.pos - m, r.seq⟩ : epiread)), q.pos = 0 := by
    obtain ⟨r, hr, hrm⟩ := hex
    exact ⟨_, List.mem_map.mpr ⟨r, hr, rfl⟩, by simp [hrm]⟩
  have hrange : ∀ q ∈ reads.map (fun r => (⟨r.chr, r.pos - m, r.seq⟩ : epiread)),
      q.pos < SIZE_MOD := by
    intro q hq
    obtain ⟨r, hr, rfl⟩ := List.mem_map.mp hq
    have := hpos r hr
    show r.pos - m < SIZE_MOD
    omega
  refine ⟨hex, hmin, rfl, by simp, ?_, hzero, fun q hq => ⟨Nat.zero_le _, hrange q hq⟩, ?_, ?_⟩
  · intro i r hr
    refine ⟨_, hget i r hr, rfl, rfl, ?_⟩
    have := hmin r (List.mem_iff_getElem?.mpr ⟨i, hr⟩)
    show r.pos - m + m = r.pos
    omega
  · intro i j a b p q ha hb hp hq
    rw [hget i a ha] at hp
    rw [hget j b hb] at hq
    cases hp
    cases hq
    have h1 := hmin a (List.mem_iff_getElem?.mpr ⟨i, ha⟩)
    have h2 := hmin b (List.mem_iff_getElem?.mpr ⟨j, hb⟩)
    show ((a.pos - m : Nat) : ℤ) - ((b.pos - m : Nat) : ℤ) = _
    omega
  · have hne2 : reads.map (fun r => (⟨r.chr, r.pos - m, r.seq⟩ : epiread)) ≠ [] := by
      simpa using hne
    obtain ⟨hex2, hmin2⟩ := offset_is_minimum _ hne2 hrange
    have hl2 := adjusted_list _ hne2 hrange
    obtain ⟨q, hq, hq0⟩ := hzero
    have hm0 : (adjust_read_offsets
        (reads.map (fun r => (⟨r.chr, r.pos - m, r.seq⟩ : epiread)))).1 = 0 := by
      have := hmin2 q hq
      omega
    rw [hm0] at hl2
    refine Prod.ext hm0 ?_
    rw [hl2]
    simp

/-- C23 witness: reads at positions 7, 3 and 12 give the offset 3 and the
positions 4, 0 and 9; a second call gives the offset 0. -/
theorem adjust_read_offsets_normalises_witness :
    ex_epireads ≠ [] ∧ (∀ r ∈ ex_epireads, r.pos < SIZE_MOD) ∧
    adjust_read_offsets ex_epireads =
      (3, [⟨"chr1".toList, 4, "CT".toList⟩, ⟨"chr1".toList, 0, "TTC".toList⟩,
        ⟨"chr1".toList, 9, "C".toList⟩]) ∧
    adjust_read_offsets (adjust_read_offsets ex_epireads).2 =
      (0, (adjust_read_offsets ex_epireads).2) :=
  ⟨by decide, by decide, by decide,
    (adjust_read_offsets_normalises ex_epireads (by decide) (by decide)).2.2.2.2.2.2.2.2⟩

end Methcounts
